import Mathlib

/-!
# Inline animation playback controller

A shallow embedding of the playback logic of `AnimationTextObject`
(`src/mumble/CustomElements.cpp`): the frame setter `setFrame`, and the helpers that
`mousePress` builds around it (`togglePause`, `toggleCache`, `setSpeed`, `changeSpeed`,
`changeFrame`, `setFrameByPercentage`).

The decoder (`QMovie`) is an external library object.  Its operations are a parameter
of the embedding (structure `QMovie`), and every assumption a theorem makes about a
decoder is an explicit hypothesis of that theorem.

Loops whose exit depends on the decoder take a `fuel` bound and return `none` when it
is exhausted; the theorems show that enough fuel yields a result.

C++ `int` values are modelled by `Int`; all quantities (frame indices, delays in
milliseconds, speed percentages) are assumed to stay within the range of `int`, where
signed overflow would be undefined behaviour anyway.
-/

namespace AnimationTextObject

/-! ## Data model -/

/-- Playback state of a decoder, `QMovie::MovieState`. -/
inductive MovieState where
  | NotRunning
  | Paused
  | Running
  deriving DecidableEq, Repr

/-- Cache mode of a decoder, `QMovie::CacheMode`. -/
inductive CacheMode where
  | CacheNone
  | CacheAll
  deriving DecidableEq, Repr

/-- Loop mode of an animation, `AnimationTextObject::LoopMode` (CustomElements.h:111). -/
inductive LoopMode where
  | Unchanged
  | Loop
  | NoLoop
  deriving DecidableEq, Repr

/-- The operations of the external decoder `QMovie` that the controller calls, over an
arbitrary decoder state `M`.  `jumpToNextFrame` returns the success flag together with
the decoder state after the call; `setDevice` stands for `device->reset()` followed by
`setDevice(device)`, which reloads the stream.  The effect of a call includes that of
the slots connected to the signals it emits (CustomElements.cpp:784-812). -/
structure QMovie (M : Type) where
  state : M → MovieState
  cacheMode : M → CacheMode
  currentFrameNumber : M → Int
  speed : M → Int
  jumpToFrame : M → Int → M
  jumpToNextFrame : M → Bool × M
  start : M → M
  stop : M → M
  setPaused : M → Bool → M
  setSpeed : M → Int → M
  setCacheMode : M → CacheMode → M
  setDevice : M → M

/-- An embedded animation: the decoder state `movie` together with the dynamic
properties the controller attaches to it (`lastFrameIndex`, `LoopMode`, `frameDelays`,
`totalMs`), and the number of `update(videoControlsRect)` requests emitted to the
document layout so far (`updateVideoControls`, CustomElements.cpp:614-616). -/
structure Animation (M : Type) where
  movie : M
  lastFrameIndex : Int
  loopMode : LoopMode
  frameDelays : List Int
  totalMs : Int
  updateRequests : Nat
  deriving DecidableEq

/-- What one iteration of the traversal loop of `setFrame` did: a successful
`jumpToNextFrame` (with the decoder's frame number after it), a failed one answered by
`start()` (with the frame number after the restart), or a failed one answered by
`break`. -/
inductive SeekEvent where
  | advanced (frame : Int)
  | restarted (frame : Int)
  | stalled
  deriving DecidableEq, Repr

variable {M : Type}

/-! ## `setFrame` (CustomElements.cpp:257-290) -/

/-- The range clamp at the head of `setFrame` (lines 259-263). -/
def clampFrameIndex (frameIndex lastFrameIndex : Int) : Int :=
  let isFrameIndexTooLow := decide (frameIndex < 0)
  let isFrameIndexTooHigh := decide (frameIndex > lastFrameIndex)
  if isFrameIndexTooLow || isFrameIndexTooHigh then
    (if isFrameIndexTooLow then 0 else lastFrameIndex)
  else frameIndex

/-- The `while` loop of `setFrame` (lines 276-286).  `fuel` bounds the number of times
the loop condition is evaluated; `none` means the bound was hit.  The second component
of the result is the list of iterations performed, in order. -/
def setFrameLoop (Q : QMovie M) (frameIndex : Int) :
    Nat → M → Bool → Option (M × List SeekEvent)
  | 0, _, _ => none
  | fuel + 1, animation, isStartTried =>
    if Q.currentFrameNumber animation != frameIndex then
      match Q.jumpToNextFrame animation with
      | (false, animation1) =>
        if Q.state animation1 == MovieState.NotRunning && !isStartTried then
          let animation2 := Q.start animation1
          (setFrameLoop Q frameIndex fuel animation2 true).map
            (fun r => (r.1, SeekEvent.restarted (Q.currentFrameNumber animation2) :: r.2))
        else
          some (animation1, [SeekEvent.stalled])
      | (true, animation1) =>
        (setFrameLoop Q frameIndex fuel animation1 isStartTried).map
          (fun r => (r.1, SeekEvent.advanced (Q.currentFrameNumber animation1) :: r.2))
    else
      some (animation, [])

/-- The body of `setFrame`, returning the animation afterwards and the iterations of
the traversal loop (empty when the frames are cached). -/
def setFrameTraced (Q : QMovie M) (fuel : Nat) (a : Animation M) (frameIndex : Int) :
    Option (Animation M × List SeekEvent) :=
  let lastFrameIndex := a.lastFrameIndex
  let frameIndex := clampFrameIndex frameIndex lastFrameIndex
  if Q.cacheMode a.movie == CacheMode.CacheAll then
    some ({ a with movie := Q.jumpToFrame a.movie frameIndex }, [])
  else
    let wasRunning := Q.state a.movie == MovieState.Running
    let animation1 := if !wasRunning then Q.setPaused a.movie false else a.movie
    match setFrameLoop Q frameIndex fuel animation1 false with
    | none => none
    | some (animation2, log) =>
      let animation3 := if !wasRunning then Q.setPaused animation2 true else animation2
      some ({ a with movie := animation3 }, log)

/-- The function `setFrame`: the animation after the call. -/
def setFrame (Q : QMovie M) (fuel : Nat) (a : Animation M) (frameIndex : Int) :
    Option (Animation M) :=
  (setFrameTraced Q fuel a frameIndex).map Prod.fst

/-! ## Helpers of `mousePress` (CustomElements.cpp:614-721) -/

/-- The helper `updateVideoControls` (lines 614-616): one more update request. -/
def updateVideoControls (a : Animation M) : Animation M :=
  { a with updateRequests := a.updateRequests + 1 }

/-- The `for` loop of `setFrameByPercentage` (lines 626-644) over the delays not yet
visited: `delay :: rest` is `frameDelays[i], frameDelays[i + 1], ...`, so
`i + 1 < frameDelayAmount` holds exactly when `rest` is not empty.  The result is the
value of `frameIndex` after the loop (0 when no iteration breaks). -/
def frameIndexLoop (msPassedAtSelection : Int) : List Int → Int → Int → Int
  | [], _, _ => 0
  | delay :: rest, msUntilCurrentFrame, i =>
    let msUntilCurrentFrame := msUntilCurrentFrame + delay
    if msPassedAtSelection ≤ msUntilCurrentFrame then
      let isNextFrame := !rest.isEmpty
      let currentFrameDifference := msUntilCurrentFrame - msPassedAtSelection
      let previousFrameDifference := currentFrameDifference - delay
      let nextFrameDifference :=
        if isNextFrame then msUntilCurrentFrame + rest.headD 0 - msPassedAtSelection else -9999
      let isPreviousFrameCloser :=
        decide ((previousFrameDifference.natAbs : Int) < currentFrameDifference)
      let isNextFrameCloser :=
        if isNextFrame then decide ((nextFrameDifference.natAbs : Int) < currentFrameDifference)
        else false
      i + 1 + (if isPreviousFrameCloser then -1 else if isNextFrameCloser then 1 else 0)
    else
      frameIndexLoop msPassedAtSelection rest msUntilCurrentFrame (i + 1)

/-- The frame index `setFrameByPercentage` hands to `setFrame`, as a function of
`msPassedAtSelection` (the value of `round(percentage * totalMs)`, line 623). -/
def frameIndexByMs (frameDelays : List Int) (msPassedAtSelection : Int) : Int :=
  frameIndexLoop msPassedAtSelection frameDelays 0 0

/-- The helper `setFrameByPercentage` (lines 620-646), taking the rounded product
`msPassedAtSelection` in place of the floating-point `percentage`. -/
def setFrameByPercentage (Q : QMovie M) (fuel : Nat) (a : Animation M)
    (msPassedAtSelection : Int) : Option (Animation M) :=
  setFrame Q fuel a (frameIndexByMs a.frameDelays msPassedAtSelection)

/-- The helper `togglePause` (lines 657-666). -/
def togglePause (Q : QMovie M) (a : Animation M) : Animation M :=
  let state := Q.state a.movie
  if state == MovieState.NotRunning then
    { a with movie := Q.setPaused (Q.start a.movie) false }
  else
    { a with movie := Q.setPaused a.movie (state != MovieState.Paused) }

/-- The helper `toggleCache` (lines 667-693). -/
def toggleCache (Q : QMovie M) (fuel : Nat) (a : Animation M) : Option (Animation M) :=
  let wasCached := Q.cacheMode a.movie == CacheMode.CacheAll
  let cacheModeToSet := if wasCached then CacheMode.CacheNone else CacheMode.CacheAll
  let state := Q.state a.movie
  let wasPaused := state == MovieState.Paused
  let wasRunning := state == MovieState.Running
  let previousFrame := Q.currentFrameNumber a.movie
  let animation1 := Q.stop a.movie
  let animation2 := Q.setDevice animation1
  let animation3 := Q.setCacheMode animation2 cacheModeToSet
  let animation4 := Q.start animation3
  match setFrame Q fuel { a with movie := animation4 } previousFrame with
  | none => none
  | some a5 =>
    let a6 :=
      if wasPaused || (!wasRunning && previousFrame != 0 && previousFrame != a.lastFrameIndex) then
        { a5 with movie := Q.setPaused a5.movie true }
      else if !wasRunning then
        { a5 with movie := Q.stop a5.movie }
      else a5
    some (updateVideoControls a6)

/-- The helper `setSpeed` (lines 694-702). -/
def setSpeed (Q : QMovie M) (a : Animation M) (percentage : Int) : Animation M :=
  if percentage > 0 then
    updateVideoControls { a with movie := Q.setSpeed a.movie percentage }
  else a

/-- The helper `changeSpeed` (lines 719-721). -/
def changeSpeed (Q : QMovie M) (a : Animation M) (percentage : Int) : Animation M :=
  setSpeed Q a (Q.speed a.movie + percentage)

/-- The index `changeFrame` hands to `setFrame` (lines 711-717).  The quotient
`frameIndex / (double)lastFrameIndex` of two `int` values is exact enough that its
`floor` is the floored integer quotient, `Int.fdiv`; for `lastFrameIndex = 0` the C++
expression is not a finite number and the model is not meaningful. -/
def changeFrameIndex (currentFrameNumber amount lastFrameIndex : Int) : Int :=
  let frameIndex := currentFrameNumber + amount
  let amountOfTimesGreater : Int := (Int.fdiv frameIndex lastFrameIndex).natAbs
  let lastFrameIndexScaledToInput := lastFrameIndex * amountOfTimesGreater
  let frameIndexWrappedBackward := lastFrameIndexScaledToInput + 1 + frameIndex
  let frameIndexWrappedForward := frameIndex - 1 - lastFrameIndexScaledToInput
  if frameIndex < 0 then frameIndexWrappedBackward
  else if frameIndex > lastFrameIndex then frameIndexWrappedForward
  else frameIndex

/-- The helper `changeFrame` (lines 710-718). -/
def changeFrame (Q : QMovie M) (fuel : Nat) (a : Animation M) (amount : Int) :
    Option (Animation M) :=
  setFrame Q fuel a (changeFrameIndex (Q.currentFrameNumber a.movie) amount a.lastFrameIndex)

/-- A speed request issued by the pointer dispatch: `setSpeed(percent)` or
`changeSpeed(delta)`. -/
inductive SpeedCall where
  | setSpeed (percent : Int)
  | changeSpeed (delta : Int)
  deriving DecidableEq, Repr

/-- Perform one speed request. -/
def applySpeedCall (Q : QMovie M) (a : Animation M) : SpeedCall → Animation M
  | SpeedCall.setSpeed percent => setSpeed Q a percent
  | SpeedCall.changeSpeed delta => changeSpeed Q a delta

/-- Perform a sequence of speed requests, first to last. -/
def applySpeedCalls (Q : QMovie M) (a : Animation M) (calls : List SpeedCall) : Animation M :=
  calls.foldl (applySpeedCall Q) a

/-! ## Observations on a trace of the traversal loop -/

/-- Whether an iteration of the traversal loop restarted the decoder. -/
def SeekEvent.isRestart : SeekEvent → Bool
  | SeekEvent.restarted _ => true
  | _ => false

/-- Number of restarts in a trace of the traversal loop. -/
def restartCount (log : List SeekEvent) : Nat :=
  (log.filter SeekEvent.isRestart).length

/-- The last frame number reported in a trace of the traversal loop, or `init` (the
frame before the loop) when the trace reports none. -/
def lastReached : Int → List SeekEvent → Int
  | init, [] => init
  | _, SeekEvent.advanced frame :: rest => lastReached frame rest
  | _, SeekEvent.restarted frame :: rest => lastReached frame rest
  | init, SeekEvent.stalled :: rest => lastReached init rest

/-- The decoder state a trace of the traversal loop leads to from `m`: every iteration
calls `jumpToNextFrame`, and a restart calls `start()` on the state the failed call
left. -/
def decoderAfter (Q : QMovie M) : M → List SeekEvent → M
  | m, [] => m
  | m, SeekEvent.advanced _ :: rest => decoderAfter Q (Q.jumpToNextFrame m).2 rest
  | m, SeekEvent.restarted _ :: rest =>
    decoderAfter Q (Q.start (Q.jumpToNextFrame m).2) rest
  | m, SeekEvent.stalled :: rest => decoderAfter Q (Q.jumpToNextFrame m).2 rest

/-- The seek policy as the specification words it (section 4.2, forward-only seek),
checked on a trace from the decoder state `m`: the trace ends without a failure only at
the target; an advance is recorded only off the target and when `jumpToNextFrame`
succeeded; a restart only when it failed, the decoder is stopped after the failure and
no restart was tried before; and a failed advance in any other situation (decoder not
stopped, or a restart already tried) is the last iteration. -/
def followsSeekPolicy (Q : QMovie M) (target : Int) : Bool → M → List SeekEvent → Bool
  | _, m, [] => Q.currentFrameNumber m == target
  | isStartTried, m, SeekEvent.advanced frame :: rest =>
    Q.currentFrameNumber m != target && (Q.jumpToNextFrame m).1 &&
      frame == Q.currentFrameNumber (Q.jumpToNextFrame m).2 &&
      followsSeekPolicy Q target isStartTried (Q.jumpToNextFrame m).2 rest
  | isStartTried, m, SeekEvent.restarted frame :: rest =>
    Q.currentFrameNumber m != target && !(Q.jumpToNextFrame m).1 &&
      Q.state (Q.jumpToNextFrame m).2 == MovieState.NotRunning && !isStartTried &&
      frame == Q.currentFrameNumber (Q.start (Q.jumpToNextFrame m).2) &&
      followsSeekPolicy Q target true (Q.start (Q.jumpToNextFrame m).2) rest
  | isStartTried, m, SeekEvent.stalled :: rest =>
    Q.currentFrameNumber m != target && !(Q.jumpToNextFrame m).1 &&
      !(Q.state (Q.jumpToNextFrame m).2 == MovieState.NotRunning && !isStartTried) &&
      rest.isEmpty

/-- Number of successful advances that take a stream of `L + 1` frames, which wraps
from its last frame to frame 0, from frame `c` to frame `target`. -/
def stepsToTarget (L target c : Int) : Nat :=
  if c ≤ target then (target - c).toNat else (L - c).toNat + 1 + target.toNat

/-- What the traversal loop, entered at decoder state `m` with the flag `isStartTried`,
guarantees about the state `m1` and the trace `log` it ends with. -/
def SeekOutcome (Q : QMovie M) (target : Int) (isStartTried : Bool) (m m1 : M)
    (log : List SeekEvent) : Prop :=
  restartCount log ≤ (if isStartTried then 0 else 1) ∧
  SeekEvent.stalled ∉ log.dropLast ∧
  (SeekEvent.stalled ∉ log → Q.currentFrameNumber m1 = target) ∧
  Q.currentFrameNumber m1 = lastReached (Q.currentFrameNumber m) log ∧
  (SeekEvent.stalled ∈ log → restartCount log = 0 → isStartTried = false →
    Q.state m1 ≠ MovieState.NotRunning)

/-- Assumptions on a decoder for a stream of `L + 1` frames that can always be decoded,
following the documented behaviour of the `QMovie` calls: `stop` leaves the decoder
stopped; `setPaused(true)` pauses a decoder that is not stopped; `start` leaves it
running; `jumpToFrame` reaches every frame of `[0, L]`; `jumpToNextFrame` succeeds and
moves to the next frame, or from the last frame to frame 0; and each call leaves alone
what it is not about. -/
structure ReliableDecoder (Q : QMovie M) (L : Int) : Prop where
  stop_state : ∀ m, Q.state (Q.stop m) = MovieState.NotRunning
  stop_cacheMode : ∀ m, Q.cacheMode (Q.stop m) = Q.cacheMode m
  setPaused_state : ∀ m, Q.state m ≠ MovieState.NotRunning →
    Q.state (Q.setPaused m true) = MovieState.Paused
  setPaused_frame : ∀ m b, Q.currentFrameNumber (Q.setPaused m b) = Q.currentFrameNumber m
  setPaused_cacheMode : ∀ m b, Q.cacheMode (Q.setPaused m b) = Q.cacheMode m
  setCacheMode_cacheMode : ∀ m c, Q.cacheMode (Q.setCacheMode m c) = c
  start_state : ∀ m, Q.state (Q.start m) = MovieState.Running
  start_cacheMode : ∀ m, Q.cacheMode (Q.start m) = Q.cacheMode m
  jumpToFrame_frame : ∀ m f, 0 ≤ f → f ≤ L → Q.currentFrameNumber (Q.jumpToFrame m f) = f
  jumpToFrame_state : ∀ m f, Q.state (Q.jumpToFrame m f) = Q.state m
  jumpToFrame_cacheMode : ∀ m f, Q.cacheMode (Q.jumpToFrame m f) = Q.cacheMode m
  next_ok : ∀ m, (Q.jumpToNextFrame m).1 = true
  next_frame : ∀ m, Q.currentFrameNumber (Q.jumpToNextFrame m).2
    = if Q.currentFrameNumber m < L then Q.currentFrameNumber m + 1 else 0
  next_state : ∀ m, Q.state (Q.jumpToNextFrame m).2 = Q.state m
  next_cacheMode : ∀ m, Q.cacheMode (Q.jumpToNextFrame m).2 = Q.cacheMode m

/-! ## Reference decoders

Two concrete decoders, used to instantiate the theorems below at concrete inputs. -/

/-- State of the reference decoders. -/
structure Handle where
  state : MovieState
  cacheMode : CacheMode
  frame : Int
  speed : Int
  deriving DecidableEq, Repr

/-- A decoder for a stream of `lastFrameIndex + 1` frames that repeats for ever:
advancing from the last frame wraps to frame 0 and never fails. -/
def loopingMovie (lastFrameIndex : Int) : QMovie Handle where
  state h := h.state
  cacheMode h := h.cacheMode
  currentFrameNumber h := h.frame
  speed h := h.speed
  jumpToFrame h f := if 0 ≤ f ∧ f ≤ lastFrameIndex then { h with frame := f } else h
  jumpToNextFrame h := (true, { h with frame := if h.frame < lastFrameIndex then h.frame + 1 else 0 })
  start h := { h with state := MovieState.Running }
  stop h := { h with state := MovieState.NotRunning }
  setPaused h paused :=
    if paused then
      (if h.state = MovieState.NotRunning then h else { h with state := MovieState.Paused })
    else { h with state := MovieState.Running }
  setSpeed h percentage := { h with speed := percentage }
  setCacheMode h mode := { h with cacheMode := mode }
  setDevice h := { h with state := MovieState.NotRunning, frame := -1 }

/-- A decoder for a stream of `lastFrameIndex + 1` frames that plays once: advancing
from the last frame fails and leaves the decoder stopped (unless it is paused), and
`start()` on a stopped decoder begins again at frame 0. -/
def playOnceMovie (lastFrameIndex : Int) : QMovie Handle where
  state h := h.state
  cacheMode h := h.cacheMode
  currentFrameNumber h := h.frame
  speed h := h.speed
  jumpToFrame h f := if 0 ≤ f ∧ f ≤ lastFrameIndex then { h with frame := f } else h
  jumpToNextFrame h :=
    if h.frame < lastFrameIndex then (true, { h with frame := h.frame + 1 })
    else if h.state = MovieState.Paused then (false, h)
    else (false, { h with state := MovieState.NotRunning })
  start h :=
    if h.state = MovieState.NotRunning then { h with state := MovieState.Running, frame := 0 }
    else { h with state := MovieState.Running }
  stop h := { h with state := MovieState.NotRunning }
  setPaused h paused :=
    if paused then
      (if h.state = MovieState.NotRunning then h else { h with state := MovieState.Paused })
    else { h with state := MovieState.Running }
  setSpeed h percentage := { h with speed := percentage }
  setCacheMode h mode := { h with cacheMode := mode }
  setDevice h := { h with state := MovieState.NotRunning, frame := -1 }

/-- An animation of `lastFrameIndex + 1` frames of 100 ms each around a reference
decoder state. -/
def sample (lastFrameIndex : Int) (state : MovieState) (cacheMode : CacheMode) (frame : Int) :
    Animation Handle where
  movie := { state := state, cacheMode := cacheMode, frame := frame, speed := 100 }
  lastFrameIndex := lastFrameIndex
  loopMode := LoopMode.Unchanged
  frameDelays := List.replicate (lastFrameIndex + 1).toNat 100
  totalMs := 100 * (lastFrameIndex + 1)
  updateRequests := 0

/-- The sample animation of eleven frames at its last frame, cache mode None, with
loop mode `NoLoop`. -/
def sampleNoLoop (state : MovieState) : Animation Handle :=
  { sample 10 state CacheMode.CacheNone 10 with loopMode := LoopMode.NoLoop }

/-! ## Loop mode (`changeLoopMode`, CustomElements.cpp:703-709) -/

/-- The integer value of a loop mode (`enum LoopMode { Unchanged, Loop, NoLoop }`). -/
def LoopMode.toInt : LoopMode → Int
  | LoopMode.Unchanged => 0
  | LoopMode.Loop => 1
  | LoopMode.NoLoop => 2

/-- The conversion `static_cast< LoopMode >(n)`.  `changeLoopMode` applies it to 0, 1
and 2 only; every other integer is sent to `NoLoop` here. -/
def LoopMode.ofInt (n : Int) : LoopMode :=
  if n = 0 then LoopMode.Unchanged else if n = 1 then LoopMode.Loop else LoopMode.NoLoop

/-- The helper `changeLoopMode` (lines 703-709). -/
def changeLoopMode (a : Animation M) (steps : Int) : Animation M :=
  let loopMode := a.loopMode
  let loopModeChangedTo := loopMode.toInt + steps
  let loopModeResult :=
    if loopModeChangedTo > LoopMode.NoLoop.toInt then 0
    else if loopModeChangedTo < 0 then LoopMode.NoLoop.toInt
    else loopModeChangedTo
  updateVideoControls { a with loopMode := LoopMode.ofInt loopModeResult }

/-! ## Layout geometry and hit regions (CustomElements.cpp:330-382, 549-597)

A `double` coordinate of a `QRectF` is modelled by a rational number: the coordinates
are taken to be exactly representable, so that the sums and differences the code forms
with them are exact. -/

/-- A rectangle with `double` coordinates, `QRectF`. -/
structure QRectF where
  x : ℚ
  y : ℚ
  width : ℚ
  height : ℚ
  deriving DecidableEq

/-- A point with `int` coordinates, `QPoint`. -/
structure QPoint where
  x : Int
  y : Int
  deriving DecidableEq

/-- The implicit conversion of a `double` to `int`, which drops the fractional part. -/
def doubleToInt (q : ℚ) : Int :=
  if 0 ≤ q then ⌊q⌋ else -⌊-q⌋

/-- The properties that `setVideoControlPositioning` attaches to the animation and that
the hit test and the renderer read back (lines 360-381, 550-556). -/
structure VideoControlProperties where
  posAndSize : QRectF
  videoBarHeight : Int
  underVideoBarHeight : Int
  cacheX : Int
  loopModeX : Int
  frameTraversalX : Int
  speedX : Int
  deriving DecidableEq

/-- The function `setVideoControlPositioning` (lines 347-382); the header gives the
defaults 4, 20, -170, -130, -90, -30 for the arguments after `rect`.  The helper
`xOffset` yields a `double`, which the assignment to an `int` anchor converts. -/
def setVideoControlPositioning (rect : QRectF) (videoBarHeight underVideoBarHeight cacheX
    loopModeX frameTraversalX speedX : Int) : VideoControlProperties :=
  let videoControlsHeight := videoBarHeight + underVideoBarHeight
  let sizeMinWidth : ℚ := rect.width - videoControlsHeight
  let xWithWidth : Int := doubleToInt (rect.x + sizeMinWidth)
  let xOffset : Int → ℚ := fun offset =>
    if offset < 0 then ((xWithWidth + offset : Int) : ℚ) else rect.x + offset
  { posAndSize := rect
    videoBarHeight := videoBarHeight
    underVideoBarHeight := underVideoBarHeight
    cacheX := doubleToInt (xOffset cacheX)
    loopModeX := doubleToInt (xOffset loopModeX)
    frameTraversalX := doubleToInt (xOffset frameTraversalX)
    speedX := doubleToInt (xOffset speedX) }

/-- The function `updatePropertyPositionIfChanged` (lines 330-336). -/
def updatePropertyPositionIfChanged (propertyHolder : VideoControlProperties) (rect : QRectF) :
    VideoControlProperties :=
  let propertyRect := propertyHolder.posAndSize
  if propertyRect.y ≠ rect.y then { propertyHolder with posAndSize := rect }
  else propertyHolder

/-- The function `isInBoundsOnAxis` (lines 338-341). -/
def isInBoundsOnAxis (pos : QPoint) (yInsteadOfX : Bool) (start length : Int) : Bool :=
  let posOnAxis := if yInsteadOfX then pos.y else pos.x
  decide (posOnAxis ≥ start) && decide (posOnAxis ≤ start + length)

/-- The function `isInBounds` (lines 343-345); the `double` coordinates of `bounds` are
converted to the `int` parameters of `isInBoundsOnAxis`. -/
def isInBounds (pos : QPoint) (bounds : QRectF) : Bool :=
  isInBoundsOnAxis pos false (doubleToInt bounds.x) (doubleToInt bounds.width) &&
    isInBoundsOnAxis pos true (doubleToInt bounds.y) (doubleToInt bounds.height)

/-- The controls of the overlay, `enum VideoController` (CustomElements.h:98-110). -/
inductive VideoController where
  | VideoBar
  | View
  | PlayPause
  | CacheSwitch
  | LoopSwitch
  | PreviousFrame
  | NextFrame
  | ResetSpeed
  | DecreaseSpeed
  | IncreaseSpeed
  | None
  deriving DecidableEq, Repr

/-- The local `videoControlsHeight` of `mousePressVideoControls` (line 565). -/
def videoControlsHeight (p : VideoControlProperties) : Int :=
  p.videoBarHeight + p.underVideoBarHeight

/-- The local `videoControlsY` (line 566), an `int` initialised from a `double`. -/
def videoControlsY (p : VideoControlProperties) : Int :=
  doubleToInt (p.posAndSize.y + p.posAndSize.height - videoControlsHeight p)

/-- The local `underVideoBarY` (line 567). -/
def underVideoBarY (p : VideoControlProperties) : Int :=
  videoControlsY p + p.videoBarHeight

/-- The local `underVideoBarHalfHeight` (line 568), an `int` division. -/
def underVideoBarHalfHeight (p : VideoControlProperties) : Int :=
  Int.tdiv p.underVideoBarHeight 2

/-- The rectangle `viewRect` (line 570). -/
def viewRect (p : VideoControlProperties) : QRectF :=
  ⟨p.posAndSize.x, p.posAndSize.y, p.posAndSize.width - videoControlsHeight p,
    p.posAndSize.height - videoControlsHeight p⟩

/-- The rectangle `playPauseRect` (line 571). -/
def playPauseRect (p : VideoControlProperties) : QRectF :=
  ⟨p.posAndSize.x, underVideoBarY p, 15, p.underVideoBarHeight⟩

/-- The rectangle `cacheRect` (line 573). -/
def cacheRect (p : VideoControlProperties) : QRectF :=
  ⟨p.cacheX, underVideoBarY p, 25, p.underVideoBarHeight⟩

/-- The rectangle `loopModeRect` (line 574). -/
def loopModeRect (p : VideoControlProperties) : QRectF :=
  ⟨p.loopModeX, underVideoBarY p, 24, p.underVideoBarHeight⟩

/-- The local `frameTraversalWidth` (line 576). -/
def frameTraversalWidth : Int := 12

/-- The rectangle `framePreviousRect` (line 577). -/
def framePreviousRect (p : VideoControlProperties) : QRectF :=
  ⟨p.frameTraversalX, underVideoBarY p, frameTraversalWidth, p.underVideoBarHeight⟩

/-- The rectangle `frameNextRect` (line 578). -/
def frameNextRect (p : VideoControlProperties) : QRectF :=
  ⟨((p.frameTraversalX + frameTraversalWidth + 2 : Int) : ℚ), underVideoBarY p,
    frameTraversalWidth, p.underVideoBarHeight⟩

/-- The local `speedWidth` (line 580). -/
def speedWidth : Int := 9

/-- The rectangle `speedResetRect` (line 581). -/
def speedResetRect (p : VideoControlProperties) : QRectF :=
  ⟨((p.speedX - 28 : Int) : ℚ), underVideoBarY p, speedWidth, p.underVideoBarHeight⟩

/-- The rectangle `speedMinusRect` (line 582). -/
def speedMinusRect (p : VideoControlProperties) : QRectF :=
  ⟨((p.speedX - 14 : Int) : ℚ), ((underVideoBarY p + underVideoBarHalfHeight p : Int) : ℚ),
    speedWidth, underVideoBarHalfHeight p⟩

/-- The rectangle `speedPlusRect` (line 583). -/
def speedPlusRect (p : VideoControlProperties) : QRectF :=
  ⟨((p.speedX - 14 : Int) : ℚ), underVideoBarY p, speedWidth, underVideoBarHalfHeight p⟩

/-- The function `mousePressVideoControls` (lines 549-597). -/
def mousePressVideoControls (p : VideoControlProperties) (mouseDocPos : QPoint) :
    VideoController :=
  if !isInBoundsOnAxis mouseDocPos false (doubleToInt (viewRect p).x)
      (doubleToInt (viewRect p).width) then VideoController.None
  else if isInBoundsOnAxis mouseDocPos true (doubleToInt (viewRect p).y)
      (doubleToInt (viewRect p).height) then VideoController.View
  else if isInBoundsOnAxis mouseDocPos true (videoControlsY p) p.videoBarHeight then
    VideoController.VideoBar
  else if isInBounds mouseDocPos (playPauseRect p) then VideoController.PlayPause
  else if isInBounds mouseDocPos (cacheRect p) then VideoController.CacheSwitch
  else if isInBounds mouseDocPos (loopModeRect p) then VideoController.LoopSwitch
  else if isInBounds mouseDocPos (framePreviousRect p) then VideoController.PreviousFrame
  else if isInBounds mouseDocPos (frameNextRect p) then VideoController.NextFrame
  else if isInBounds mouseDocPos (speedResetRect p) then VideoController.ResetSpeed
  else if isInBounds mouseDocPos (speedMinusRect p) then VideoController.DecreaseSpeed
  else if isInBounds mouseDocPos (speedPlusRect p) then VideoController.IncreaseSpeed
  else VideoController.None

/-- Whether the coordinate `q` lies in the extent that starts at `start` and is
`length` long, both ends included, in exact arithmetic. -/
def withinExtent (q start length : ℚ) : Bool :=
  decide (start ≤ q) && decide (q ≤ start + length)

/-- Whether the rectangle `bounds` contains the point `pos`, edges included, in exact
arithmetic. -/
def regionContains (bounds : QRectF) (pos : QPoint) : Bool :=
  withinExtent pos.x bounds.x bounds.width && withinExtent pos.y bounds.y bounds.height

/-- The precedence list of the hit test as the specification words it (section 4.3):
the view when the point is within its vertical extent, the video bar when the point is
within its vertical extent, then each button region in the fixed order when its
rectangle contains the point; each control is paired with whether it claims the point.
Containment is geometric: the coordinates of the rectangles are taken as they are. -/
def hitRegions (p : VideoControlProperties) (pos : QPoint) : List (VideoController × Bool) :=
  [ (VideoController.View, withinExtent pos.y (viewRect p).y (viewRect p).height),
    (VideoController.VideoBar, withinExtent pos.y (videoControlsY p) p.videoBarHeight),
    (VideoController.PlayPause, regionContains (playPauseRect p) pos),
    (VideoController.CacheSwitch, regionContains (cacheRect p) pos),
    (VideoController.LoopSwitch, regionContains (loopModeRect p) pos),
    (VideoController.PreviousFrame, regionContains (framePreviousRect p) pos),
    (VideoController.NextFrame, regionContains (frameNextRect p) pos),
    (VideoController.ResetSpeed, regionContains (speedResetRect p) pos),
    (VideoController.DecreaseSpeed, regionContains (speedMinusRect p) pos),
    (VideoController.IncreaseSpeed, regionContains (speedPlusRect p) pos) ]

/-- First match wins: the control of the first entry of a precedence list that claims
the point, `None` when no entry does. -/
def firstMatch : List (VideoController × Bool) → VideoController
  | [] => VideoController.None
  | (control, claims) :: rest => if claims then control else firstMatch rest

/-- The positioning `setVideoControlPositioning` gives, with its default arguments, to
an animation laid out at `(10, 20)` with size 300 x 224. -/
def samplePositioning : VideoControlProperties :=
  setVideoControlPositioning ⟨10, 20, 300, 224⟩ 4 20 (-170) (-130) (-90) (-30)

/-! ## Pointer dispatch (`mousePress`, CustomElements.cpp:599-760) -/

/-- The mouse buttons as far as `mousePress` tells them apart: `Qt::LeftButton`,
`Qt::MiddleButton`, `Qt::RightButton`, and any other value of `Qt::MouseButton`. -/
inductive MouseButton where
  | LeftButton
  | MiddleButton
  | RightButton
  | OtherButton
  deriving DecidableEq, Repr

/-- The function `round` of `<cmath>`: the nearest integer, halves away from zero. -/
def cRound (q : ℚ) : Int :=
  if 0 ≤ q then ⌊q + 1 / 2⌋ else -⌊-q + 1 / 2⌋

/-- The helper `setFrameByVideoBarSelection` (lines 647-650), with the local `widthMin`
(line 611) and the rounding of line 623, which `setFrameByPercentage` leaves to its
caller here.  The quotient and the product are taken in exact arithmetic; the source
computes them in IEEE doubles, so the two can differ when the exact product lies on a
half: for `x - rect.x = 84`, `widthMin = 616` and `totalMs = 363` the exact product is
`49.5`, rounded to 50, while the double product is just below it and rounds to 49.  For
`widthMin = 0` the C++ quotient is not a finite number and the model is not
meaningful.  No theorem below depends on the value of this elapsed time. -/
def setFrameByVideoBarSelection (Q : QMovie M) (fuel : Nat) (a : Animation M)
    (p : VideoControlProperties) (mouseDocPos : QPoint) : Option (Animation M) :=
  let widthMin : Int := doubleToInt (p.posAndSize.width - videoControlsHeight p)
  let videoBarPercentage : ℚ := ((mouseDocPos.x : ℚ) - p.posAndSize.x) / widthMin
  setFrameByPercentage Q fuel a (cRound (videoBarPercentage * a.totalMs))

/-- The helper `resetPlayback` (lines 651-656). -/
def resetPlayback (Q : QMovie M) (fuel : Nat) (a : Animation M) : Option (Animation M) :=
  match setFrame Q fuel a 0 with
  | none => none
  | some a1 => some { a1 with movie := Q.stop a1.movie }

/-- The dispatch of `mousePress` (lines 723-757), entered once the pressed object is
known to be this animation: `areVideoControlsOn` is the process-wide overlay flag, `p`
holds the positioning properties of the animation.  A `return` without a call leaves
the animation as it is. -/
def mousePress (Q : QMovie M) (fuel : Nat) (areVideoControlsOn : Bool) (a : Animation M)
    (p : VideoControlProperties) (mouseDocPos : QPoint) (mouseButton : MouseButton) :
    Option (Animation M) :=
  let isLeftMouseButtonPressed := mouseButton == MouseButton.LeftButton
  let isMiddleMouseButtonPressed := mouseButton == MouseButton.MiddleButton
  if areVideoControlsOn then
    let videoController := mousePressVideoControls p mouseDocPos
    if isLeftMouseButtonPressed then
      match videoController with
      | VideoController.VideoBar => setFrameByVideoBarSelection Q fuel a p mouseDocPos
      | VideoController.View => some (togglePause Q a)
      | VideoController.PlayPause => some (togglePause Q a)
      | VideoController.CacheSwitch => toggleCache Q fuel a
      | VideoController.LoopSwitch => some (changeLoopMode a 1)
      | VideoController.PreviousFrame => changeFrame Q fuel a (-1)
      | VideoController.NextFrame => changeFrame Q fuel a 1
      | VideoController.ResetSpeed => some (setSpeed Q a 100)
      | VideoController.DecreaseSpeed => some (changeSpeed Q a (-10))
      | VideoController.IncreaseSpeed => some (changeSpeed Q a 10)
      | VideoController.None => some a
    else if isMiddleMouseButtonPressed then
      match videoController with
      | VideoController.View => resetPlayback Q fuel a
      | VideoController.PlayPause => resetPlayback Q fuel a
      | VideoController.LoopSwitch => some (changeLoopMode a (-1))
      | VideoController.PreviousFrame => changeFrame Q fuel a (-5)
      | VideoController.NextFrame => changeFrame Q fuel a 5
      | VideoController.DecreaseSpeed => some (changeSpeed Q a (-50))
      | VideoController.IncreaseSpeed => some (changeSpeed Q a 50)
      | _ => some a
    else some a
  else if isLeftMouseButtonPressed then some (togglePause Q a)
  else if isMiddleMouseButtonPressed then resetPlayback Q fuel a
  else some a

/-- The operations named by the dispatch tables of the specification (section 4.6). -/
inductive ControlAction where
  | seek
  | togglePause
  | toggleCache
  | changeLoopMode (steps : Int)
  | wrapFrame (delta : Int)
  | setSpeed (percent : Int)
  | changeSpeed (delta : Int)
  | resetPlayback
  | noAction
  deriving DecidableEq, Repr

/-- The dispatch tables as the specification words them (section 4.6): the operation
for an overlay flag, a mouse button and a resolved control. -/
def dispatchTable : Bool → MouseButton → VideoController → ControlAction
  | true, MouseButton.LeftButton, VideoController.VideoBar => ControlAction.seek
  | true, MouseButton.LeftButton, VideoController.View => ControlAction.togglePause
  | true, MouseButton.LeftButton, VideoController.PlayPause => ControlAction.togglePause
  | true, MouseButton.LeftButton, VideoController.CacheSwitch => ControlAction.toggleCache
  | true, MouseButton.LeftButton, VideoController.LoopSwitch => ControlAction.changeLoopMode 1
  | true, MouseButton.LeftButton, VideoController.PreviousFrame => ControlAction.wrapFrame (-1)
  | true, MouseButton.LeftButton, VideoController.NextFrame => ControlAction.wrapFrame 1
  | true, MouseButton.LeftButton, VideoController.ResetSpeed => ControlAction.setSpeed 100
  | true, MouseButton.LeftButton, VideoController.DecreaseSpeed => ControlAction.changeSpeed (-10)
  | true, MouseButton.LeftButton, VideoController.IncreaseSpeed => ControlAction.changeSpeed 10
  | true, MouseButton.MiddleButton, VideoController.View => ControlAction.resetPlayback
  | true, MouseButton.MiddleButton, VideoController.PlayPause => ControlAction.resetPlayback
  | true, MouseButton.MiddleButton, VideoController.LoopSwitch => ControlAction.changeLoopMode (-1)
  | true, MouseButton.MiddleButton, VideoController.PreviousFrame => ControlAction.wrapFrame (-5)
  | true, MouseButton.MiddleButton, VideoController.NextFrame => ControlAction.wrapFrame 5
  | true, MouseButton.MiddleButton, VideoController.DecreaseSpeed =>
    ControlAction.changeSpeed (-50)
  | true, MouseButton.MiddleButton, VideoController.IncreaseSpeed => ControlAction.changeSpeed 50
  | true, _, _ => ControlAction.noAction
  | false, MouseButton.LeftButton, _ => ControlAction.togglePause
  | false, MouseButton.MiddleButton, _ => ControlAction.resetPlayback
  | false, _, _ => ControlAction.noAction

/-- Carry out an operation of the dispatch tables with the helpers of `mousePress`;
`noAction` leaves the animation as it is. -/
def perform (Q : QMovie M) (fuel : Nat) (a : Animation M) (p : VideoControlProperties)
    (mouseDocPos : QPoint) : ControlAction → Option (Animation M)
  | ControlAction.seek => setFrameByVideoBarSelection Q fuel a p mouseDocPos
  | ControlAction.togglePause => some (togglePause Q a)
  | ControlAction.toggleCache => toggleCache Q fuel a
  | ControlAction.changeLoopMode steps => some (changeLoopMode a steps)
  | ControlAction.wrapFrame delta => changeFrame Q fuel a delta
  | ControlAction.setSpeed percent => some (setSpeed Q a percent)
  | ControlAction.changeSpeed delta => some (changeSpeed Q a delta)
  | ControlAction.resetPlayback => resetPlayback Q fuel a
  | ControlAction.noAction => some a

/-! ## End of stream (slots set up by `drawObject`, CustomElements.cpp:798-812) -/

/-- The slot connected to `frameChanged` (lines 799-803), up to its call of
`QTimer::singleShot`: the delay handed to the single shot, `none` when the slot returns
without scheduling one.  `nextFrameDelay` is the decoder call of that name; the
`lastFrameIndex` the slot captured is the value of the property. -/
def frameChangedSlot (Q : QMovie M) (nextFrameDelay : M → Int) (a : Animation M)
    (frameIndex : Int) : Option Int :=
  let loopMode := a.loopMode
  if frameIndex != a.lastFrameIndex || loopMode != LoopMode.NoLoop ||
      Q.state a.movie == MovieState.Paused then none
  else some (nextFrameDelay a.movie)

/-- The function the single shot runs (lines 804-811), applied to the animation as it
is when the timer fires. -/
def singleShotSlot (Q : QMovie M) (fuel : Nat) (a : Animation M) : Option (Animation M) :=
  let currentLoopMode := a.loopMode
  if currentLoopMode != LoopMode.NoLoop || Q.state a.movie == MovieState.Paused then some a
  else
    match setFrame Q fuel a a.lastFrameIndex with
    | none => none
    | some a1 => some { a1 with movie := Q.stop a1.movie }

/-! ## Time readout (`drawVideoControls`, CustomElements.cpp:401-486, 525-527)

The time values of the readout are `double`s that hold a number of seconds with one
decimal digit (`convertUnit` rounds to `decimalAmount = 1`), or a whole number of
minutes or hours.  Such a value is represented by its number of tenths, an `Int`: 3.2 is
32, 45.0 is 450, one minute is 10.  A `QString` is a list of characters. -/

/-- The call `convertUnit(integer, -3, 1)` (lines 401-407, 485-486): milliseconds to
seconds with one decimal, `round(integer * 10^-2) / 10`, in tenths; `round` goes to the
nearest integer, halves away from zero. -/
def convertUnit (integer : Int) : Int :=
  if 0 ≤ integer then (integer + 50) / 100 else -((-integer + 50) / 100)

/-- The method `QString::lastIndexOf(ch)`: the index of the last occurrence of `ch`, -1
when there is none. -/
def lastIndexOf : List Char → Char → Int
  | [], _ => -1
  | x :: xs, ch =>
    if lastIndexOf xs ch ≠ -1 then lastIndexOf xs ch + 1
    else if x = ch then 0 else -1

/-- The method `QString::rightJustified(width, fill)`: the string padded on the left
with `fill` up to `width` characters, unchanged when it is at least that long. -/
def rightJustified (s : List Char) (width : Int) (fill : Char) : List Char :=
  List.replicate (width - s.length).toNat fill ++ s

/-- The function `QString::number(double)` on a value given in tenths: the whole part
in decimal notation, followed by the decimal mark and the tenth when the tenth is not
zero (the default format prints at most six significant digits and no trailing zero). -/
def QString.number (tenths : Int) : List Char :=
  (if tenths < 0 then ['-'] else []) ++ Nat.toDigits 10 (tenths.natAbs / 10) ++
    (if tenths.natAbs % 10 = 0 then [] else ['.', Nat.digitChar (tenths.natAbs % 10)])

/-- The helper `padDecimals` (lines 408-416). -/
def padDecimals (numberStr : List Char) (decimalAmount : Int) : List Char :=
  let decimalMarkIndex := lastIndexOf numberStr '.'
  let isDecimal := decide (decimalMarkIndex ≠ -1) && decide (decimalMarkIndex < numberStr.length - 1)
  let currentDecimalAmount : Int :=
    if isDecimal then ((numberStr.drop (decimalMarkIndex + 1).toNat).length : Int) else 0
  let decimalFillerAmount := decimalAmount - currentDecimalAmount
  let decimalFillers := List.replicate decimalFillerAmount.toNat '0'
  if decimalFillerAmount > 0 then
    numberStr ++ ((if decimalFillerAmount = 1 then ['.'] else []) ++ decimalFillers)
  else numberStr

/-- The helper `padNumber` (lines 417-422). -/
def padNumber (numberStr : List Char) (digitAmount : Int) : List Char :=
  let numberLength : Int := numberStr.length
  let decimalMarkIndex := lastIndexOf numberStr '.'
  let decimalsIncludingMarkLength := if decimalMarkIndex ≠ -1 then numberLength - decimalMarkIndex else 0
  rightJustified numberStr (digitAmount + decimalsIncludingMarkLength) '0'

/-- The helper `getTimeNumbers` (lines 424-433): remaining seconds, remaining minutes
and hours, each in tenths.  The divisors are positive, so `floor` of a quotient is the
integer quotient `/`. -/
def getTimeNumbers (seconds : Int) : List Int :=
  let minutes : Int := seconds / 600
  let hours : Int := minutes / 60
  let remainingMinutes : Int := max (minutes - hours * 60) 0
  let remainingSeconds : Int := max (seconds - minutes * 600) 0
  [remainingSeconds, remainingMinutes * 10, hours * 10]

/-- The `do ... while` loop of `getDigitAmount` (lines 436-439); `fuel` bounds its
iterations. -/
def getDigitAmountLoop : Nat → Int → Int → Int
  | 0, _, digitAmount => digitAmount
  | fuel + 1, number, digitAmount =>
    let number := Int.tdiv number 10
    let digitAmount := digitAmount + 1
    if number ≠ 0 then getDigitAmountLoop fuel number digitAmount else digitAmount

/-- The helper `getDigitAmount` (lines 434-441); the loop ends within
`|number| + 1` iterations. -/
def getDigitAmount (number : Int) : Int :=
  getDigitAmountLoop (number.natAbs + 1) number 0

/-- The first loop of `formatTime` (lines 448-454), visiting the indices below its
argument from the highest down: the index of the most significant number of the total
that is positive, 0 when there is none. -/
def lastTimeNumberIndexLoop (totalTimeNumbers : List Int) : Nat → Nat
  | 0 => 0
  | i + 1 =>
    if totalTimeNumbers.getD i 0 > 0 then i else lastTimeNumberIndexLoop totalTimeNumbers i

/-- The second loop of `formatTime` (lines 456-471) from index `i` on, with `remaining`
indices left and the text built so far. -/
def formatTimeLoop (timeNumbers totalTimeNumbers : List Int) (lastTimeNumberIndex : Nat) :
    Nat → Nat → List Char → List Char
  | 0, _, timeStr => timeStr
  | remaining + 1, i, timeStr =>
    let number := timeNumbers.getD i 0
    let isSeconds := decide (i = 0)
    let isLastNumber := decide (i = lastTimeNumberIndex)
    let hasAnotherNumber := decide (i < lastTimeNumberIndex)
    if number = 0 ∧ hasAnotherNumber = false ∧ isLastNumber = false then timeStr
    else
      let numberStr := QString.number number
      let numberStr :=
        if hasAnotherNumber || isLastNumber then
          padNumber numberStr
            (if isLastNumber then getDigitAmount (Int.tdiv (totalTimeNumbers.getD i 0) 10) else 2)
        else numberStr
      formatTimeLoop timeNumbers totalTimeNumbers lastTimeNumberIndex remaining (i + 1)
        ((if isSeconds then padDecimals numberStr 1 else numberStr ++ [':']) ++ timeStr)

/-- The helper `formatTime` (lines 423-473); a call without `totalSeconds` passes 0. -/
def formatTime (seconds totalSeconds : Int) : List Char :=
  let timeNumbers := getTimeNumbers seconds
  let totalTimeNumbers := if totalSeconds = 0 then timeNumbers else getTimeNumbers totalSeconds
  let timeNumberAmount := timeNumbers.length
  let lastTimeNumberIndex := lastTimeNumberIndexLoop totalTimeNumbers timeNumberAmount
  formatTimeLoop timeNumbers totalTimeNumbers lastTimeNumberIndex timeNumberAmount 0 []

/-- The loop that sums the delays up to the current frame (lines 477-483): `count`
delays are read from the front of `frameDelays`; `none` stands for a read past the end
of the list. -/
def msUntilLoop : List Int → Nat → Int → Option Int
  | _, 0, msUntilCurrentFrame => some msUntilCurrentFrame
  | [], _ + 1, _ => none
  | delay :: rest, count + 1, msUntilCurrentFrame =>
    msUntilLoop rest count (msUntilCurrentFrame + delay)

/-- The text that `drawVideoControls` draws as the time readout (lines 475-486 and
525-527), `"%1 / %2"` filled with the elapsed and the total time, for the properties
`frameDelays`, `totalMs`, `lastFrameIndex` and the current `frameIndex`. -/
def timeText (frameDelays : List Int) (totalMs frameIndex lastFrameIndex : Int) :
    Option (List Char) :=
  let isLastFrame := decide (frameIndex = lastFrameIndex)
  match msUntilLoop frameDelays (if isLastFrame then frameDelays.length else frameIndex.toNat) 0
  with
  | none => none
  | some msUntilCurrentFrame =>
    let totalS := convertUnit totalMs
    let currentS := convertUnit msUntilCurrentFrame
    let totalTimeStr := formatTime totalS 0
    let currentTimeStr := formatTime currentS totalS
    some (currentTimeStr ++ [' ', '/', ' '] ++ totalTimeStr)

/-- The two tails a number string can have: none, or the decimal mark and one digit. -/
def IsDecimalTail (tail : List Char) : Prop :=
  tail = [] ∨ ∃ c, c ≠ '.' ∧ tail = ['.', c]

/-! # Theorems -/

/-! ## Frame stepping (`changeFrame`) -/

theorem fdiv_succ_self (L : Int) (hL : 2 ≤ L) : Int.fdiv (L + 1) L = 1 := by
  rw [Int.fdiv_eq_ediv _ (by omega)]
  have h := (Int.ediv_emod_unique (a := L + 1) (r := 1) (q := 1) (show 0 < L by omega)).2
    ⟨by ring, by omega, by omega⟩
  exact h.1

theorem fdiv_neg_one (L : Int) (hL : 1 ≤ L) : Int.fdiv (-1) L = -1 := by
  rw [Int.fdiv_eq_ediv _ (by omega)]
  have h := (Int.ediv_emod_unique (a := -1) (r := L - 1) (q := -1) (show 0 < L by omega)).2
    ⟨by ring, by omega, by omega⟩
  exact h.1

theorem clampFrameIndex_eq (frameIndex lastFrameIndex : Int) :
    clampFrameIndex frameIndex lastFrameIndex
      = if frameIndex < 0 then 0 else if frameIndex > lastFrameIndex then lastFrameIndex
        else frameIndex := by
  unfold clampFrameIndex
  by_cases h1 : frameIndex < 0 <;> by_cases h2 : frameIndex > lastFrameIndex <;> simp [h1, h2]

/-- C4: for every `lastFrameIndex >= 1`, the index `changeFrame(+1)` computes at the last
frame is clamped by `setFrame` to 0, and the index `changeFrame(-1)` computes at frame 0
is clamped by `setFrame` to `lastFrameIndex`. -/
theorem changeFrame_wraps_at_ends (lastFrameIndex : Int) (hL : 1 ≤ lastFrameIndex) :
    clampFrameIndex (changeFrameIndex lastFrameIndex 1 lastFrameIndex) lastFrameIndex = 0 ∧
    clampFrameIndex (changeFrameIndex 0 (-1) lastFrameIndex) lastFrameIndex
      = lastFrameIndex := by
  constructor
  · rcases eq_or_lt_of_le hL with h1 | h2
    · subst h1
      decide
    · have hq := fdiv_succ_self lastFrameIndex (by omega)
      have hv : changeFrameIndex lastFrameIndex 1 lastFrameIndex = 0 := by
        have h1 : ¬ (lastFrameIndex + 1 < 0) := by omega
        have h2 : lastFrameIndex + 1 > lastFrameIndex := by omega
        simp only [changeFrameIndex, hq, h1, h2]
        simp
      rw [hv, clampFrameIndex_eq]
      split_ifs <;> omega
  · have hq := fdiv_neg_one lastFrameIndex hL
    have hv : changeFrameIndex 0 (-1) lastFrameIndex = lastFrameIndex := by
      simp only [changeFrameIndex, zero_add, hq]
      simp
    rw [hv, clampFrameIndex_eq]
    split_ifs <;> omega

/-- Witness of C4 on an animation of eleven frames. -/
theorem changeFrame_wraps_at_ends_witness :
    (1 : Int) ≤ 10 ∧
    clampFrameIndex (changeFrameIndex 10 1 10) 10 = 0 ∧
    clampFrameIndex (changeFrameIndex 0 (-1) 10) 10 = 10 :=
  ⟨by decide, changeFrame_wraps_at_ends 10 (by decide)⟩

/-- C5: on an animation of four frames (`lastFrameIndex = 3`) standing at its last
frame, `changeFrame(5)` (middle click on the next-frame button) selects frame 1, while
the cyclic successor `(3 + 5) mod 4` is frame 0. -/
theorem changeFrame_not_cyclic :
    clampFrameIndex (changeFrameIndex 3 5 3) 3 = 1 ∧ ((3 : Int) + 5) % (3 + 1) = 0 ∧
    clampFrameIndex (changeFrameIndex 0 (-12) 10) 10 = 9 ∧ ((0 : Int) + (-12)) % (10 + 1) = 10 := by
  decide

/-! ## Direct seek with cached frames (`setFrame`, cache mode All) -/

/-- C6: with cache mode All and a decoder whose `jumpToFrame` reaches every frame of
`[0, lastFrameIndex]`, `setFrame(f)` returns for every integer `f` and leaves the current
frame at `f` clamped into `[0, lastFrameIndex]`: inside the range, and equal to `f` when
`f` is in the range. -/
theorem setFrame_cached (Q : QMovie M) (a : Animation M) (f : Int) (fuel : Nat)
    (hcache : Q.cacheMode a.movie = CacheMode.CacheAll)
    (hlast : 0 ≤ a.lastFrameIndex)
    (hjump : ∀ m g, 0 ≤ g → g ≤ a.lastFrameIndex →
      Q.currentFrameNumber (Q.jumpToFrame m g) = g) :
    ∃ a1, setFrame Q fuel a f = some a1 ∧
      Q.currentFrameNumber a1.movie = max 0 (min f a.lastFrameIndex) ∧
      0 ≤ Q.currentFrameNumber a1.movie ∧
      Q.currentFrameNumber a1.movie ≤ a.lastFrameIndex ∧
      (0 ≤ f → f ≤ a.lastFrameIndex → Q.currentFrameNumber a1.movie = f) := by
  have hc : 0 ≤ clampFrameIndex f a.lastFrameIndex ∧
      clampFrameIndex f a.lastFrameIndex ≤ a.lastFrameIndex ∧
      clampFrameIndex f a.lastFrameIndex = max 0 (min f a.lastFrameIndex) := by
    rw [clampFrameIndex_eq]
    split_ifs <;> omega
  refine ⟨{ a with movie := Q.jumpToFrame a.movie (clampFrameIndex f a.lastFrameIndex) }, ?_, ?_⟩
  · simp [setFrame, setFrameTraced, hcache]
  · have hj := hjump a.movie _ hc.1 hc.2.1
    simp only [hj]
    refine ⟨hc.2.2, hc.1, hc.2.1, ?_⟩
    intro h0 h1
    rw [hc.2.2]
    omega

/-- Witness of C6: a cached animation of eleven frames, sought to frame 7. -/
theorem setFrame_cached_witness :
    ∃ a1, setFrame (loopingMovie 10) 0
        (sample 10 MovieState.Paused CacheMode.CacheAll 2) 7 = some a1 ∧
      (loopingMovie 10).currentFrameNumber a1.movie
        = max 0 (min 7 (sample 10 MovieState.Paused CacheMode.CacheAll 2).lastFrameIndex) ∧
      0 ≤ (loopingMovie 10).currentFrameNumber a1.movie ∧
      (loopingMovie 10).currentFrameNumber a1.movie
        ≤ (sample 10 MovieState.Paused CacheMode.CacheAll 2).lastFrameIndex ∧
      (0 ≤ (7 : Int) → 7 ≤ (sample 10 MovieState.Paused CacheMode.CacheAll 2).lastFrameIndex →
        (loopingMovie 10).currentFrameNumber a1.movie = 7) :=
  setFrame_cached (loopingMovie 10) (sample 10 MovieState.Paused CacheMode.CacheAll 2) 7 0
    rfl (by decide)
    (by
      intro m g h0 h1
      have h1 : g ≤ 10 := h1
      simp [loopingMovie, h0, h1])

/-! ## Pause and speed -/

/-- C9: for a decoder on which `setPaused(false)` yields Running and `setPaused(true)`
yields Paused unless the decoder is stopped, `togglePause` takes Stopped to Running,
Running to Paused and Paused to Running, and never yields Stopped. -/
theorem togglePause_state (Q : QMovie M) (a : Animation M)
    (hresume : ∀ m, Q.state (Q.setPaused m false) = MovieState.Running)
    (hpause : ∀ m, Q.state m ≠ MovieState.NotRunning →
      Q.state (Q.setPaused m true) = MovieState.Paused) :
    (Q.state a.movie = MovieState.NotRunning →
      Q.state (togglePause Q a).movie = MovieState.Running) ∧
    (Q.state a.movie = MovieState.Running →
      Q.state (togglePause Q a).movie = MovieState.Paused) ∧
    (Q.state a.movie = MovieState.Paused →
      Q.state (togglePause Q a).movie = MovieState.Running) ∧
    Q.state (togglePause Q a).movie ≠ MovieState.NotRunning := by
  have key : Q.state (togglePause Q a).movie
      = (if Q.state a.movie = MovieState.Running then MovieState.Paused
         else MovieState.Running) := by
    unfold togglePause
    cases hs : Q.state a.movie
    · simp [hresume]
    · simp [hresume]
    · have h := hpause a.movie (by rw [hs]; decide)
      have hb : (MovieState.Running != MovieState.Paused) = true := by decide
      simp [hb, h]
  refine ⟨?_, ?_, ?_, ?_⟩
  · intro h
    rw [key, h]
    decide
  · intro h
    rw [key, h]
    decide
  · intro h
    rw [key, h]
    decide
  · rw [key]
    split_ifs <;> decide

/-- Witness of C9: a running animation on the looping reference decoder. -/
theorem togglePause_state_witness :
    ((loopingMovie 10).state (sample 10 MovieState.Running CacheMode.CacheAll 5).movie
        = MovieState.NotRunning →
      (loopingMovie 10).state
        (togglePause (loopingMovie 10) (sample 10 MovieState.Running CacheMode.CacheAll 5)).movie
        = MovieState.Running) ∧
    ((loopingMovie 10).state (sample 10 MovieState.Running CacheMode.CacheAll 5).movie
        = MovieState.Running →
      (loopingMovie 10).state
        (togglePause (loopingMovie 10) (sample 10 MovieState.Running CacheMode.CacheAll 5)).movie
        = MovieState.Paused) ∧
    ((loopingMovie 10).state (sample 10 MovieState.Running CacheMode.CacheAll 5).movie
        = MovieState.Paused →
      (loopingMovie 10).state
        (togglePause (loopingMovie 10) (sample 10 MovieState.Running CacheMode.CacheAll 5)).movie
        = MovieState.Running) ∧
    (loopingMovie 10).state
      (togglePause (loopingMovie 10) (sample 10 MovieState.Running CacheMode.CacheAll 5)).movie
      ≠ MovieState.NotRunning :=
  togglePause_state (loopingMovie 10) (sample 10 MovieState.Running CacheMode.CacheAll 5)
    (fun _ => rfl)
    (by
      intro m h
      have h : m.state ≠ MovieState.NotRunning := h
      simp [loopingMovie, h])

theorem setSpeed_keeps_positive (Q : QMovie M)
    (hspeed : ∀ m p, Q.speed (Q.setSpeed m p) = p) (a : Animation M) (percent : Int)
    (h : 0 < Q.speed a.movie) : 0 < Q.speed (setSpeed Q a percent).movie := by
  unfold setSpeed
  split_ifs with hp
  · simp only [updateVideoControls, hspeed]
    omega
  · exact h

/-- C10: `setSpeed(percent)` returns the animation unchanged, with no update request,
when `percent <= 0`; it sets the speed to `percent` when `percent > 0` (on a decoder
whose `speed()` reads back what `setSpeed` stored); and every sequence of `setSpeed`
and `changeSpeed` calls that starts from a positive speed ends with a positive speed. -/
theorem setSpeed_guard (Q : QMovie M) (hspeed : ∀ m p, Q.speed (Q.setSpeed m p) = p) :
    (∀ (a : Animation M) (percent : Int), percent ≤ 0 → setSpeed Q a percent = a) ∧
    (∀ (a : Animation M) (percent : Int), 0 < percent →
      Q.speed (setSpeed Q a percent).movie = percent) ∧
    (∀ (calls : List SpeedCall) (a : Animation M), 0 < Q.speed a.movie →
      0 < Q.speed (applySpeedCalls Q a calls).movie) := by
  refine ⟨?_, ?_, ?_⟩
  · intro a percent h
    have h1 : ¬ percent > 0 := by omega
    simp [setSpeed, h1]
  · intro a percent h
    simp [setSpeed, h, updateVideoControls, hspeed]
  · intro calls
    induction calls with
    | nil => intro a h; exact h
    | cons c rest ih =>
      intro a h
      simp only [applySpeedCalls, List.foldl_cons]
      apply ih
      cases c with
      | setSpeed percent => exact setSpeed_keeps_positive Q hspeed a percent h
      | changeSpeed delta => exact setSpeed_keeps_positive Q hspeed a _ h

/-- Witness of C10 on the looping reference decoder, with the requests `setSpeed(0)`,
`setSpeed(-10)` and a run of speed changes evaluated. -/
theorem setSpeed_guard_witness :
    ((∀ (a : Animation Handle) (percent : Int), percent ≤ 0 →
        setSpeed (loopingMovie 10) a percent = a) ∧
      (∀ (a : Animation Handle) (percent : Int), 0 < percent →
        (loopingMovie 10).speed (setSpeed (loopingMovie 10) a percent).movie = percent) ∧
      (∀ (calls : List SpeedCall) (a : Animation Handle), 0 < (loopingMovie 10).speed a.movie →
        0 < (loopingMovie 10).speed (applySpeedCalls (loopingMovie 10) a calls).movie)) ∧
    (setSpeed (loopingMovie 10) (sample 10 MovieState.Running CacheMode.CacheAll 5) 0).movie.speed
      = 100 ∧
    (setSpeed (loopingMovie 10) (sample 10 MovieState.Running CacheMode.CacheAll 5)
      (-10)).movie.speed = 100 ∧
    (applySpeedCalls (loopingMovie 10) (sample 10 MovieState.Running CacheMode.CacheAll 5)
      [SpeedCall.changeSpeed (-50), SpeedCall.changeSpeed (-50), SpeedCall.changeSpeed (-10),
       SpeedCall.setSpeed 0, SpeedCall.changeSpeed 10]).movie.speed = 50 :=
  ⟨setSpeed_guard (loopingMovie 10) (fun _ _ => rfl), by decide, by decide, by decide⟩

/-! ## Seeking by time (`setFrameByPercentage`) -/

theorem frameIndexLoop_skip (t d : Int) (rest : List Int) (acc i : Int)
    (h : ¬ t ≤ acc + d) :
    frameIndexLoop t (d :: rest) acc i = frameIndexLoop t rest (acc + d) (i + 1) := by
  simp [frameIndexLoop, h]

theorem frameIndexLoop_break (t d : Int) (rest : List Int) (acc i : Int)
    (h : t ≤ acc + d) (hacc : acc ≤ t) (hrest : ∀ e ∈ rest, 0 ≤ e) :
    frameIndexLoop t (d :: rest) acc i = if t - acc < acc + d - t then i else i + 1 := by
  have hprev : ((acc + d - t - d).natAbs : Int) = t - acc := by omega
  cases rest with
  | nil =>
    simp only [frameIndexLoop, h, hprev]
    by_cases hc : t - acc < acc + d - t <;> simp [hc]
  | cons e rest1 =>
    have he : 0 ≤ e := hrest e (by simp)
    have hnext : |acc + d + e - t| = acc + d + e - t := abs_of_nonneg (by omega)
    simp only [frameIndexLoop, h, hprev]
    by_cases hc : t - acc < acc + d - t
    · simp [hc]
    · simp [hc]
      rw [hnext]
      omega

theorem sum_take_mono (l : List Int) (hl : ∀ d ∈ l, 0 ≤ d) (j k : Nat) (hjk : j ≤ k) :
    (l.take j).sum ≤ (l.take k).sum := by
  induction l generalizing j k with
  | nil => simp
  | cons x xs ih =>
    cases j with
    | zero =>
      simp only [List.take_zero, List.sum_nil]
      apply List.sum_nonneg
      intro d hd
      exact hl d (List.mem_of_mem_take hd)
    | succ j1 =>
      cases k with
      | zero => omega
      | succ k1 =>
        simp only [List.take_succ_cons, List.sum_cons]
        have := ih (fun d hd => hl d (by simp [hd])) j1 k1 (by omega)
        omega

theorem frameIndexLoop_prefix (t : Int) (pre : List Int) (d : Int) (rest : List Int)
    (acc i : Int) (hpre : ∀ e ∈ pre, 0 ≤ e) (hrest : ∀ e ∈ rest, 0 ≤ e)
    (hlo : acc + pre.sum < t) (hhi : t ≤ acc + pre.sum + d) :
    frameIndexLoop t (pre ++ d :: rest) acc i
      = if t - (acc + pre.sum) < acc + pre.sum + d - t then i + pre.length
        else i + pre.length + 1 := by
  induction pre generalizing acc i with
  | nil =>
    simp only [List.sum_nil, add_zero, List.nil_append, List.length_nil, Nat.cast_zero] at *
    exact frameIndexLoop_break t d rest acc i hhi (by omega) hrest
  | cons p pre1 ih =>
    have hp : 0 ≤ p := hpre p (by simp)
    have hs : 0 ≤ pre1.sum := List.sum_nonneg (fun e he => hpre e (by simp [he]))
    simp only [List.sum_cons] at hlo hhi
    have hskip : ¬ t ≤ acc + p := by omega
    rw [List.cons_append, frameIndexLoop_skip t p _ acc i hskip]
    rw [ih (acc + p) (i + 1) (fun e he => hpre e (by simp [he])) (by omega) (by omega)]
    simp only [List.sum_cons, List.length_cons, Nat.cast_add, Nat.cast_one]
    have e1 : acc + p + pre1.sum = acc + (p + pre1.sum) := by ring
    have e2 : i + 1 + (pre1.length : Int) = i + ((pre1.length : Int) + 1) := by ring
    rw [e1, e2]

/-- C3 (counterexample): with `frameDelays = [100,100,100,100]` and `t = 50`, which is
equidistant from the start of frame 0 (0 ms) and the start of frame 1 (100 ms), the
index computed is 1, the larger of the two candidates, and `setFrame` keeps it. -/
theorem frameIndexByMs_tie_counterexample :
    (50 : Int) - ([100, 100, 100, 100].take 0).sum = ([100, 100, 100, 100].take 1).sum - 50 ∧
    frameIndexByMs [100, 100, 100, 100] 50 = 1 ∧
    clampFrameIndex (frameIndexByMs [100, 100, 100, 100] 50) 3 = 1 ∧
    ¬ (frameIndexByMs [100, 100, 100, 100] 50 = 0) := by
  decide

/-- C3 (amended): ties go to the later frame.  For every list of non-negative delays
and every `t` strictly after the start of frame `i` and exactly as far from it as from
the start of frame `i + 1`, the index computed by `setFrameByPercentage` is `i + 1`, the
larger of the two candidates. -/
theorem frameIndexByMs_tie_later (frameDelays : List Int) (t : Int) (i : Nat)
    (hnn : ∀ d ∈ frameDelays, 0 ≤ d) (hi : i < frameDelays.length)
    (hlo : (frameDelays.take i).sum < t)
    (htie : t - (frameDelays.take i).sum = (frameDelays.take (i + 1)).sum - t) :
    frameIndexByMs frameDelays t = i + 1 := by
  have hsplit : frameDelays = frameDelays.take i ++ frameDelays[i] :: frameDelays.drop (i + 1) := by
    rw [← List.drop_eq_getElem_cons hi, List.take_append_drop]
  have hsucc : (frameDelays.take (i + 1)).sum = (frameDelays.take i).sum + frameDelays[i] :=
    List.sum_take_succ frameDelays i hi
  have hlen : (frameDelays.take i).length = i := by
    rw [List.length_take]
    omega
  have h := frameIndexLoop_prefix t (frameDelays.take i) frameDelays[i]
    (frameDelays.drop (i + 1)) 0 0
    (fun e he => hnn e (List.mem_of_mem_take he))
    (fun e he => hnn e (List.mem_of_mem_drop he))
    (by omega) (by omega)
  unfold frameIndexByMs
  rw [hsplit, h, hlen]
  have hc : ¬ (t - (0 + (frameDelays.take i).sum)
      < 0 + (frameDelays.take i).sum + frameDelays[i] - t) := by omega
  rw [if_neg hc]
  ring

/-- Witness of C3 (amended): four frames of 100 ms, `t = 150` between frames 1 and 2. -/
theorem frameIndexByMs_tie_later_witness :
    frameIndexByMs [100, 100, 100, 100] 150 = ((1 : Nat) : Int) + 1 :=
  frameIndexByMs_tie_later [100, 100, 100, 100] 150 1 (by decide) (by decide) (by decide)
    (by decide)

theorem seek_nearest_from (t : Int) (rest : List Int) :
    ∀ pre : List Int, rest ≠ [] → (∀ d ∈ pre ++ rest, 0 ≤ d) → pre.sum ≤ t →
      t ≤ (pre ++ rest).sum →
      0 ≤ clampFrameIndex (frameIndexLoop t rest pre.sum pre.length)
            (((pre ++ rest).length : Int) - 1) ∧
      clampFrameIndex (frameIndexLoop t rest pre.sum pre.length)
            (((pre ++ rest).length : Int) - 1) ≤ ((pre ++ rest).length : Int) - 1 ∧
      ∀ k : Nat, k < (pre ++ rest).length →
        |((pre ++ rest).take (clampFrameIndex (frameIndexLoop t rest pre.sum pre.length)
            (((pre ++ rest).length : Int) - 1)).toNat).sum - t|
          ≤ |((pre ++ rest).take k).sum - t| := by
  induction rest with
  | nil => intro pre h; exact absurd rfl h
  | cons d rest1 ih =>
    intro pre _ hnn hlo hhi
    by_cases hbreak : t ≤ pre.sum + d
    · -- the loop breaks at this delay
      have hrest1 : ∀ e ∈ rest1, 0 ≤ e := fun e he => hnn e (by simp [he])
      rw [frameIndexLoop_break t d rest1 pre.sum pre.length hbreak hlo hrest1]
      have htake0 : ((pre ++ d :: rest1).take pre.length).sum = pre.sum := by
        rw [List.take_left]
      have htake1 : ((pre ++ d :: rest1).take (pre.length + 1)).sum = pre.sum + d := by
        have : pre ++ d :: rest1 = (pre ++ [d]) ++ rest1 := by simp
        rw [this, List.take_left' (by simp)]
        simp
      have hbelow : ∀ k : Nat, k ≤ pre.length →
          ((pre ++ d :: rest1).take k).sum ≤ pre.sum := by
        intro k hk
        rw [← htake0]
        exact sum_take_mono _ hnn k pre.length hk
      have habove : ∀ k : Nat, pre.length + 1 ≤ k →
          pre.sum + d ≤ ((pre ++ d :: rest1).take k).sum := by
        intro k hk
        rw [← htake1]
        exact sum_take_mono _ hnn (pre.length + 1) k hk
      have hlen : ((pre ++ d :: rest1).length : Int) - 1 = pre.length + rest1.length := by
        simp only [List.length_append, List.length_cons]
        push_cast
        ring
      have hdist : ∀ k : Nat, k ≤ pre.length →
          t - pre.sum ≤ |((pre ++ d :: rest1).take k).sum - t| := by
        intro k hk
        have h1 := hbelow k hk
        have h2 := neg_abs_le (((pre ++ d :: rest1).take k).sum - t)
        omega
      have hdist1 : ∀ k : Nat, pre.length + 1 ≤ k →
          pre.sum + d - t ≤ |((pre ++ d :: rest1).take k).sum - t| := by
        intro k hk
        have h1 := habove k hk
        have h2 := le_abs_self (((pre ++ d :: rest1).take k).sum - t)
        omega
      have hat0 : |pre.sum - t| = t - pre.sum := by
        rw [abs_of_nonpos (by omega)]
        ring
      have hat1 : |pre.sum + d - t| = pre.sum + d - t := abs_of_nonneg (by omega)
      rw [hlen]
      by_cases hc : t - pre.sum < pre.sum + d - t
      · -- the previous frame is closer
        rw [if_pos hc]
        have hclamp : clampFrameIndex (pre.length : Int) (pre.length + rest1.length)
            = (pre.length : Int) := by
          rw [clampFrameIndex_eq]
          split_ifs <;> omega
        rw [hclamp, Int.toNat_ofNat, htake0, hat0]
        refine ⟨by omega, by omega, ?_⟩
        intro k _
        rcases Nat.lt_or_ge pre.length k with hk | hk
        · have := hdist1 k hk
          omega
        · exact hdist k hk
      · rw [if_neg hc]
        cases rest1 with
        | nil =>
          -- the frame after the last one is clamped to the last one
          have hclamp : clampFrameIndex ((pre.length : Int) + 1)
              (pre.length + (([] : List Int).length : Nat)) = (pre.length : Int) := by
            rw [clampFrameIndex_eq]
            simp only [List.length_nil, Nat.cast_zero]
            split_ifs <;> omega
          rw [hclamp, Int.toNat_ofNat, htake0, hat0]
          simp only [List.length_nil, Nat.cast_zero, add_zero]
          refine ⟨by omega, by omega, ?_⟩
          intro k hk
          simp only [List.length_append, List.length_cons, List.length_nil] at hk
          exact hdist k (by omega)
        | cons e rest2 =>
          have hclamp : clampFrameIndex ((pre.length : Int) + 1)
              (pre.length + ((e :: rest2).length : Nat)) = ((pre.length + 1 : Nat) : Int) := by
            rw [clampFrameIndex_eq]
            simp only [List.length_cons]
            push_cast
            split_ifs <;> omega
          rw [hclamp, Int.toNat_ofNat, htake1, hat1]
          simp only [List.length_cons]
          refine ⟨by omega, by push_cast; omega, ?_⟩
          intro k _
          rcases Nat.lt_or_ge pre.length k with hk | hk
          · exact hdist1 k hk
          · have := hdist k hk
            omega
    · -- the loop goes on to the next delay
      rw [frameIndexLoop_skip t d rest1 pre.sum pre.length hbreak]
      have hne : rest1 ≠ [] := by
        intro h
        subst h
        simp only [List.sum_append, List.sum_cons, List.sum_nil, add_zero] at hhi
        exact hbreak hhi
      have happ : pre ++ d :: rest1 = (pre ++ [d]) ++ rest1 := by simp
      have hsum : (pre ++ [d]).sum = pre.sum + d := by simp
      have hlen : (((pre ++ [d]).length : Nat) : Int) = (pre.length : Int) + 1 := by simp
      have h := ih (pre ++ [d]) hne (by rw [← happ]; exact hnn) (by rw [hsum]; omega)
        (by rw [← happ]; exact hhi)
      rw [hsum, hlen, ← happ] at h
      exact h

/-- C2: for every non-empty list of non-negative (in particular, positive) frame delays
and every elapsed time `t` with `0 <= t <= sum of the delays`, the frame that the seek
selects (the index computed by `setFrameByPercentage`, clamped by `setFrame`) lies in
`[0, lastFrameIndex]`, and no frame has a start time nearer to `t` than its start time. -/
theorem seek_selects_nearest_frame (frameDelays : List Int) (t : Int)
    (hne : frameDelays ≠ []) (hnn : ∀ d ∈ frameDelays, 0 ≤ d)
    (h0 : 0 ≤ t) (ht : t ≤ frameDelays.sum) :
    0 ≤ clampFrameIndex (frameIndexByMs frameDelays t) ((frameDelays.length : Int) - 1) ∧
    clampFrameIndex (frameIndexByMs frameDelays t) ((frameDelays.length : Int) - 1)
      ≤ (frameDelays.length : Int) - 1 ∧
    ∀ k : Nat, k < frameDelays.length →
      |(frameDelays.take (clampFrameIndex (frameIndexByMs frameDelays t)
          ((frameDelays.length : Int) - 1)).toNat).sum - t|
        ≤ |(frameDelays.take k).sum - t| := by
  have h := seek_nearest_from t frameDelays [] hne (by simpa using hnn) (by simpa using h0)
    (by simpa using ht)
  simpa [frameIndexByMs] using h

/-- Witness of C2: delays of 40, 100, 20 and 250 ms, sought at 150 ms. -/
theorem seek_selects_nearest_frame_witness :
    0 ≤ clampFrameIndex (frameIndexByMs [40, 100, 20, 250] 150)
        ((([40, 100, 20, 250] : List Int).length : Int) - 1) ∧
    clampFrameIndex (frameIndexByMs [40, 100, 20, 250] 150)
        ((([40, 100, 20, 250] : List Int).length : Int) - 1)
      ≤ (([40, 100, 20, 250] : List Int).length : Int) - 1 ∧
    ∀ k : Nat, k < ([40, 100, 20, 250] : List Int).length →
      |(([40, 100, 20, 250] : List Int).take (clampFrameIndex
          (frameIndexByMs [40, 100, 20, 250] 150)
          ((([40, 100, 20, 250] : List Int).length : Int) - 1)).toNat).sum - 150|
        ≤ |(([40, 100, 20, 250] : List Int).take k).sum - 150| :=
  seek_selects_nearest_frame [40, 100, 20, 250] 150 (by decide) (by decide) (by decide)
    (by decide)

/-! ## Forward-only seek (`setFrame`, cache mode None) -/

theorem setFrameLoop_reached (Q : QMovie M) (frameIndex : Int) (fuel : Nat) (m : M)
    (isStartTried : Bool) (h : Q.currentFrameNumber m = frameIndex) :
    setFrameLoop Q frameIndex (fuel + 1) m isStartTried = some (m, []) := by
  simp [setFrameLoop, h]

theorem setFrameLoop_advanced (Q : QMovie M) (frameIndex : Int) (fuel : Nat) (m m1 : M)
    (isStartTried : Bool) (h : Q.currentFrameNumber m ≠ frameIndex)
    (hj : Q.jumpToNextFrame m = (true, m1)) :
    setFrameLoop Q frameIndex (fuel + 1) m isStartTried
      = (setFrameLoop Q frameIndex fuel m1 isStartTried).map
          (fun r => (r.1, SeekEvent.advanced (Q.currentFrameNumber m1) :: r.2)) := by
  simp [setFrameLoop, h, hj]

theorem setFrameLoop_restarted (Q : QMovie M) (frameIndex : Int) (fuel : Nat) (m m1 : M)
    (h : Q.currentFrameNumber m ≠ frameIndex)
    (hj : Q.jumpToNextFrame m = (false, m1)) (hs : Q.state m1 = MovieState.NotRunning) :
    setFrameLoop Q frameIndex (fuel + 1) m false
      = (setFrameLoop Q frameIndex fuel (Q.start m1) true).map
          (fun r => (r.1, SeekEvent.restarted (Q.currentFrameNumber (Q.start m1)) :: r.2)) := by
  simp [setFrameLoop, h, hj, hs]

theorem setFrameLoop_stalled (Q : QMovie M) (frameIndex : Int) (fuel : Nat) (m m1 : M)
    (isStartTried : Bool) (h : Q.currentFrameNumber m ≠ frameIndex)
    (hj : Q.jumpToNextFrame m = (false, m1))
    (hs : Q.state m1 ≠ MovieState.NotRunning ∨ isStartTried = true) :
    setFrameLoop Q frameIndex (fuel + 1) m isStartTried = some (m1, [SeekEvent.stalled]) := by
  rcases hs with hs | hs
  · simp [setFrameLoop, h, hj, hs]
  · simp [setFrameLoop, h, hj, hs]

theorem setFrameLoop_forward (Q : QMovie M) (L target : Int) (htarget : target ≤ L)
    (hadv : ∀ m, Q.currentFrameNumber m < L →
      (Q.jumpToNextFrame m).1 = true ∧
      Q.currentFrameNumber (Q.jumpToNextFrame m).2 = Q.currentFrameNumber m + 1)
    (isStartTried : Bool) :
    ∀ (n : Nat) (m : M) (fuel : Nat), Q.currentFrameNumber m + n = target → n < fuel →
      ∃ m1, setFrameLoop Q target fuel m isStartTried
          = some (m1, (List.range n).map
              (fun (j : Nat) => SeekEvent.advanced (Q.currentFrameNumber m + 1 + (j : Int)))) ∧
        Q.currentFrameNumber m1 = target := by
  intro n
  induction n with
  | zero =>
    intro m fuel hm hfuel
    obtain ⟨fuel1, rfl⟩ : ∃ k, fuel = k + 1 := ⟨fuel - 1, by omega⟩
    refine ⟨m, ?_, by simpa using hm⟩
    rw [setFrameLoop_reached Q target fuel1 m isStartTried (by simpa using hm)]
    simp
  | succ n ih =>
    intro m fuel hm hfuel
    obtain ⟨fuel1, rfl⟩ : ∃ k, fuel = k + 1 := ⟨fuel - 1, by omega⟩
    have hlt : Q.currentFrameNumber m < L := by push_cast at hm; omega
    have hne : Q.currentFrameNumber m ≠ target := by push_cast at hm; omega
    obtain ⟨hok, hframe⟩ := hadv m hlt
    have hj : Q.jumpToNextFrame m = (true, (Q.jumpToNextFrame m).2) := by
      rw [← hok]
    obtain ⟨m1, hrun, hcur⟩ := ih (Q.jumpToNextFrame m).2 fuel1
      (by rw [hframe]; push_cast at hm; omega) (by omega)
    refine ⟨m1, ?_, hcur⟩
    rw [setFrameLoop_advanced Q target fuel1 m _ isStartTried hne hj, hrun]
    simp only [Option.map_some', List.range_succ_eq_map, List.map_cons, List.map_map, hframe]
    simp only [Nat.cast_zero, add_zero, Option.some.injEq, Prod.mk.injEq, List.cons.injEq,
      true_and]
    apply List.map_congr_left
    intro j _
    simp only [Function.comp, Nat.cast_succ]
    ring_nf

/-- C7: with cache mode None and a decoder whose `jumpToNextFrame` succeeds and moves
the current frame from `k` to `k + 1` (below `lastFrameIndex`) and whose `setPaused`
keeps the frame, `setFrame(t)` from frame `s` with `0 <= s <= t <= lastFrameIndex`
returns once `fuel > t - s`; its loop performs exactly `t - s` iterations, each a
successful advance, reaching `s + 1, s + 2, ..., t` in this order, and the current
frame ends at `t`. -/
theorem setFrame_uncached_forward (Q : QMovie M) (a : Animation M) (t : Int) (fuel : Nat)
    (hcache : Q.cacheMode a.movie = CacheMode.CacheNone)
    (hadv : ∀ m, Q.currentFrameNumber m < a.lastFrameIndex →
      (Q.jumpToNextFrame m).1 = true ∧
      Q.currentFrameNumber (Q.jumpToNextFrame m).2 = Q.currentFrameNumber m + 1)
    (hpaused : ∀ m b, Q.currentFrameNumber (Q.setPaused m b) = Q.currentFrameNumber m)
    (hs : 0 ≤ Q.currentFrameNumber a.movie) (hst : Q.currentFrameNumber a.movie ≤ t)
    (ht : t ≤ a.lastFrameIndex)
    (hfuel : (t - Q.currentFrameNumber a.movie).toNat < fuel) :
    ∃ a1 log, setFrameTraced Q fuel a t = some (a1, log) ∧
      log = (List.range (t - Q.currentFrameNumber a.movie).toNat).map
        (fun (j : Nat) => SeekEvent.advanced (Q.currentFrameNumber a.movie + 1 + (j : Int))) ∧
      log.length = (t - Q.currentFrameNumber a.movie).toNat ∧
      Q.currentFrameNumber a1.movie = t := by
  have hclamp : clampFrameIndex t a.lastFrameIndex = t := by
    rw [clampFrameIndex_eq]
    split_ifs <;> omega
  have hc : (Q.cacheMode a.movie == CacheMode.CacheAll) = false := by
    rw [hcache]
    decide
  cases hrun : (Q.state a.movie == MovieState.Running)
  · -- not running: the loop is bracketed by setPaused(false) and setPaused(true)
    obtain ⟨m1, hloop, hcur⟩ := setFrameLoop_forward Q a.lastFrameIndex t ht hadv false
      (t - Q.currentFrameNumber a.movie).toNat (Q.setPaused a.movie false) fuel
      (by rw [hpaused, Int.toNat_of_nonneg (by omega)]; ring) hfuel
    rw [hpaused] at hloop
    refine ⟨{ a with movie := Q.setPaused m1 true }, _, ?_, rfl, by simp, ?_⟩
    · simp [setFrameTraced, hclamp, hc, hrun, hloop]
    · simp [hpaused, hcur]
  · obtain ⟨m1, hloop, hcur⟩ := setFrameLoop_forward Q a.lastFrameIndex t ht hadv false
      (t - Q.currentFrameNumber a.movie).toNat a.movie fuel
      (by rw [Int.toNat_of_nonneg (by omega)]; ring) hfuel
    refine ⟨{ a with movie := m1 }, _, ?_, rfl, by simp, ?_⟩
    · simp [setFrameTraced, hclamp, hc, hrun, hloop]
    · simp [hcur]

/-- Witness of C7: four frames of 100 ms, cache mode None, decoder paused at frame 0,
`setFrame(2)`: the loop reaches frame 1, then frame 2. -/
theorem setFrame_uncached_forward_witness :
    (∃ a1 log, setFrameTraced (loopingMovie 3) 3
        (sample 3 MovieState.Paused CacheMode.CacheNone 0) 2 = some (a1, log) ∧
      log = (List.range ((2 : Int) - (loopingMovie 3).currentFrameNumber
          (sample 3 MovieState.Paused CacheMode.CacheNone 0).movie).toNat).map
        (fun (j : Nat) => SeekEvent.advanced ((loopingMovie 3).currentFrameNumber
          (sample 3 MovieState.Paused CacheMode.CacheNone 0).movie + 1 + (j : Int))) ∧
      log.length = ((2 : Int) - (loopingMovie 3).currentFrameNumber
          (sample 3 MovieState.Paused CacheMode.CacheNone 0).movie).toNat ∧
      (loopingMovie 3).currentFrameNumber a1.movie = 2) ∧
    (setFrameTraced (loopingMovie 3) 3
        (sample 3 MovieState.Paused CacheMode.CacheNone 0) 2).map Prod.snd
      = some [SeekEvent.advanced 1, SeekEvent.advanced 2] :=
  ⟨setFrame_uncached_forward (loopingMovie 3)
      (sample 3 MovieState.Paused CacheMode.CacheNone 0) 2 3 rfl
      (by
        intro m h
        have h : m.frame < 3 := h
        simp [loopingMovie, h])
      (by
        intro m b
        cases b <;> simp [loopingMovie]
        split_ifs <;> rfl)
      (by decide) (by decide) (by decide) (by decide),
    by decide⟩

theorem stepsToTarget_step (L target c : Int) (h0 : 0 ≤ target) (hL : target ≤ L)
    (hc : c ≠ target) :
    stepsToTarget L target (if c < L then c + 1 else 0) < stepsToTarget L target c := by
  unfold stepsToTarget
  split_ifs <;> omega

theorem SeekOutcome.cons_advanced (Q : QMovie M) (target : Int) (isStartTried : Bool)
    (m m1 m2 : M) (log : List SeekEvent)
    (h : SeekOutcome Q target isStartTried m1 m2 log) :
    SeekOutcome Q target isStartTried m m2
      (SeekEvent.advanced (Q.currentFrameNumber m1) :: log) := by
  obtain ⟨h1, h2, h3, h4, h5⟩ := h
  have hcount : restartCount (SeekEvent.advanced (Q.currentFrameNumber m1) :: log)
      = restartCount log := by
    simp [restartCount, SeekEvent.isRestart]
  refine ⟨by rw [hcount]; exact h1, ?_, ?_, ?_, ?_⟩
  · cases log with
    | nil => simp
    | cons e rest =>
      simp only [List.dropLast_cons₂, List.mem_cons, not_or]
      exact ⟨by simp, h2⟩
  · intro hn
    exact h3 (fun hmem => hn (List.mem_cons_of_mem _ hmem))
  · simpa [lastReached] using h4
  · intro hmem hzero htried
    rw [hcount] at hzero
    exact h5 (by simpa using hmem) hzero htried

theorem SeekOutcome.cons_restarted (Q : QMovie M) (target : Int) (m m1 m2 : M)
    (log : List SeekEvent) (h : SeekOutcome Q target true m1 m2 log) :
    SeekOutcome Q target false m m2
      (SeekEvent.restarted (Q.currentFrameNumber m1) :: log) := by
  obtain ⟨h1, h2, h3, h4, _⟩ := h
  have hcount : restartCount (SeekEvent.restarted (Q.currentFrameNumber m1) :: log)
      = restartCount log + 1 := by
    simp [restartCount, SeekEvent.isRestart]
  simp only [if_true] at h1
  refine ⟨by rw [hcount]; simp only [Bool.false_eq_true, if_false]; omega, ?_, ?_, ?_, ?_⟩
  · cases log with
    | nil => simp
    | cons e rest =>
      simp only [List.dropLast_cons₂, List.mem_cons, not_or]
      exact ⟨by simp, h2⟩
  · intro hn
    exact h3 (fun hmem => hn (List.mem_cons_of_mem _ hmem))
  · simpa [lastReached] using h4
  · intro _ hzero
    rw [hcount] at hzero
    omega

theorem setFrameLoop_terminates_aux (Q : QMovie M) (L target : Int)
    (h0 : 0 ≤ target) (hL : target ≤ L)
    (hadv : ∀ m, (Q.jumpToNextFrame m).1 = true →
      Q.currentFrameNumber (Q.jumpToNextFrame m).2
        = if Q.currentFrameNumber m < L then Q.currentFrameNumber m + 1 else 0)
    (hfail : ∀ m, (Q.jumpToNextFrame m).1 = false →
      Q.currentFrameNumber (Q.jumpToNextFrame m).2 = Q.currentFrameNumber m)
    (isStartTried : Bool)
    (hrestart : isStartTried = false → ∀ m, ∃ N, ∀ fuel, N ≤ fuel →
      ∃ m1 log, setFrameLoop Q target fuel m true = some (m1, log) ∧
        SeekOutcome Q target true m m1 log) :
    ∀ (n : Nat) (m : M), stepsToTarget L target (Q.currentFrameNumber m) ≤ n →
      ∃ N, ∀ fuel, N ≤ fuel →
        ∃ m1 log, setFrameLoop Q target fuel m isStartTried = some (m1, log) ∧
          SeekOutcome Q target isStartTried m m1 log := by
  intro n
  induction n with
  | zero =>
    intro m hsteps
    have hreach : Q.currentFrameNumber m = target := by
      unfold stepsToTarget at hsteps
      split_ifs at hsteps <;> omega
    refine ⟨1, fun fuel hfuel => ?_⟩
    obtain ⟨k, rfl⟩ : ∃ k, fuel = k + 1 := ⟨fuel - 1, by omega⟩
    refine ⟨m, [], setFrameLoop_reached Q target k m isStartTried hreach, ?_⟩
    refine ⟨by simp [restartCount], by simp, fun _ => hreach, by simp [lastReached], by simp⟩
  | succ n ih =>
    intro m hsteps
    by_cases hreach : Q.currentFrameNumber m = target
    · refine ⟨1, fun fuel hfuel => ?_⟩
      obtain ⟨k, rfl⟩ : ∃ k, fuel = k + 1 := ⟨fuel - 1, by omega⟩
      refine ⟨m, [], setFrameLoop_reached Q target k m isStartTried hreach, ?_⟩
      refine ⟨by simp [restartCount], by simp, fun _ => hreach, by simp [lastReached], by simp⟩
    · rcases hj : Q.jumpToNextFrame m with ⟨ok, m1⟩
      cases ok with
      | true =>
        -- a successful advance brings the decoder nearer to the target
        have hframe : Q.currentFrameNumber m1
            = if Q.currentFrameNumber m < L then Q.currentFrameNumber m + 1 else 0 := by
          have h := hadv m (by rw [hj])
          rw [hj] at h
          exact h
        have hdec := stepsToTarget_step L target (Q.currentFrameNumber m) h0 hL hreach
        rw [← hframe] at hdec
        obtain ⟨N, hN⟩ := ih m1 (by omega)
        refine ⟨N + 1, fun fuel hfuel => ?_⟩
        obtain ⟨k, rfl⟩ : ∃ k, fuel = k + 1 := ⟨fuel - 1, by omega⟩
        obtain ⟨m2, log, hrun, hout⟩ := hN k (by omega)
        refine ⟨m2, SeekEvent.advanced (Q.currentFrameNumber m1) :: log, ?_,
          SeekOutcome.cons_advanced Q target isStartTried m m1 m2 log hout⟩
        rw [setFrameLoop_advanced Q target k m m1 isStartTried hreach hj, hrun]
        rfl
      | false =>
        have hkeep : Q.currentFrameNumber m1 = Q.currentFrameNumber m := by
          have h := hfail m (by rw [hj])
          rw [hj] at h
          exact h
        by_cases hs : Q.state m1 = MovieState.NotRunning ∧ isStartTried = false
        · -- the one restart
          obtain ⟨hstop, htried⟩ := hs
          subst htried
          obtain ⟨N, hN⟩ := hrestart rfl (Q.start m1)
          refine ⟨N + 1, fun fuel hfuel => ?_⟩
          obtain ⟨k, rfl⟩ : ∃ k, fuel = k + 1 := ⟨fuel - 1, by omega⟩
          obtain ⟨m2, log, hrun, hout⟩ := hN k (by omega)
          refine ⟨m2, SeekEvent.restarted (Q.currentFrameNumber (Q.start m1)) :: log, ?_,
            SeekOutcome.cons_restarted Q target m (Q.start m1) m2 log hout⟩
          rw [setFrameLoop_restarted Q target k m m1 hreach hj hstop, hrun]
          rfl
        · -- the loop is left at the failed advance
          have hs1 : Q.state m1 ≠ MovieState.NotRunning ∨ isStartTried = true := by
            by_cases hstop : Q.state m1 = MovieState.NotRunning
            · right
              cases isStartTried
              · exact absurd ⟨hstop, rfl⟩ hs
              · rfl
            · exact Or.inl hstop
          refine ⟨1, fun fuel hfuel => ?_⟩
          obtain ⟨k, rfl⟩ : ∃ k, fuel = k + 1 := ⟨fuel - 1, by omega⟩
          refine ⟨m1, [SeekEvent.stalled],
            setFrameLoop_stalled Q target k m m1 isStartTried hreach hj hs1, ?_⟩
          refine ⟨by simp [restartCount, SeekEvent.isRestart], by simp, by simp,
            by simpa [lastReached] using hkeep, ?_⟩
          intro _ _ htried hstop
          exact hs ⟨hstop, htried⟩

theorem setFrameLoop_terminates (Q : QMovie M) (L target : Int)
    (h0 : 0 ≤ target) (hL : target ≤ L)
    (hadv : ∀ m, (Q.jumpToNextFrame m).1 = true →
      Q.currentFrameNumber (Q.jumpToNextFrame m).2
        = if Q.currentFrameNumber m < L then Q.currentFrameNumber m + 1 else 0)
    (hfail : ∀ m, (Q.jumpToNextFrame m).1 = false →
      Q.currentFrameNumber (Q.jumpToNextFrame m).2 = Q.currentFrameNumber m)
    (m : M) :
    ∃ N, ∀ fuel, N ≤ fuel →
      ∃ m1 log, setFrameLoop Q target fuel m false = some (m1, log) ∧
        SeekOutcome Q target false m m1 log := by
  have hsecond : ∀ m, ∃ N, ∀ fuel, N ≤ fuel →
      ∃ m1 log, setFrameLoop Q target fuel m true = some (m1, log) ∧
        SeekOutcome Q target true m m1 log := fun m =>
    setFrameLoop_terminates_aux Q L target h0 hL hadv hfail true
      (fun h => absurd h (by decide)) _ m le_rfl
  exact setFrameLoop_terminates_aux Q L target h0 hL hadv hfail false
    (fun _ => hsecond) _ m le_rfl

theorem setFrameLoop_followsSeekPolicy (Q : QMovie M) (target : Int) :
    ∀ (fuel : Nat) (m : M) (isStartTried : Bool) (m1 : M) (log : List SeekEvent),
      setFrameLoop Q target fuel m isStartTried = some (m1, log) →
      followsSeekPolicy Q target isStartTried m log = true ∧ m1 = decoderAfter Q m log := by
  intro fuel
  induction fuel with
  | zero =>
    intro m isStartTried m1 log h
    simp [setFrameLoop] at h
  | succ fuel ih =>
    intro m isStartTried m1 log h
    by_cases hcur : Q.currentFrameNumber m = target
    · rw [setFrameLoop_reached Q target fuel m isStartTried hcur] at h
      simp only [Option.some.injEq, Prod.mk.injEq] at h
      obtain ⟨h1, h2⟩ := h
      subst h1 h2
      simp [followsSeekPolicy, decoderAfter, hcur]
    · cases hj : Q.jumpToNextFrame m with
      | mk ok m2 =>
        have hm2 : (Q.jumpToNextFrame m).2 = m2 := by rw [hj]
        have hok : (Q.jumpToNextFrame m).1 = ok := by rw [hj]
        cases ok with
        | true =>
          rw [setFrameLoop_advanced Q target fuel m m2 isStartTried hcur hj] at h
          cases hrec : setFrameLoop Q target fuel m2 isStartTried with
          | none => simp [hrec] at h
          | some r =>
            obtain ⟨m3, log3⟩ := r
            simp only [hrec, Option.map_some', Option.some.injEq, Prod.mk.injEq] at h
            obtain ⟨h1, h2⟩ := h
            subst h1 h2
            obtain ⟨hp, hd⟩ := ih m2 isStartTried m3 log3 hrec
            simp [followsSeekPolicy, decoderAfter, hcur, hm2, hok, hp, hd]
        | false =>
          by_cases hs : Q.state m2 = MovieState.NotRunning ∧ isStartTried = false
          · have hunf : setFrameLoop Q target (fuel + 1) m isStartTried
                = (setFrameLoop Q target fuel (Q.start m2) true).map
                    (fun r => (r.1,
                      SeekEvent.restarted (Q.currentFrameNumber (Q.start m2)) :: r.2)) := by
              simp [setFrameLoop, hcur, hj, hs.1, hs.2]
            rw [hunf] at h
            cases hrec : setFrameLoop Q target fuel (Q.start m2) true with
            | none => simp [hrec] at h
            | some r =>
              obtain ⟨m3, log3⟩ := r
              simp only [hrec, Option.map_some', Option.some.injEq, Prod.mk.injEq] at h
              obtain ⟨h1, h2⟩ := h
              subst h1 h2
              obtain ⟨hp, hd⟩ := ih (Q.start m2) true m3 log3 hrec
              simp [followsSeekPolicy, decoderAfter, hcur, hm2, hok, hp, hd, hs.1, hs.2]
          · have hunf : setFrameLoop Q target (fuel + 1) m isStartTried
                = some (m2, [SeekEvent.stalled]) := by
              have hs1 : (Q.state m2 == MovieState.NotRunning && !isStartTried) = false := by
                cases isStartTried <;> simp_all
              simp [setFrameLoop, hcur, hj, hs1]
            rw [hunf] at h
            simp only [Option.some.injEq, Prod.mk.injEq] at h
            obtain ⟨h1, h2⟩ := h
            subst h1 h2
            have hs1 : (Q.state m2 == MovieState.NotRunning && !isStartTried) = false := by
              cases isStartTried <;> simp_all
            simp [followsSeekPolicy, decoderAfter, hcur, hm2, hok, hs1]

/-- C8: on a decoder whose advance may fail (a successful advance moves to the next
frame, or from the last frame to frame 0; a failed one keeps the frame), the traversal
loop of `setFrame` returns for every target in `[0, lastFrameIndex]` once the fuel is
large enough.  Its trace holds at most one restart; a failed advance that is not
answered by the restart is the last iteration; without such a failure the decoder is at
the target; the decoder is left at the last frame the trace reports; and when the loop
is left at a failed advance with no restart made, the decoder is not stopped.  The
trace follows the seek policy iteration by iteration: the decoder is restarted only
after a failed advance that left it stopped and when no restart was tried before, a
failed advance in any other situation ends the loop, and the decoder is left in the
state these calls lead to.  Hence `setFrame` itself returns, with such a trace, which
follows the policy from the state in which the loop is entered. -/
theorem setFrame_uncached_terminates (Q : QMovie M) (L : Int) (hL0 : 0 ≤ L)
    (hadv : ∀ m, (Q.jumpToNextFrame m).1 = true →
      Q.currentFrameNumber (Q.jumpToNextFrame m).2
        = if Q.currentFrameNumber m < L then Q.currentFrameNumber m + 1 else 0)
    (hfail : ∀ m, (Q.jumpToNextFrame m).1 = false →
      Q.currentFrameNumber (Q.jumpToNextFrame m).2 = Q.currentFrameNumber m) :
    (∀ (target : Int) (m : M), 0 ≤ target → target ≤ L →
      ∃ N, ∀ fuel, N ≤ fuel →
        ∃ m1 log, setFrameLoop Q target fuel m false = some (m1, log) ∧
          restartCount log ≤ 1 ∧
          SeekEvent.stalled ∉ log.dropLast ∧
          (SeekEvent.stalled ∉ log → Q.currentFrameNumber m1 = target) ∧
          Q.currentFrameNumber m1 = lastReached (Q.currentFrameNumber m) log ∧
          (SeekEvent.stalled ∈ log → restartCount log = 0 →
            Q.state m1 ≠ MovieState.NotRunning) ∧
          followsSeekPolicy Q target false m log = true ∧
          m1 = decoderAfter Q m log) ∧
    (∀ (a : Animation M) (f : Int), a.lastFrameIndex = L →
      ∃ N, ∀ fuel, N ≤ fuel →
        ∃ a1 log, setFrameTraced Q fuel a f = some (a1, log) ∧
          restartCount log ≤ 1 ∧ SeekEvent.stalled ∉ log.dropLast ∧
          (Q.cacheMode a.movie ≠ CacheMode.CacheAll →
            followsSeekPolicy Q (clampFrameIndex f a.lastFrameIndex) false
              (if Q.state a.movie = MovieState.Running then a.movie
                else Q.setPaused a.movie false) log = true)) := by
  have hloop : ∀ (target : Int) (m : M), 0 ≤ target → target ≤ L →
      ∃ N, ∀ fuel, N ≤ fuel →
        ∃ m1 log, setFrameLoop Q target fuel m false = some (m1, log) ∧
          SeekOutcome Q target false m m1 log :=
    fun target m h0 h1 => setFrameLoop_terminates Q L target h0 h1 hadv hfail m
  constructor
  · intro target m h0 h1
    obtain ⟨N, hN⟩ := hloop target m h0 h1
    refine ⟨N, fun fuel hfuel => ?_⟩
    obtain ⟨m1, log, hrun, hc, hd, hr, hl, hs⟩ := hN fuel hfuel
    obtain ⟨hpol, hdec⟩ := setFrameLoop_followsSeekPolicy Q target fuel m false m1 log hrun
    exact ⟨m1, log, hrun, by simpa using hc, hd, hr, hl, fun h1 h2 => hs h1 h2 rfl,
      hpol, hdec⟩
  · intro a f hlast
    have hclamp : 0 ≤ clampFrameIndex f a.lastFrameIndex ∧
        clampFrameIndex f a.lastFrameIndex ≤ L := by
      rw [clampFrameIndex_eq]
      split_ifs <;> omega
    cases hc : (Q.cacheMode a.movie == CacheMode.CacheAll)
    · cases hrun : (Q.state a.movie == MovieState.Running)
      · obtain ⟨N, hN⟩ := hloop _ (Q.setPaused a.movie false) hclamp.1 hclamp.2
        refine ⟨N, fun fuel hfuel => ?_⟩
        obtain ⟨m1, log, hloop1, hcount, hd, _⟩ := hN fuel hfuel
        have hne : Q.state a.movie ≠ MovieState.Running := by simpa using hrun
        refine ⟨{ a with movie := Q.setPaused m1 true }, log, ?_, by simpa using hcount, hd,
          fun _ => ?_⟩
        · simp [setFrameTraced, hc, hrun, hloop1]
        · rw [if_neg hne]
          exact (setFrameLoop_followsSeekPolicy Q _ fuel _ false m1 log hloop1).1
      · obtain ⟨N, hN⟩ := hloop _ a.movie hclamp.1 hclamp.2
        refine ⟨N, fun fuel hfuel => ?_⟩
        obtain ⟨m1, log, hloop1, hcount, hd, _⟩ := hN fuel hfuel
        have heq : Q.state a.movie = MovieState.Running := by simpa using hrun
        refine ⟨{ a with movie := m1 }, log, ?_, by simpa using hcount, hd, fun _ => ?_⟩
        · simp [setFrameTraced, hc, hrun, hloop1]
        · rw [if_pos heq]
          exact (setFrameLoop_followsSeekPolicy Q _ fuel _ false m1 log hloop1).1
    · refine ⟨0, fun fuel _ => ?_⟩
      have hall : Q.cacheMode a.movie = CacheMode.CacheAll := by simpa using hc
      refine ⟨{ a with movie := Q.jumpToFrame a.movie (clampFrameIndex f a.lastFrameIndex) },
        [], ?_, by simp [restartCount], by simp, fun hne => absurd hall hne⟩
      simp [setFrameTraced, hc]

/-- Witness of C8: a stream of four frames that plays once, running at frame 2,
`setFrame(1)`: the loop reaches frame 3, fails, restarts at frame 0 and reaches frame 1;
and with the decoder paused the failed advance ends the loop at frame 3. -/
theorem setFrame_uncached_terminates_witness :
    ((∀ (target : Int) (m : Handle), 0 ≤ target → target ≤ 3 →
        ∃ N, ∀ fuel, N ≤ fuel →
          ∃ m1 log, setFrameLoop (playOnceMovie 3) target fuel m false = some (m1, log) ∧
            restartCount log ≤ 1 ∧
            SeekEvent.stalled ∉ log.dropLast ∧
            (SeekEvent.stalled ∉ log → (playOnceMovie 3).currentFrameNumber m1 = target) ∧
            (playOnceMovie 3).currentFrameNumber m1
              = lastReached ((playOnceMovie 3).currentFrameNumber m) log ∧
            (SeekEvent.stalled ∈ log → restartCount log = 0 →
              (playOnceMovie 3).state m1 ≠ MovieState.NotRunning) ∧
            followsSeekPolicy (playOnceMovie 3) target false m log = true ∧
            m1 = decoderAfter (playOnceMovie 3) m log) ∧
      (∀ (a : Animation Handle) (f : Int), a.lastFrameIndex = 3 →
        ∃ N, ∀ fuel, N ≤ fuel →
          ∃ a1 log, setFrameTraced (playOnceMovie 3) fuel a f = some (a1, log) ∧
            restartCount log ≤ 1 ∧ SeekEvent.stalled ∉ log.dropLast ∧
            ((playOnceMovie 3).cacheMode a.movie ≠ CacheMode.CacheAll →
              followsSeekPolicy (playOnceMovie 3) (clampFrameIndex f a.lastFrameIndex) false
                (if (playOnceMovie 3).state a.movie = MovieState.Running then a.movie
                  else (playOnceMovie 3).setPaused a.movie false) log = true))) ∧
    setFrameTraced (playOnceMovie 3) 6 (sample 3 MovieState.Running CacheMode.CacheNone 2) 1
      = some (sample 3 MovieState.Running CacheMode.CacheNone 1,
          [SeekEvent.advanced 3, SeekEvent.restarted 0, SeekEvent.advanced 1]) ∧
    setFrameLoop (playOnceMovie 3) 1 6
        (sample 3 MovieState.Paused CacheMode.CacheNone 2).movie false
      = some ((sample 3 MovieState.Paused CacheMode.CacheNone 3).movie,
          [SeekEvent.advanced 3, SeekEvent.stalled]) :=
  ⟨setFrame_uncached_terminates (playOnceMovie 3) 3 (by decide)
      (by
        intro m
        simp only [playOnceMovie]
        split_ifs <;> simp)
      (by
        intro m
        simp only [playOnceMovie]
        split_ifs <;> simp),
    by decide, by decide⟩

/-! ## Cache toggle (`toggleCache`) -/

theorem setFrameLoop_reliable (Q : QMovie M) (L target : Int) (hQ : ReliableDecoder Q L)
    (h0 : 0 ≤ target) (hL : target ≤ L) (isStartTried : Bool) :
    ∀ (n : Nat) (m : M), stepsToTarget L target (Q.currentFrameNumber m) ≤ n →
      ∀ fuel, n < fuel →
        ∃ m1 log, setFrameLoop Q target fuel m isStartTried = some (m1, log) ∧
          Q.currentFrameNumber m1 = target ∧ Q.state m1 = Q.state m ∧
          Q.cacheMode m1 = Q.cacheMode m := by
  intro n
  induction n with
  | zero =>
    intro m hsteps fuel hfuel
    have hreach : Q.currentFrameNumber m = target := by
      unfold stepsToTarget at hsteps
      split_ifs at hsteps <;> omega
    obtain ⟨k, rfl⟩ : ∃ k, fuel = k + 1 := ⟨fuel - 1, by omega⟩
    exact ⟨m, [], setFrameLoop_reached Q target k m isStartTried hreach, hreach, rfl, rfl⟩
  | succ n ih =>
    intro m hsteps fuel hfuel
    obtain ⟨k, rfl⟩ : ∃ k, fuel = k + 1 := ⟨fuel - 1, by omega⟩
    by_cases hreach : Q.currentFrameNumber m = target
    · exact ⟨m, [], setFrameLoop_reached Q target k m isStartTried hreach, hreach, rfl, rfl⟩
    · have hj : Q.jumpToNextFrame m = (true, (Q.jumpToNextFrame m).2) := by
        rw [← hQ.next_ok m]
      have hdec := stepsToTarget_step L target (Q.currentFrameNumber m) h0 hL hreach
      rw [← hQ.next_frame m] at hdec
      obtain ⟨m1, log, hrun, hcur, hstate, hcache⟩ :=
        ih (Q.jumpToNextFrame m).2 (by omega) k (by omega)
      refine ⟨m1, SeekEvent.advanced (Q.currentFrameNumber (Q.jumpToNextFrame m).2) :: log,
        ?_, hcur, by rw [hstate, hQ.next_state], by rw [hcache, hQ.next_cacheMode]⟩
      rw [setFrameLoop_advanced Q target k m _ isStartTried hreach hj, hrun]
      rfl

theorem setFrame_reliable (Q : QMovie M) (b : Animation M) (f : Int)
    (hQ : ReliableDecoder Q b.lastFrameIndex)
    (hrun : Q.state b.movie = MovieState.Running) (h0 : 0 ≤ f) (hL : f ≤ b.lastFrameIndex) :
    ∃ N, ∀ fuel, N ≤ fuel →
      ∃ m1, setFrame Q fuel b f = some { b with movie := m1 } ∧
        Q.currentFrameNumber m1 = f ∧ Q.state m1 = MovieState.Running ∧
        Q.cacheMode m1 = Q.cacheMode b.movie := by
  have hclamp : clampFrameIndex f b.lastFrameIndex = f := by
    rw [clampFrameIndex_eq]
    split_ifs <;> omega
  cases hc : (Q.cacheMode b.movie == CacheMode.CacheAll)
  · refine ⟨stepsToTarget b.lastFrameIndex f (Q.currentFrameNumber b.movie) + 1,
      fun fuel hfuel => ?_⟩
    obtain ⟨m1, log, hloop, hcur, hstate, hcache⟩ :=
      setFrameLoop_reliable Q b.lastFrameIndex f hQ h0 hL false _ b.movie le_rfl fuel
        (by omega)
    refine ⟨m1, ?_, hcur, by rw [hstate, hrun], hcache⟩
    simp [setFrame, setFrameTraced, hclamp, hc, hrun, hloop]
  · refine ⟨0, fun fuel _ => ⟨Q.jumpToFrame b.movie f, ?_, hQ.jumpToFrame_frame _ f h0 hL,
      by rw [hQ.jumpToFrame_state, hrun], hQ.jumpToFrame_cacheMode _ f⟩⟩
    simp [setFrame, setFrameTraced, hclamp, hc]

/-- C1: on a decoder that can always decode its stream, and from a frame inside
`[0, lastFrameIndex]`, `toggleCache` returns (given enough fuel for the reload) with the
cache mode flipped, and: paused at the same frame if the animation was paused, or
stopped at a frame other than 0 and `lastFrameIndex`; stopped if it was stopped at frame
0 or at `lastFrameIndex`; running if it was running. -/
theorem toggleCache_preserves_intent (Q : QMovie M) (a : Animation M)
    (hQ : ReliableDecoder Q a.lastFrameIndex)
    (h0 : 0 ≤ Q.currentFrameNumber a.movie)
    (hL : Q.currentFrameNumber a.movie ≤ a.lastFrameIndex) :
    ∃ N, ∀ fuel, N ≤ fuel →
      ∃ a1, toggleCache Q fuel a = some a1 ∧
        Q.cacheMode a1.movie
          = (if Q.cacheMode a.movie = CacheMode.CacheAll then CacheMode.CacheNone
             else CacheMode.CacheAll) ∧
        (Q.state a.movie = MovieState.Paused ∨
          (Q.state a.movie = MovieState.NotRunning ∧ Q.currentFrameNumber a.movie ≠ 0 ∧
            Q.currentFrameNumber a.movie ≠ a.lastFrameIndex) →
          Q.state a1.movie = MovieState.Paused ∧
          Q.currentFrameNumber a1.movie = Q.currentFrameNumber a.movie) ∧
        (Q.state a.movie = MovieState.NotRunning ∧
          (Q.currentFrameNumber a.movie = 0 ∨
            Q.currentFrameNumber a.movie = a.lastFrameIndex) →
          Q.state a1.movie = MovieState.NotRunning) ∧
        (Q.state a.movie = MovieState.Running → Q.state a1.movie = MovieState.Running) := by
  obtain ⟨N, hN⟩ := setFrame_reliable Q
    { a with movie := Q.start (Q.setCacheMode (Q.setDevice (Q.stop a.movie))
        (if (Q.cacheMode a.movie == CacheMode.CacheAll) = true then CacheMode.CacheNone
         else CacheMode.CacheAll)) }
    (Q.currentFrameNumber a.movie) hQ (hQ.start_state _) h0 hL
  refine ⟨N, fun fuel hfuel => ?_⟩
  obtain ⟨m5, hset, hcur, hstate, hcache⟩ := hN fuel hfuel
  simp only [hQ.start_cacheMode, hQ.setCacheMode_cacheMode] at hcache
  have hflip : Q.cacheMode m5
      = (if Q.cacheMode a.movie = CacheMode.CacheAll then CacheMode.CacheNone
         else CacheMode.CacheAll) := by
    rw [hcache]
    by_cases h : Q.cacheMode a.movie = CacheMode.CacheAll <;> simp [h]
  have hnotstopped : Q.state m5 ≠ MovieState.NotRunning := by
    rw [hstate]
    decide
  by_cases hpause : Q.state a.movie = MovieState.Paused ∨
      (Q.state a.movie = MovieState.NotRunning ∧ Q.currentFrameNumber a.movie ≠ 0 ∧
        Q.currentFrameNumber a.movie ≠ a.lastFrameIndex)
  · -- paused again at the previous frame
    have hcond : ((Q.state a.movie == MovieState.Paused) ||
        (!(Q.state a.movie == MovieState.Running) && Q.currentFrameNumber a.movie != 0 &&
          Q.currentFrameNumber a.movie != a.lastFrameIndex)) = true := by
      rcases hpause with h | ⟨h, h1, h2⟩
      · simp [h]
      · simp [h, h1, h2]
    refine ⟨updateVideoControls { a with movie := Q.setPaused m5 true }, ?_, ?_, ?_, ?_, ?_⟩
    · simp only [toggleCache, hset, hcond]
      rfl
    · simp only [updateVideoControls, hQ.setPaused_cacheMode, hflip]
    · intro _
      exact ⟨hQ.setPaused_state m5 hnotstopped, by
        simp only [updateVideoControls, hQ.setPaused_frame, hcur]⟩
    · rintro ⟨h, h1 | h1⟩
      · rcases hpause with h2 | ⟨_, h2, _⟩
        · rw [h] at h2
          exact absurd h2 (by decide)
        · exact absurd h1 h2
      · rcases hpause with h2 | ⟨_, _, h2⟩
        · rw [h] at h2
          exact absurd h2 (by decide)
        · exact absurd h1 h2
    · intro h
      rcases hpause with h2 | ⟨h2, _, _⟩
      · rw [h] at h2
        exact absurd h2 (by decide)
      · rw [h] at h2
        exact absurd h2 (by decide)
  · have hcond : ((Q.state a.movie == MovieState.Paused) ||
        (!(Q.state a.movie == MovieState.Running) && Q.currentFrameNumber a.movie != 0 &&
          Q.currentFrameNumber a.movie != a.lastFrameIndex)) = false := by
      cases hs : Q.state a.movie
      · rw [hs] at hpause
        simp only [reduceCtorEq, true_and, false_or, not_and, not_not] at hpause
        by_cases hz : Q.currentFrameNumber a.movie = 0
        · simp [hz]
        · simp [hz, hpause hz]
      · rw [hs] at hpause
        simp at hpause
      · simp
    by_cases hrun : Q.state a.movie = MovieState.Running
    · -- left running
      have hnr : (!(Q.state a.movie == MovieState.Running)) = false := by simp [hrun]
      refine ⟨updateVideoControls { a with movie := m5 }, ?_, ?_, ?_, ?_, ?_⟩
      · simp only [toggleCache, hset]
        rw [hcond]
        simp [hnr]
      · simp only [updateVideoControls, hflip]
      · intro h
        exact absurd h hpause
      · rintro ⟨h, _⟩
        rw [hrun] at h
        exact absurd h (by decide)
      · intro _
        exact hstate
    · -- stopped again
      have hnr : (!(Q.state a.movie == MovieState.Running)) = true := by simp [hrun]
      refine ⟨updateVideoControls { a with movie := Q.stop m5 }, ?_, ?_, ?_, ?_, ?_⟩
      · simp only [toggleCache, hset]
        rw [hcond]
        simp [hnr]
      · simp only [updateVideoControls, hQ.stop_cacheMode, hflip]
      · intro h
        exact absurd h hpause
      · intro _
        exact hQ.stop_state m5
      · intro h
        exact absurd h hrun

theorem loopingMovie_reliable (L : Int) : ReliableDecoder (loopingMovie L) L where
  stop_state _ := rfl
  stop_cacheMode _ := rfl
  setPaused_state m h := by
    have h : m.state ≠ MovieState.NotRunning := h
    simp [loopingMovie, h]
  setPaused_frame m b := by
    cases b <;> simp [loopingMovie]
    split_ifs <;> rfl
  setPaused_cacheMode m b := by
    cases b <;> simp [loopingMovie]
    split_ifs <;> rfl
  setCacheMode_cacheMode _ _ := rfl
  start_state _ := rfl
  start_cacheMode _ := rfl
  jumpToFrame_frame m f h0 h1 := by simp [loopingMovie, h0, h1]
  jumpToFrame_state m f := by
    simp only [loopingMovie]
    split_ifs <;> rfl
  jumpToFrame_cacheMode m f := by
    simp only [loopingMovie]
    split_ifs <;> rfl
  next_ok _ := rfl
  next_frame _ := rfl
  next_state _ := rfl
  next_cacheMode _ := rfl

/-- Witness of C1: paused at frame 5 of an animation with `lastFrameIndex = 10`, cache
mode All; `toggleCache` leaves it paused at frame 5 with cache mode None, after one
update request. -/
theorem toggleCache_preserves_intent_witness :
    (∃ N, ∀ fuel, N ≤ fuel →
      ∃ a1, toggleCache (loopingMovie 10) fuel
          (sample 10 MovieState.Paused CacheMode.CacheAll 5) = some a1 ∧
        (loopingMovie 10).cacheMode a1.movie
          = (if (loopingMovie 10).cacheMode
                (sample 10 MovieState.Paused CacheMode.CacheAll 5).movie = CacheMode.CacheAll
             then CacheMode.CacheNone else CacheMode.CacheAll) ∧
        ((loopingMovie 10).state (sample 10 MovieState.Paused CacheMode.CacheAll 5).movie
            = MovieState.Paused ∨
          ((loopingMovie 10).state (sample 10 MovieState.Paused CacheMode.CacheAll 5).movie
              = MovieState.NotRunning ∧
            (loopingMovie 10).currentFrameNumber
              (sample 10 MovieState.Paused CacheMode.CacheAll 5).movie ≠ 0 ∧
            (loopingMovie 10).currentFrameNumber
              (sample 10 MovieState.Paused CacheMode.CacheAll 5).movie
              ≠ (sample 10 MovieState.Paused CacheMode.CacheAll 5).lastFrameIndex) →
          (loopingMovie 10).state a1.movie = MovieState.Paused ∧
          (loopingMovie 10).currentFrameNumber a1.movie
            = (loopingMovie 10).currentFrameNumber
                (sample 10 MovieState.Paused CacheMode.CacheAll 5).movie) ∧
        ((loopingMovie 10).state (sample 10 MovieState.Paused CacheMode.CacheAll 5).movie
            = MovieState.NotRunning ∧
          ((loopingMovie 10).currentFrameNumber
              (sample 10 MovieState.Paused CacheMode.CacheAll 5).movie = 0 ∨
            (loopingMovie 10).currentFrameNumber
              (sample 10 MovieState.Paused CacheMode.CacheAll 5).movie
              = (sample 10 MovieState.Paused CacheMode.CacheAll 5).lastFrameIndex) →
          (loopingMovie 10).state a1.movie = MovieState.NotRunning) ∧
        ((loopingMovie 10).state (sample 10 MovieState.Paused CacheMode.CacheAll 5).movie
            = MovieState.Running →
          (loopingMovie 10).state a1.movie = MovieState.Running)) ∧
    (toggleCache (loopingMovie 10) 8
        (sample 10 MovieState.Paused CacheMode.CacheAll 5)).map (fun a1 => a1.movie)
      = some (sample 10 MovieState.Paused CacheMode.CacheNone 5).movie ∧
    (toggleCache (loopingMovie 10) 0
        (sample 10 MovieState.Paused CacheMode.CacheNone 5)).map (fun a1 => a1.movie)
      = some (sample 10 MovieState.Paused CacheMode.CacheAll 5).movie :=
  ⟨toggleCache_preserves_intent (loopingMovie 10)
      (sample 10 MovieState.Paused CacheMode.CacheAll 5) (loopingMovie_reliable 10)
      (by decide) (by decide),
    by decide, by decide⟩

/-! ## Loop mode (`changeLoopMode`) -/

theorem LoopMode.toInt_ofInt (n : Int) (h0 : 0 ≤ n) (h2 : n ≤ 2) :
    (LoopMode.ofInt n).toInt = n := by
  have h3 : n = 0 ∨ n = 1 ∨ n = 2 := by omega
  rcases h3 with h | h | h <;> rw [h] <;> rfl

theorem changeLoopMode_loopMode (a : Animation M) (steps : Int) :
    (changeLoopMode a steps).loopMode.toInt
      = if a.loopMode.toInt + steps > 2 then 0
        else if a.loopMode.toInt + steps < 0 then 2 else a.loopMode.toInt + steps := by
  have hno : LoopMode.NoLoop.toInt = 2 := rfl
  simp only [changeLoopMode, updateVideoControls, hno]
  split_ifs with h1 h2
  · rfl
  · rfl
  · exact LoopMode.toInt_ofInt _ (by omega) (by omega)

/-- C11: from every loop mode, three applications of `changeLoopMode(+1)` lead back to
the loop mode they started from. -/
theorem changeLoopMode_three_times (a : Animation M) :
    (changeLoopMode (changeLoopMode (changeLoopMode a 1) 1) 1).loopMode = a.loopMode := by
  cases h : a.loopMode <;> simp [changeLoopMode, updateVideoControls, h, LoopMode.toInt,
    LoopMode.ofInt]

/-- C12 (counterexample): from `NoLoop` (2), `changeLoopMode(2)` yields `Unchanged` (0),
while `(2 + 2) mod 3` is 1; from `Unchanged` (0), `changeLoopMode(-2)` yields `NoLoop`
(2), while `(0 - 2) mod 3` is 1. -/
theorem changeLoopMode_not_modular :
    (changeLoopMode { sample 10 MovieState.Running CacheMode.CacheAll 0 with
        loopMode := LoopMode.NoLoop } 2).loopMode = LoopMode.Unchanged ∧
    (LoopMode.NoLoop.toInt + 2) % 3 = LoopMode.Loop.toInt ∧
    (changeLoopMode (sample 10 MovieState.Running CacheMode.CacheAll 0) (-2)).loopMode
      = LoopMode.NoLoop ∧
    (LoopMode.Unchanged.toInt + (-2)) % 3 = LoopMode.Loop.toInt := by
  decide

/-- C12 (amended): `changeLoopMode(steps)` wraps single steps in both directions: for
every loop mode `m` and every `steps` with `-1 <= steps <= 1` the new mode is
`(m + steps) mod 3`.  For every integer `steps` the new mode is `Unchanged` when
`m + steps > 2`, `NoLoop` when `m + steps < 0`, and `m + steps` otherwise. -/
theorem changeLoopMode_single_step (a : Animation M) (steps : Int) :
    (-1 ≤ steps → steps ≤ 1 →
      (changeLoopMode a steps).loopMode.toInt = (a.loopMode.toInt + steps) % 3) ∧
    (changeLoopMode a steps).loopMode.toInt
      = (if a.loopMode.toInt + steps > 2 then 0
         else if a.loopMode.toInt + steps < 0 then 2 else a.loopMode.toInt + steps) := by
  have hrange : 0 ≤ a.loopMode.toInt ∧ a.loopMode.toInt ≤ 2 := by
    cases a.loopMode <;> simp [LoopMode.toInt]
  refine ⟨?_, changeLoopMode_loopMode a steps⟩
  intro h1 h2
  rw [changeLoopMode_loopMode]
  split_ifs <;> omega

/-- Witness of C12 (amended): one step back from `Unchanged` gives `NoLoop`. -/
theorem changeLoopMode_single_step_witness :
    (changeLoopMode (sample 10 MovieState.Running CacheMode.CacheAll 0) (-1)).loopMode.toInt
      = ((sample 10 MovieState.Running CacheMode.CacheAll 0).loopMode.toInt + (-1)) % 3 ∧
    (changeLoopMode (sample 10 MovieState.Running CacheMode.CacheAll 0) (-1)).loopMode
      = LoopMode.NoLoop :=
  ⟨(changeLoopMode_single_step (sample 10 MovieState.Running CacheMode.CacheAll 0) (-1)).1
      (by decide) (by decide),
    by decide⟩

/-! ## Layout rectangle (`updatePropertyPositionIfChanged`) -/

/-- C20 (counterexample): with the rectangle `(0, 0, 100, 100)` stored, a relayout to
`(5, 0, 100, 100)`, which has the same `y`, leaves `(0, 0, 100, 100)` stored. -/
theorem updatePropertyPositionIfChanged_keeps_stale :
    (updatePropertyPositionIfChanged
        (setVideoControlPositioning ⟨0, 0, 100, 100⟩ 4 20 (-170) (-130) (-90) (-30))
        ⟨5, 0, 100, 100⟩).posAndSize = ⟨0, 0, 100, 100⟩ ∧
    (updatePropertyPositionIfChanged
        (setVideoControlPositioning ⟨0, 0, 100, 100⟩ 4 20 (-170) (-130) (-90) (-30))
        ⟨5, 0, 100, 100⟩).posAndSize ≠ ⟨5, 0, 100, 100⟩ := by
  constructor
  · simp [updatePropertyPositionIfChanged, setVideoControlPositioning]
  · simp [updatePropertyPositionIfChanged, setVideoControlPositioning]

/-- C20 (amended): `updatePropertyPositionIfChanged(holder, r)` refreshes the stored
rectangle when the object has moved vertically: the stored rectangle equals `r` if
`r.y` differs from the stored `y`, and is left as it was if `r.y` equals the stored
`y`; in both cases its `y` is `r.y`, and no other property changes. -/
theorem updatePropertyPositionIfChanged_posAndSize (propertyHolder : VideoControlProperties)
    (r : QRectF) :
    (propertyHolder.posAndSize.y ≠ r.y →
      (updatePropertyPositionIfChanged propertyHolder r).posAndSize = r) ∧
    (propertyHolder.posAndSize.y = r.y →
      (updatePropertyPositionIfChanged propertyHolder r).posAndSize
        = propertyHolder.posAndSize) ∧
    (updatePropertyPositionIfChanged propertyHolder r).posAndSize.y = r.y ∧
    updatePropertyPositionIfChanged propertyHolder r
      = { propertyHolder with
          posAndSize := (updatePropertyPositionIfChanged propertyHolder r).posAndSize } := by
  unfold updatePropertyPositionIfChanged
  by_cases h : propertyHolder.posAndSize.y = r.y
  · simp [h]
  · simp [h]

/-- Witness of C20 (amended): the text above the animation wraps and pushes it from
`y = 20` down to `y = 36`, and the stored rectangle follows; a relayout that keeps
`y = 20` and moves the animation to `x = 15` leaves the stored rectangle as it was. -/
theorem updatePropertyPositionIfChanged_posAndSize_witness :
    (updatePropertyPositionIfChanged samplePositioning ⟨10, 36, 300, 224⟩).posAndSize
      = ⟨10, 36, 300, 224⟩ ∧
    (updatePropertyPositionIfChanged samplePositioning ⟨15, 20, 300, 224⟩).posAndSize
      = samplePositioning.posAndSize :=
  ⟨(updatePropertyPositionIfChanged_posAndSize samplePositioning ⟨10, 36, 300, 224⟩).1
      (by norm_num [samplePositioning, setVideoControlPositioning]),
    (updatePropertyPositionIfChanged_posAndSize samplePositioning ⟨15, 20, 300, 224⟩).2.1
      (by norm_num [samplePositioning, setVideoControlPositioning])⟩

/-! ## Hit test (`mousePressVideoControls`) -/

theorem doubleToInt_intCast (n : Int) : doubleToInt (n : ℚ) = n := by
  unfold doubleToInt
  split_ifs with h
  · exact Int.floor_intCast n
  · rw [← Int.cast_neg, Int.floor_intCast]
    omega

/-- C14 (counterexample): with the default positioning of the rectangle
`(10.5, 20, 300, 224)` the view starts at `x = 10.5`; the point `(10, 100)` lies left of
it, outside `[view.x, view.x + view.width]`, and `mousePressVideoControls` returns
`View`, not `None`. -/
theorem mousePressVideoControls_outside_view_counterexample :
    ((({ x := 10, y := 100 } : QPoint).x : Int) : ℚ)
      < (viewRect
          (setVideoControlPositioning ⟨21 / 2, 20, 300, 224⟩ 4 20 (-170) (-130) (-90) (-30))).x ∧
    mousePressVideoControls
      (setVideoControlPositioning ⟨21 / 2, 20, 300, 224⟩ 4 20 (-170) (-130) (-90) (-30))
      { x := 10, y := 100 } = VideoController.View := by
  constructor
  · norm_num [setVideoControlPositioning, viewRect]
  · norm_num [mousePressVideoControls, setVideoControlPositioning, viewRect,
      videoControlsHeight, isInBoundsOnAxis, doubleToInt]

/-- C14 (amended): for every geometry and every point, at any `y`, whose `x` lies outside
the horizontal bounds that the hit test takes for the view (`viewRect.x()` and
`viewRect.width()` as `isInBoundsOnAxis` receives them, converted to `int` by
truncation), `mousePressVideoControls` returns `None`; when `view.x` and `view.width`
are whole numbers these bounds are `[view.x, view.x + view.width]`. -/
theorem mousePressVideoControls_outside_view (p : VideoControlProperties) (pos : QPoint) :
    (pos.x < doubleToInt (viewRect p).x ∨
        doubleToInt (viewRect p).x + doubleToInt (viewRect p).width < pos.x →
      mousePressVideoControls p pos = VideoController.None) ∧
    (((doubleToInt (viewRect p).x : Int) : ℚ) = (viewRect p).x →
      ((doubleToInt (viewRect p).width : Int) : ℚ) = (viewRect p).width →
      ((pos.x : ℚ) < (viewRect p).x ∨ (viewRect p).x + (viewRect p).width < (pos.x : ℚ)) →
      mousePressVideoControls p pos = VideoController.None) := by
  have key : pos.x < doubleToInt (viewRect p).x ∨
      doubleToInt (viewRect p).x + doubleToInt (viewRect p).width < pos.x →
      mousePressVideoControls p pos = VideoController.None := by
    intro h
    have hout : isInBoundsOnAxis pos false (doubleToInt (viewRect p).x)
        (doubleToInt (viewRect p).width) = false := by
      simp only [isInBoundsOnAxis, Bool.false_eq_true, if_false, Bool.and_eq_false_imp,
        decide_eq_true_eq, decide_eq_false_iff_not]
      intro h1
      omega
    simp [mousePressVideoControls, hout]
  refine ⟨key, ?_⟩
  intro hx hw h
  apply key
  rw [← hx, ← hw] at h
  rcases h with h | h
  · left
    exact_mod_cast h
  · right
    exact_mod_cast h

/-- Witness of C14: left of the view of the sample positioning, on a row of the button
bar; the view of the sample positioning spans the columns 10 to 286. -/
theorem mousePressVideoControls_outside_view_witness :
    mousePressVideoControls samplePositioning { x := 9, y := 230 } = VideoController.None ∧
    mousePressVideoControls samplePositioning { x := 287, y := 100 } = VideoController.None ∧
    doubleToInt (viewRect samplePositioning).x = 10 ∧
    doubleToInt (viewRect samplePositioning).width = 276 :=
  ⟨(mousePressVideoControls_outside_view samplePositioning { x := 9, y := 230 }).1
      (Or.inl (by
        norm_num [samplePositioning, setVideoControlPositioning, viewRect, doubleToInt])),
    (mousePressVideoControls_outside_view samplePositioning { x := 287, y := 100 }).2
      (by norm_num [samplePositioning, setVideoControlPositioning, viewRect, doubleToInt])
      (by norm_num [samplePositioning, setVideoControlPositioning, viewRect, doubleToInt,
        videoControlsHeight])
      (Or.inr (by
        norm_num [samplePositioning, setVideoControlPositioning, viewRect,
          videoControlsHeight])),
    by norm_num [samplePositioning, setVideoControlPositioning, viewRect, doubleToInt],
    by norm_num [samplePositioning, setVideoControlPositioning, viewRect, doubleToInt,
      videoControlsHeight]⟩

/-! ## Pointer dispatch (`mousePress`) -/

/-- C16: for every overlay flag, mouse button, animation, positioning and pointer
position, `mousePress` performs the operation that the dispatch tables of the
specification give for the flag, the button and the control resolved by
`mousePressVideoControls`; `noAction` (every pair outside the tables, each right-button
press, control `None`) leaves the animation as it is. -/
theorem mousePress_dispatch (Q : QMovie M) (fuel : Nat) (areVideoControlsOn : Bool)
    (a : Animation M) (p : VideoControlProperties) (mouseDocPos : QPoint)
    (mouseButton : MouseButton) :
    mousePress Q fuel areVideoControlsOn a p mouseDocPos mouseButton
      = perform Q fuel a p mouseDocPos
          (dispatchTable areVideoControlsOn mouseButton
            (mousePressVideoControls p mouseDocPos)) := by
  unfold mousePress
  cases areVideoControlsOn <;> cases mouseButton <;>
    cases mousePressVideoControls p mouseDocPos <;> rfl

/-! ## End of stream (`frameChanged` slot and its single shot) -/

theorem setFrame_reliable_frame (Q : QMovie M) (b : Animation M) (f : Int)
    (hQ : ReliableDecoder Q b.lastFrameIndex) (h0 : 0 ≤ f) (hL : f ≤ b.lastFrameIndex) :
    ∃ N, ∀ fuel, N ≤ fuel →
      ∃ m1, setFrame Q fuel b f = some { b with movie := m1 } ∧
        Q.currentFrameNumber m1 = f := by
  have hclamp : clampFrameIndex f b.lastFrameIndex = f := by
    rw [clampFrameIndex_eq]
    split_ifs <;> omega
  cases hc : (Q.cacheMode b.movie == CacheMode.CacheAll)
  · cases hrun : (Q.state b.movie == MovieState.Running)
    · refine ⟨stepsToTarget b.lastFrameIndex f
        (Q.currentFrameNumber (Q.setPaused b.movie false)) + 1, fun fuel hfuel => ?_⟩
      obtain ⟨m1, log, hloop, hcur, _, _⟩ :=
        setFrameLoop_reliable Q b.lastFrameIndex f hQ h0 hL false _
          (Q.setPaused b.movie false) le_rfl fuel (by omega)
      refine ⟨Q.setPaused m1 true, ?_, by rw [hQ.setPaused_frame, hcur]⟩
      simp [setFrame, setFrameTraced, hclamp, hc, hrun, hloop]
    · refine ⟨stepsToTarget b.lastFrameIndex f (Q.currentFrameNumber b.movie) + 1,
        fun fuel hfuel => ?_⟩
      obtain ⟨m1, log, hloop, hcur, _, _⟩ :=
        setFrameLoop_reliable Q b.lastFrameIndex f hQ h0 hL false _ b.movie le_rfl fuel
          (by omega)
      refine ⟨m1, ?_, hcur⟩
      simp [setFrame, setFrameTraced, hclamp, hc, hrun, hloop]
  · refine ⟨0, fun fuel _ => ⟨Q.jumpToFrame b.movie f, ?_, hQ.jumpToFrame_frame _ f h0 hL⟩⟩
    simp [setFrame, setFrameTraced, hclamp, hc]

/-- C13: the `frameChanged` slot schedules the deferred stop exactly when the reported
frame is `lastFrameIndex`, the loop mode is `NoLoop` and the animation is not paused (the
delay it hands over is the decoder's `nextFrameDelay`).  The deferred action, run on the
animation as it is when the timer fires, leaves it as it is if the loop mode is not
`NoLoop` or the animation is paused; otherwise (on a decoder that can always decode its
stream and whose `stop` keeps the frame) it returns with the animation stopped at
`lastFrameIndex`. -/
theorem end_of_stream_policy (Q : QMovie M) (nextFrameDelay : M → Int) (a : Animation M)
    (hQ : ReliableDecoder Q a.lastFrameIndex) (hlast : 0 ≤ a.lastFrameIndex)
    (hstop : ∀ m, Q.currentFrameNumber (Q.stop m) = Q.currentFrameNumber m) :
    (∀ frameIndex : Int,
      (frameChangedSlot Q nextFrameDelay a frameIndex = some (nextFrameDelay a.movie) ∧
        frameIndex = a.lastFrameIndex ∧ a.loopMode = LoopMode.NoLoop ∧
        Q.state a.movie ≠ MovieState.Paused) ∨
      (frameChangedSlot Q nextFrameDelay a frameIndex = none ∧
        ¬ (frameIndex = a.lastFrameIndex ∧ a.loopMode = LoopMode.NoLoop ∧
          Q.state a.movie ≠ MovieState.Paused))) ∧
    (a.loopMode ≠ LoopMode.NoLoop ∨ Q.state a.movie = MovieState.Paused →
      ∀ fuel, singleShotSlot Q fuel a = some a) ∧
    (a.loopMode = LoopMode.NoLoop → Q.state a.movie ≠ MovieState.Paused →
      ∃ N, ∀ fuel, N ≤ fuel →
        ∃ a1, singleShotSlot Q fuel a = some a1 ∧
          Q.state a1.movie = MovieState.NotRunning ∧
          Q.currentFrameNumber a1.movie = a.lastFrameIndex) := by
  refine ⟨?_, ?_, ?_⟩
  · intro frameIndex
    by_cases h : frameIndex = a.lastFrameIndex ∧ a.loopMode = LoopMode.NoLoop ∧
        Q.state a.movie ≠ MovieState.Paused
    · left
      obtain ⟨h1, h2, h3⟩ := h
      refine ⟨?_, h1, h2, h3⟩
      simp [frameChangedSlot, h1, h2, h3]
    · right
      refine ⟨?_, h⟩
      simp only [frameChangedSlot]
      rw [if_pos]
      by_cases h1 : frameIndex = a.lastFrameIndex
      · by_cases h2 : a.loopMode = LoopMode.NoLoop
        · have h3 : Q.state a.movie = MovieState.Paused := by
            by_contra h3
            exact h ⟨h1, h2, h3⟩
          simp [h3]
        · simp [h2]
      · simp [h1]
  · intro h fuel
    simp only [singleShotSlot]
    rw [if_pos]
    rcases h with h | h
    · simp [h]
    · simp [h]
  · intro hloop hstate
    obtain ⟨N, hN⟩ := setFrame_reliable_frame Q a a.lastFrameIndex hQ hlast le_rfl
    refine ⟨N, fun fuel hfuel => ?_⟩
    obtain ⟨m1, hset, hcur⟩ := hN fuel hfuel
    refine ⟨{ a with movie := Q.stop m1 }, ?_, hQ.stop_state m1, by
      simp only [hstop, hcur]⟩
    simp only [singleShotSlot, hset]
    rw [if_neg]
    simp [hloop, hstate]

/-- Witness of C13: loop mode `NoLoop`, running at the last frame (10) of eleven frames
of 100 ms: the slot schedules the single shot after 100 ms, and the single shot stops
the animation at frame 10; had the user paused in between, it would change nothing. -/
theorem end_of_stream_policy_witness :
    (∃ N, ∀ fuel, N ≤ fuel →
      ∃ a1, singleShotSlot (loopingMovie 10) fuel (sampleNoLoop MovieState.Running) = some a1 ∧
        (loopingMovie 10).state a1.movie = MovieState.NotRunning ∧
        (loopingMovie 10).currentFrameNumber a1.movie
          = (sampleNoLoop MovieState.Running).lastFrameIndex) ∧
    (∀ fuel, singleShotSlot (loopingMovie 10) fuel (sampleNoLoop MovieState.Paused)
      = some (sampleNoLoop MovieState.Paused)) ∧
    frameChangedSlot (loopingMovie 10) (fun _ => 100) (sampleNoLoop MovieState.Running) 10
      = some 100 ∧
    frameChangedSlot (loopingMovie 10) (fun _ => 100) (sampleNoLoop MovieState.Running) 9
      = none ∧
    singleShotSlot (loopingMovie 10) 1 (sampleNoLoop MovieState.Running)
      = some (sampleNoLoop MovieState.NotRunning) :=
  ⟨(end_of_stream_policy (loopingMovie 10) (fun _ => 100) (sampleNoLoop MovieState.Running)
      (loopingMovie_reliable 10) (by decide) (fun _ => rfl)).2.2 rfl (by decide),
    (end_of_stream_policy (loopingMovie 10) (fun _ => 100) (sampleNoLoop MovieState.Paused)
      (loopingMovie_reliable 10) (by decide) (fun _ => rfl)).2.1 (Or.inr rfl),
    by decide, by decide, by decide⟩

/-! ## Time readout (`formatTime`) -/

/-- C17 (counterexample): for an elapsed time of 3200 ms and a total of 105000 ms,
`formatTime` renders the elapsed time as "0:03.2", not as "03.2". -/
theorem formatTime_example_counterexample :
    formatTime (convertUnit 3200) (convertUnit 105000) = "0:03.2".toList ∧
    formatTime (convertUnit 3200) (convertUnit 105000) ≠ "03.2".toList := by
  decide

/-- C17 (amended): for an elapsed time of 3200 ms (3.2 s) and a total of 105000 ms
(105.0 s), the elapsed string is "0:03.2" and the total string is "1:45.0", and the
readout drawn for them is "0:03.2 / 1:45.0". -/
theorem formatTime_example :
    convertUnit 3200 = 32 ∧ convertUnit 105000 = 1050 ∧
    formatTime (convertUnit 3200) (convertUnit 105000) = "0:03.2".toList ∧
    formatTime (convertUnit 105000) 0 = "1:45.0".toList ∧
    timeText [3200, 100000, 1800] 105000 1 2 = some "0:03.2 / 1:45.0".toList := by
  decide

/-- C19 (counterexample): with no frame delays and a total of 0 ms, the readout drawn
is the text "0.0 / 0.0": it is neither blank nor omitted. -/
theorem timeText_empty_counterexample :
    timeText [] 0 0 0 = some "0.0 / 0.0".toList ∧
    timeText [] 0 0 0 ≠ some [] ∧ timeText [] 0 0 0 ≠ none := by
  decide

/-- C19 (amended): when the frame-delay list is empty and the total duration is 0, the
renderer takes no special path for the time text: at the last frame, or at a frame
index that is not positive, it draws the readout "0.0 / 0.0". -/
theorem timeText_empty (frameIndex lastFrameIndex : Int)
    (h : frameIndex = lastFrameIndex ∨ frameIndex ≤ 0) :
    timeText [] 0 frameIndex lastFrameIndex = some "0.0 / 0.0".toList := by
  have hloop : msUntilLoop []
      (if decide (frameIndex = lastFrameIndex) = true then ([] : List Int).length
       else frameIndex.toNat) 0 = some 0 := by
    rcases h with h | h
    · simp [h, msUntilLoop]
    · have h0 : frameIndex.toNat = 0 := by omega
      split_ifs <;> simp [h0, msUntilLoop]
  simp only [timeText, hloop]
  decide

/-- Witness of C19 (amended): no properties set, so that `lastFrameIndex` reads 0, and
the decoder at frame 0. -/
theorem timeText_empty_witness :
    ((0 : Int) = 0 ∨ (0 : Int) ≤ 0) ∧ timeText [] 0 0 0 = some "0.0 / 0.0".toList :=
  ⟨Or.inl rfl, timeText_empty 0 0 (Or.inl rfl)⟩

theorem toDigitsCore_length_ge (fuel n : Nat) (ds : List Char) :
    ds.length ≤ (Nat.toDigitsCore 10 fuel n ds).length := by
  induction fuel generalizing n ds with
  | zero => simp [Nat.toDigitsCore]
  | succ f ih =>
    simp only [Nat.toDigitsCore]
    split_ifs
    · simp
    · have h := ih (n / 10) (Nat.digitChar (n % 10) :: ds)
      simp only [List.length_cons] at h
      omega

theorem toDigitsCore_length_mono (fuel : Nat) :
    ∀ (fuel1 n n1 : Nat) (ds ds1 : List Char), n < fuel → n1 < fuel1 → n ≤ n1 →
      ds.length ≤ ds1.length →
      (Nat.toDigitsCore 10 fuel n ds).length ≤ (Nat.toDigitsCore 10 fuel1 n1 ds1).length := by
  induction fuel with
  | zero => intro fuel1 n n1 ds ds1 h; omega
  | succ f ih =>
    intro fuel1 n n1 ds ds1 hn hn1 hle hds
    obtain ⟨f1, rfl⟩ : ∃ k, fuel1 = k + 1 := ⟨fuel1 - 1, by omega⟩
    simp only [Nat.toDigitsCore]
    by_cases h0 : n / 10 = 0
    · rw [if_pos h0]
      split_ifs
      · simp only [List.length_cons]
        omega
      · have h := toDigitsCore_length_ge f1 (n1 / 10) (Nat.digitChar (n1 % 10) :: ds1)
        simp only [List.length_cons] at h ⊢
        omega
    · have h1 : n1 / 10 ≠ 0 := by omega
      rw [if_neg h0, if_neg h1]
      exact ih f1 (n / 10) (n1 / 10) _ _ (by omega) (by omega) (by omega) (by simpa using hds)

theorem toDigits_length_mono (n n1 : Nat) (h : n ≤ n1) :
    (Nat.toDigits 10 n).length ≤ (Nat.toDigits 10 n1).length :=
  toDigitsCore_length_mono (n + 1) (n1 + 1) n n1 [] [] (by omega) (by omega) h le_rfl

theorem toDigits_length_pos (n : Nat) : 1 ≤ (Nat.toDigits 10 n).length := by
  have h := toDigits_length_mono 0 n (Nat.zero_le n)
  have h0 : (Nat.toDigits 10 0).length = 1 := by decide
  omega

theorem toDigits_length_le_two (n : Nat) (h : n < 100) : (Nat.toDigits 10 n).length ≤ 2 := by
  have h1 := toDigits_length_mono n 99 (by omega)
  have h2 : (Nat.toDigits 10 99).length = 2 := by decide
  omega

theorem getDigitAmountLoop_eq (fuel : Nat) :
    ∀ (n : Nat) (ds : List Char) (k : Int), n < fuel →
      ((Nat.toDigitsCore 10 fuel n ds).length : Int) + k
        = getDigitAmountLoop fuel (n : Int) k + ds.length := by
  induction fuel with
  | zero => intro n ds k h; omega
  | succ f ih =>
    intro n ds k hn
    have hdiv : Int.tdiv (n : Int) 10 = ((n / 10 : Nat) : Int) := by
      rw [Int.tdiv_eq_ediv (by omega) (by omega)]
      norm_cast
    simp only [Nat.toDigitsCore, getDigitAmountLoop, hdiv]
    by_cases h0 : n / 10 = 0
    · simp [h0]
      omega
    · have h1 : ((n / 10 : Nat) : Int) ≠ 0 := by exact_mod_cast h0
      rw [if_neg h0, if_pos h1]
      have h := ih (n / 10) (Nat.digitChar (n % 10) :: ds) (k + 1) (by omega)
      simp only [List.length_cons, Nat.cast_add, Nat.cast_one] at h
      omega

theorem getDigitAmount_eq (n : Nat) :
    getDigitAmount (n : Int) = ((Nat.toDigits 10 n).length : Int) := by
  have h := getDigitAmountLoop_eq (n + 1) n [] 0 (by omega)
  simp only [List.length_nil, Nat.cast_zero, add_zero] at h
  unfold getDigitAmount Nat.toDigits
  simp only [Int.natAbs_ofNat]
  omega

theorem digitChar_ne_mark (m : Nat) : Nat.digitChar (m % 10) ≠ '.' := by
  have h : ∀ k, k < 10 → Nat.digitChar k ≠ '.' := by decide
  exact h (m % 10) (Nat.mod_lt m (by decide))

theorem toDigitsCore_no_mark (fuel : Nat) :
    ∀ (n : Nat) (ds : List Char), '.' ∉ ds → '.' ∉ Nat.toDigitsCore 10 fuel n ds := by
  induction fuel with
  | zero => intro n ds h; simpa [Nat.toDigitsCore] using h
  | succ f ih =>
    intro n ds h
    have hcons : '.' ∉ Nat.digitChar (n % 10) :: ds := by
      simp only [List.mem_cons, not_or]
      exact ⟨fun e => digitChar_ne_mark n e.symm, h⟩
    simp only [Nat.toDigitsCore]
    split_ifs
    · exact hcons
    · exact ih _ _ hcons

theorem toDigits_no_mark (n : Nat) : '.' ∉ Nat.toDigits 10 n :=
  toDigitsCore_no_mark (n + 1) n [] (by simp)

theorem lastIndexOf_ge (s : List Char) (ch : Char) : -1 ≤ lastIndexOf s ch := by
  induction s with
  | nil => simp [lastIndexOf]
  | cons x xs ih =>
    simp only [lastIndexOf]
    split_ifs <;> omega

theorem lastIndexOf_of_not_mem (s : List Char) (ch : Char) (h : ch ∉ s) :
    lastIndexOf s ch = -1 := by
  induction s with
  | nil => simp [lastIndexOf]
  | cons x xs ih =>
    simp only [List.mem_cons, not_or] at h
    have hx : ¬ x = ch := fun e => h.1 e.symm
    simp [lastIndexOf, ih h.2, hx]

theorem lastIndexOf_append (xs ys : List Char) (ch : Char) (h : lastIndexOf ys ch ≠ -1) :
    lastIndexOf (xs ++ ys) ch = lastIndexOf ys ch + xs.length := by
  induction xs with
  | nil => simp
  | cons x xs ih =>
    have hge := lastIndexOf_ge ys ch
    have hne : lastIndexOf (xs ++ ys) ch ≠ -1 := by omega
    have e : lastIndexOf (x :: (xs ++ ys)) ch
        = if lastIndexOf (xs ++ ys) ch ≠ -1 then lastIndexOf (xs ++ ys) ch + 1
          else if x = ch then 0 else -1 := rfl
    rw [List.cons_append, e, if_pos hne, ih, List.length_cons]
    push_cast
    ring

theorem lastIndexOf_decimals (ds : List Char) (c : Char) (hc : c ≠ '.') :
    lastIndexOf (ds ++ ['.', c]) '.' = ds.length := by
  have h0 : lastIndexOf ['.', c] '.' = 0 := by
    simp [lastIndexOf, hc]
  rw [lastIndexOf_append ds ['.', c] '.' (by rw [h0]; decide), h0]
  simp

theorem padNumber_shape (ds tail : List Char) (w : Int) (hds : '.' ∉ ds)
    (htail : IsDecimalTail tail) :
    padNumber (ds ++ tail) w = List.replicate (w - ds.length).toNat '0' ++ ds ++ tail := by
  rcases htail with rfl | ⟨c, hc, rfl⟩
  · simp [padNumber, rightJustified, lastIndexOf_of_not_mem ds '.' hds]
  · have hidx := lastIndexOf_decimals ds c hc
    have hne : (ds.length : Int) ≠ -1 := by omega
    simp only [padNumber, rightJustified, hidx, if_pos hne, List.length_append,
      List.length_cons, List.length_nil, List.append_assoc]
    congr 2
    push_cast
    omega

theorem padDecimals_length (ds tail : List Char) (hds : '.' ∉ ds)
    (htail : IsDecimalTail tail) :
    (padDecimals (ds ++ tail) 1).length = ds.length + 2 := by
  rcases htail with rfl | ⟨c, hc, rfl⟩
  · simp [padDecimals, lastIndexOf_of_not_mem ds '.' hds]
  · have hidx := lastIndexOf_decimals ds c hc
    have hne : (ds.length : Int) ≠ -1 := by omega
    have hlt : (ds.length : Int) < ((ds ++ ['.', c]).length : Int) - 1 := by
      simp only [List.length_append, List.length_cons, List.length_nil]
      push_cast
      omega
    have hdrop : (List.drop ((ds.length : Int) + 1).toNat (ds ++ ['.', c])).length = 1 := by
      have : ((ds.length : Int) + 1).toNat = ds.length + 1 := by omega
      rw [this]
      simp
    have hlt1 : (ds.length : Int) < (ds.length : Int) + 2 - 1 := by omega
    simp [padDecimals, hidx, hne, hlt, hdrop, hlt1]

theorem number_shape (v : Int) (hv : 0 ≤ v) :
    ∃ tail, IsDecimalTail tail ∧
      QString.number v = Nat.toDigits 10 (v.toNat / 10) ++ tail ∧
      (v % 10 = 0 → tail = []) := by
  have hneg : ¬ v < 0 := by omega
  have habs : v.natAbs = v.toNat := by omega
  by_cases h0 : v.toNat % 10 = 0
  · refine ⟨[], Or.inl rfl, ?_, fun _ => rfl⟩
    simp [QString.number, hneg, habs, h0]
  · refine ⟨['.', Nat.digitChar (v.toNat % 10)], Or.inr ⟨_, digitChar_ne_mark _, rfl⟩, ?_, ?_⟩
    · simp [QString.number, hneg, habs, h0]
    · intro h
      exfalso
      omega

theorem replicate_zero_no_mark (k : Nat) (ds : List Char) (hds : '.' ∉ ds) :
    '.' ∉ List.replicate k '0' ++ ds := by
  simp only [List.mem_append, List.mem_replicate, not_or]
  exact ⟨fun h => absurd h.2 (by decide), hds⟩

/-- Length of the seconds field of `formatTime`. -/
theorem secondsField_length (v w : Int) (hv : 0 ≤ v) :
    (padDecimals (padNumber (QString.number v) w) 1).length
      = max (w.toNat) (Nat.toDigits 10 (v.toNat / 10)).length + 2 := by
  obtain ⟨tail, htail, hnum, _⟩ := number_shape v hv
  have hds := toDigits_no_mark (v.toNat / 10)
  rw [hnum, padNumber_shape _ tail w hds htail,
    padDecimals_length _ tail (replicate_zero_no_mark _ _ hds) htail]
  simp only [List.length_append, List.length_replicate]
  omega

/-- Length of a minutes or hours field of `formatTime`. -/
theorem unitField_length (v w : Int) (hv : 0 ≤ v) (hwhole : v % 10 = 0) :
    (padNumber (QString.number v) w ++ [':']).length
      = max (w.toNat) (Nat.toDigits 10 (v.toNat / 10)).length + 1 := by
  obtain ⟨tail, htail, hnum, hnil⟩ := number_shape v hv
  have hds := toDigits_no_mark (v.toNat / 10)
  rw [hnum, padNumber_shape _ tail w hds htail, hnil hwhole]
  simp only [List.length_append, List.length_replicate, List.length_nil, List.length_cons]
  omega

theorem unitField_append_length (field rest : List Char) :
    ((field ++ [':']) ++ rest).length = (field ++ [':']).length + rest.length :=
  List.length_append _ _

theorem formatTimeLoop_seconds_only (es em eh ts tm th : Int) (hem : em = 0) :
    formatTimeLoop [es, em, eh] [ts, tm, th] 0 3 0 []
      = padDecimals (padNumber (QString.number es) (getDigitAmount (Int.tdiv ts 10))) 1 := by
  subst hem
  simp [formatTimeLoop]

theorem formatTimeLoop_minutes (es em eh ts tm th : Int) (heh : eh = 0) :
    formatTimeLoop [es, em, eh] [ts, tm, th] 1 3 0 []
      = (padNumber (QString.number em) (getDigitAmount (Int.tdiv tm 10)) ++ [':'])
          ++ padDecimals (padNumber (QString.number es) 2) 1 := by
  subst heh
  simp [formatTimeLoop]

theorem formatTimeLoop_hours (es em eh ts tm th : Int) :
    formatTimeLoop [es, em, eh] [ts, tm, th] 2 3 0 []
      = (padNumber (QString.number eh) (getDigitAmount (Int.tdiv th 10)) ++ [':'])
          ++ ((padNumber (QString.number em) 2 ++ [':'])
            ++ padDecimals (padNumber (QString.number es) 2) 1) := by
  simp [formatTimeLoop]

theorem getDigitAmount_tenths (v : Int) (hv : 0 ≤ v) :
    (getDigitAmount (Int.tdiv v 10)).toNat = (Nat.toDigits 10 (v.toNat / 10)).length := by
  have h : Int.tdiv v 10 = ((v.toNat / 10 : Nat) : Int) := by
    rw [Int.tdiv_eq_ediv hv (by omega)]
    omega
  rw [h, getDigitAmount_eq]
  simp

theorem convertUnit_mono (a b : Int) (h0 : 0 ≤ a) (hab : a ≤ b) :
    0 ≤ convertUnit a ∧ convertUnit a ≤ convertUnit b := by
  unfold convertUnit
  rw [if_pos h0, if_pos (by omega)]
  omega

theorem formatTime_length_aligned (e t : Int) (h0 : 0 ≤ e) (het : e ≤ t) :
    (formatTime e t).length = (formatTime t 0).length := by
  by_cases ht : t = 0
  · have he : e = 0 := by omega
    rw [he, ht]
  · -- the numbers of the elapsed and of the total time, in tenths
    have hmaxE1 : max (e - e / 600 * 600) 0 = e - e / 600 * 600 := max_eq_left (by omega)
    have hmaxE2 : max (e / 600 - e / 600 / 60 * 60) 0 = e / 600 - e / 600 / 60 * 60 :=
      max_eq_left (by omega)
    have hmaxT1 : max (t - t / 600 * 600) 0 = t - t / 600 * 600 := max_eq_left (by omega)
    have hmaxT2 : max (t / 600 - t / 600 / 60 * 60) 0 = t / 600 - t / 600 / 60 * 60 :=
      max_eq_left (by omega)
    have hE : getTimeNumbers e
        = [e - e / 600 * 600, (e / 600 - e / 600 / 60 * 60) * 10, e / 600 / 60 * 10] := by
      simp only [getTimeNumbers, hmaxE1, hmaxE2]
    have hT : getTimeNumbers t
        = [t - t / 600 * 600, (t / 600 - t / 600 / 60 * 60) * 10, t / 600 / 60 * 10] := by
      simp only [getTimeNumbers, hmaxT1, hmaxT2]
    have hl : (formatTime e t).length
        = (formatTimeLoop (getTimeNumbers e) (getTimeNumbers t)
            (lastTimeNumberIndexLoop (getTimeNumbers t) 3) 3 0 []).length := by
      simp only [formatTime, if_neg ht, hE, List.length_cons, List.length_nil]
    have hr : (formatTime t 0).length
        = (formatTimeLoop (getTimeNumbers t) (getTimeNumbers t)
            (lastTimeNumberIndexLoop (getTimeNumbers t) 3) 3 0 []).length := by
      simp only [formatTime, if_true, hT, List.length_cons, List.length_nil]
    rw [hl, hr, hE, hT]
    -- digit counts of the whole parts
    have dsE := toDigits_length_le_two ((e - e / 600 * 600).toNat / 10) (by omega)
    have dsT := toDigits_length_le_two ((t - t / 600 * 600).toNat / 10) (by omega)
    have dmE := toDigits_length_le_two
      (((e / 600 - e / 600 / 60 * 60) * 10).toNat / 10) (by omega)
    have dmT := toDigits_length_le_two
      (((t / 600 - t / 600 / 60 * 60) * 10).toNat / 10) (by omega)
    by_cases hh : t / 600 / 60 * 10 > 0
    · -- hours are the most significant number of the total
      have hidx : lastTimeNumberIndexLoop
          [t - t / 600 * 600, (t / 600 - t / 600 / 60 * 60) * 10, t / 600 / 60 * 10] 3 = 2 := by
        simp [lastTimeNumberIndexLoop, hh]
      rw [hidx, formatTimeLoop_hours, formatTimeLoop_hours]
      have dh := toDigits_length_mono ((e / 600 / 60 * 10).toNat / 10)
        ((t / 600 / 60 * 10).toNat / 10) (by omega)
      have hg := getDigitAmount_tenths (t / 600 / 60 * 10) (by omega)
      simp only [unitField_append_length]
      rw [unitField_length _ _ (by omega) (by omega), unitField_length _ _ (by omega) (by omega),
        unitField_length _ _ (by omega) (by omega), unitField_length _ _ (by omega) (by omega),
        secondsField_length _ _ (by omega), secondsField_length _ _ (by omega), hg]
      have h2 : (2 : Int).toNat = 2 := rfl
      rw [h2]
      omega
    · by_cases hm : (t / 600 - t / 600 / 60 * 60) * 10 > 0
      · -- minutes are the most significant number of the total
        have hidx : lastTimeNumberIndexLoop
            [t - t / 600 * 600, (t / 600 - t / 600 / 60 * 60) * 10, t / 600 / 60 * 10] 3
              = 1 := by
          simp [lastTimeNumberIndexLoop, hh, hm]
        rw [hidx, formatTimeLoop_minutes _ _ _ _ _ _ (by omega),
          formatTimeLoop_minutes _ _ _ _ _ _ (by omega)]
        have dm := toDigits_length_mono (((e / 600 - e / 600 / 60 * 60) * 10).toNat / 10)
          (((t / 600 - t / 600 / 60 * 60) * 10).toNat / 10) (by omega)
        have hg := getDigitAmount_tenths ((t / 600 - t / 600 / 60 * 60) * 10) (by omega)
        simp only [unitField_append_length]
        rw [unitField_length _ _ (by omega) (by omega),
          unitField_length _ _ (by omega) (by omega),
          secondsField_length _ _ (by omega), secondsField_length _ _ (by omega), hg]
        have h2 : (2 : Int).toNat = 2 := rfl
        rw [h2]
        omega
      · -- seconds are the most significant number of the total
        have hidx : lastTimeNumberIndexLoop
            [t - t / 600 * 600, (t / 600 - t / 600 / 60 * 60) * 10, t / 600 / 60 * 10] 3
              = 0 := by
          simp only [lastTimeNumberIndexLoop, List.getD_cons_succ, List.getD_cons_zero, hh, hm,
            if_false]
          split_ifs <;> rfl
        rw [hidx, formatTimeLoop_seconds_only _ _ _ _ _ _ (by omega),
          formatTimeLoop_seconds_only _ _ _ _ _ _ (by omega)]
        have ds := toDigits_length_mono ((e - e / 600 * 600).toNat / 10)
          ((t - t / 600 * 600).toNat / 10) (by omega)
        have hg := getDigitAmount_tenths (t - t / 600 * 600) (by omega)
        rw [secondsField_length _ _ (by omega), secondsField_length _ _ (by omega), hg]
        omega

/-- C18: for every total duration and every elapsed time with
`0 <= elapsedMs <= totalMs`, the elapsed string that `formatTime` renders against the
total has exactly as many characters as the total string. -/
theorem formatTime_aligned (elapsedMs totalMs : Int) (h0 : 0 ≤ elapsedMs)
    (h1 : elapsedMs ≤ totalMs) :
    (formatTime (convertUnit elapsedMs) (convertUnit totalMs)).length
      = (formatTime (convertUnit totalMs) 0).length := by
  have h := convertUnit_mono elapsedMs totalMs h0 h1
  exact formatTime_length_aligned _ _ h.1 h.2

/-- Witness of C18: 59 min 59.9 s elapsed of one hour; both strings have nine
characters. -/
theorem formatTime_aligned_witness :
    (formatTime (convertUnit 3599900) (convertUnit 3600000)).length
      = (formatTime (convertUnit 3600000) 0).length ∧
    formatTime (convertUnit 3599900) (convertUnit 3600000) = "0:59:59.9".toList ∧
    formatTime (convertUnit 3600000) 0 = "1:00:00.0".toList :=
  ⟨formatTime_aligned 3599900 3600000 (by decide) (by decide), by decide, by decide⟩

/-! ## Monotonicity of the seek by time -/

theorem frameIndexLoop_ge (t : Int) (rest : List Int) :
    ∀ (acc i : Int), rest ≠ [] → (∀ d ∈ rest, 0 ≤ d) → acc ≤ t → t ≤ acc + rest.sum →
      i ≤ frameIndexLoop t rest acc i := by
  induction rest with
  | nil => intro acc i h; exact absurd rfl h
  | cons d rest1 ih =>
    intro acc i _ hnn hacc hsum
    have hrest1 : ∀ e ∈ rest1, 0 ≤ e := fun e he => hnn e (by simp [he])
    by_cases hbreak : t ≤ acc + d
    · rw [frameIndexLoop_break t d rest1 acc i hbreak hacc hrest1]
      split_ifs <;> omega
    · rw [frameIndexLoop_skip t d rest1 acc i hbreak]
      have hne : rest1 ≠ [] := by
        intro h
        subst h
        simp only [List.sum_cons, List.sum_nil, add_zero] at hsum
        exact hbreak hsum
      simp only [List.sum_cons] at hsum
      have h := ih (acc + d) (i + 1) hne hrest1 (by omega) (by omega)
      omega

theorem frameIndexLoop_mono (t t1 : Int) (htt : t ≤ t1) (rest : List Int) :
    ∀ (acc i : Int), (∀ d ∈ rest, 0 ≤ d) → acc ≤ t → t1 ≤ acc + rest.sum →
      frameIndexLoop t rest acc i ≤ frameIndexLoop t1 rest acc i := by
  induction rest with
  | nil => intro acc i _ _ _; simp [frameIndexLoop]
  | cons d rest1 ih =>
    intro acc i hnn hacc hsum
    have hrest1 : ∀ e ∈ rest1, 0 ≤ e := fun e he => hnn e (by simp [he])
    simp only [List.sum_cons] at hsum
    by_cases hbreak1 : t1 ≤ acc + d
    · -- both times break at this delay
      rw [frameIndexLoop_break t d rest1 acc i (by omega) hacc hrest1,
        frameIndexLoop_break t1 d rest1 acc i hbreak1 (by omega) hrest1]
      split_ifs <;> omega
    · by_cases hbreak : t ≤ acc + d
      · -- the earlier time breaks here, the later one further on
        rw [frameIndexLoop_break t d rest1 acc i hbreak hacc hrest1,
          frameIndexLoop_skip t1 d rest1 acc i hbreak1]
        have hne : rest1 ≠ [] := by
          intro h
          subst h
          simp only [List.sum_nil, add_zero] at hsum
          exact hbreak1 (by omega)
        have h := frameIndexLoop_ge t1 rest1 (acc + d) (i + 1) hne hrest1 (by omega) (by omega)
        split_ifs <;> omega
      · rw [frameIndexLoop_skip t d rest1 acc i hbreak,
          frameIndexLoop_skip t1 d rest1 acc i hbreak1]
        exact ih (acc + d) (i + 1) hrest1 (by omega) (by omega)

/-- C21: for every list of non-negative frame delays and all elapsed times
`0 <= t <= t' <= sum of the delays`, the frame index that `setFrameByPercentage`
computes for `t` is at most the one it computes for `t'`, before and after the clamp of
`setFrame`; and when `i` is the first index whose boundary (the sum of the delays up to
and including `i`) is at least `t`, the index computed is `i` if `t` is strictly nearer
to the start of frame `i`, and `i + 1` otherwise: the adjustment for a nearer next frame
is never taken. -/
theorem frameIndexByMs_monotone (frameDelays : List Int) (t t1 : Int)
    (hnn : ∀ d ∈ frameDelays, 0 ≤ d) (h0 : 0 ≤ t) (htt : t ≤ t1)
    (ht1 : t1 ≤ frameDelays.sum) :
    frameIndexByMs frameDelays t ≤ frameIndexByMs frameDelays t1 ∧
    clampFrameIndex (frameIndexByMs frameDelays t) ((frameDelays.length : Int) - 1)
      ≤ clampFrameIndex (frameIndexByMs frameDelays t1) ((frameDelays.length : Int) - 1) ∧
    ∀ i : Nat, i < frameDelays.length →
      (∀ j : Nat, j < i → (frameDelays.take (j + 1)).sum < t) →
      t ≤ (frameDelays.take (i + 1)).sum →
      (frameIndexByMs frameDelays t = i ∨ frameIndexByMs frameDelays t = i + 1) ∧
      frameIndexByMs frameDelays t
        = (if t - (frameDelays.take i).sum < (frameDelays.take (i + 1)).sum - t then (i : Int)
           else i + 1) := by
  have hmono : frameIndexByMs frameDelays t ≤ frameIndexByMs frameDelays t1 :=
    frameIndexLoop_mono t t1 htt frameDelays 0 0 hnn (by omega) (by omega)
  refine ⟨hmono, ?_, ?_⟩
  · cases hlist : frameDelays with
    | nil => simp [frameIndexByMs, frameIndexLoop]
    | cons d rest =>
      rw [← hlist]
      have hlen : (0 : Int) ≤ (frameDelays.length : Int) - 1 := by
        rw [hlist, List.length_cons]
        push_cast
        omega
      rw [clampFrameIndex_eq, clampFrameIndex_eq]
      split_ifs <;> omega
  · intro i hi hfirst hhi
    have hsplit : frameDelays
        = frameDelays.take i ++ frameDelays[i] :: frameDelays.drop (i + 1) := by
      rw [← List.drop_eq_getElem_cons hi, List.take_append_drop]
    have hsucc : (frameDelays.take (i + 1)).sum = (frameDelays.take i).sum + frameDelays[i] :=
      List.sum_take_succ frameDelays i hi
    have hlen : (frameDelays.take i).length = i := by
      rw [List.length_take]
      omega
    have hval : frameIndexByMs frameDelays t
        = (if t - (frameDelays.take i).sum < (frameDelays.take (i + 1)).sum - t then (i : Int)
           else i + 1) := by
      by_cases hlo : (frameDelays.take i).sum < t
      · have h := frameIndexLoop_prefix t (frameDelays.take i) frameDelays[i]
          (frameDelays.drop (i + 1)) 0 0
          (fun e he => hnn e (List.mem_of_mem_take he))
          (fun e he => hnn e (List.mem_of_mem_drop he))
          (by omega) (by omega)
        rw [← hsplit, hlen] at h
        unfold frameIndexByMs
        rw [h, hsucc]
        simp only [zero_add]
      · -- no boundary lies before `t`: `i` is 0
        have hi0 : i = 0 := by
          by_contra hne
          have h := hfirst (i - 1) (by omega)
          have hi1 : i - 1 + 1 = i := by omega
          rw [hi1] at h
          exact hlo h
        subst hi0
        have h := frameIndexLoop_break t frameDelays[0] (frameDelays.drop 1) 0 0
          (by simpa using (by omega : t ≤ (frameDelays.take 0).sum + frameDelays[0]))
          h0 (fun e he => hnn e (List.mem_of_mem_drop he))
        have hsplit0 : frameDelays = frameDelays[0] :: frameDelays.drop 1 := by
          simpa using hsplit
        rw [← hsplit0] at h
        unfold frameIndexByMs
        rw [h, hsucc]
        simp only [List.take_zero, List.sum_nil, zero_add, sub_zero, Nat.cast_zero]
    refine ⟨?_, hval⟩
    rw [hval]
    split_ifs
    · exact Or.inl rfl
    · exact Or.inr rfl

/-- Witness of C21: delays of 40, 100, 20 and 250 ms, sought at 60 ms and at 150 ms;
the first boundary at or after 60 ms is that of index 1 (140 ms), and the index computed
is 1. -/
theorem frameIndexByMs_monotone_witness :
    frameIndexByMs [40, 100, 20, 250] 60 ≤ frameIndexByMs [40, 100, 20, 250] 150 ∧
    frameIndexByMs [40, 100, 20, 250] 60 = ((1 : Nat) : Int) ∧
    frameIndexByMs [40, 100, 20, 250] 150 = 3 :=
  ⟨(frameIndexByMs_monotone [40, 100, 20, 250] 60 150 (by decide) (by decide) (by decide)
      (by decide)).1,
    ((frameIndexByMs_monotone [40, 100, 20, 250] 60 150 (by decide) (by decide) (by decide)
      (by decide)).2.2 1 (by decide) (by decide) (by decide)).2,
    by decide⟩

/-! ## Boundary rows of the hit regions -/

theorem viewRect_wholeNumbers (p : VideoControlProperties) (X Y W H : Int)
    (hrect : p.posAndSize = ⟨X, Y, W, H⟩) :
    doubleToInt (viewRect p).x = X ∧ doubleToInt (viewRect p).y = Y ∧
    doubleToInt (viewRect p).width = W - videoControlsHeight p ∧
    doubleToInt (viewRect p).height = H - videoControlsHeight p ∧
    videoControlsY p = Y + H - videoControlsHeight p := by
  refine ⟨?_, ?_, ?_, ?_, ?_⟩
  · simp only [viewRect, hrect]
    exact doubleToInt_intCast X
  · simp only [viewRect, hrect]
    exact doubleToInt_intCast Y
  · simp only [viewRect, hrect]
    rw [← Int.cast_sub]
    exact doubleToInt_intCast _
  · simp only [viewRect, hrect]
    rw [← Int.cast_sub]
    exact doubleToInt_intCast _
  · simp only [videoControlsY, hrect]
    rw [← Int.cast_add, ← Int.cast_sub]
    exact doubleToInt_intCast _

theorem isInBoundsOnAxis_y (pos : QPoint) (start length : Int) :
    isInBoundsOnAxis pos true start length = true ↔ start ≤ pos.y ∧ pos.y ≤ start + length := by
  simp [isInBoundsOnAxis]

theorem isInBoundsOnAxis_x (pos : QPoint) (start length : Int) :
    isInBoundsOnAxis pos false start length = true ↔ start ≤ pos.x ∧ pos.x ≤ start + length := by
  simp [isInBoundsOnAxis]

theorem isInBoundsOnAxis_y_false (pos : QPoint) (start length : Int)
    (h : pos.y < start ∨ start + length < pos.y) :
    isInBoundsOnAxis pos true start length = false := by
  rw [← Bool.not_eq_true, isInBoundsOnAxis_y]
  omega

theorem speedMinusRect_contains (p : VideoControlProperties) (pos : QPoint) :
    isInBounds pos (speedMinusRect p) = true ↔
      (p.speedX - 14 ≤ pos.x ∧ pos.x ≤ p.speedX - 14 + speedWidth) ∧
      (underVideoBarY p + underVideoBarHalfHeight p ≤ pos.y ∧
        pos.y ≤ underVideoBarY p + underVideoBarHalfHeight p + underVideoBarHalfHeight p) := by
  simp only [isInBounds, speedMinusRect, doubleToInt_intCast, Bool.and_eq_true,
    isInBoundsOnAxis_x, isInBoundsOnAxis_y]

theorem speedPlusRect_contains (p : VideoControlProperties) (pos : QPoint) :
    isInBounds pos (speedPlusRect p) = true ↔
      (p.speedX - 14 ≤ pos.x ∧ pos.x ≤ p.speedX - 14 + speedWidth) ∧
      (underVideoBarY p ≤ pos.y ∧ pos.y ≤ underVideoBarY p + underVideoBarHalfHeight p) := by
  simp only [isInBounds, speedPlusRect, doubleToInt_intCast, Bool.and_eq_true,
    isInBoundsOnAxis_x, isInBoundsOnAxis_y]

/-- C22 (counterexample): with the default positioning of a rectangle 70 wide and 100
high, the point `(5, 90)` lies inside the view's horizontal bounds, in both halves of
the speed zone and on the row they share, and resolves to `PlayPause`; with the default
positioning of a rectangle 16 high, lower than the control bar, the point `(5, -8)` on
the top row of the control bar resolves to `VideoBar`. -/
theorem boundary_rows_counterexample :
    (isInBoundsOnAxis { x := 5, y := 90 } false
        (doubleToInt
          (viewRect (setVideoControlPositioning ⟨0, 0, 70, 100⟩ 4 20 (-170) (-130) (-90) (-30))).x)
        (doubleToInt
          (viewRect
            (setVideoControlPositioning ⟨0, 0, 70, 100⟩ 4 20 (-170) (-130) (-90) (-30))).width)
        = true ∧
      ({ x := 5, y := 90 } : QPoint).y
        = underVideoBarY (setVideoControlPositioning ⟨0, 0, 70, 100⟩ 4 20 (-170) (-130) (-90) (-30))
          + underVideoBarHalfHeight
              (setVideoControlPositioning ⟨0, 0, 70, 100⟩ 4 20 (-170) (-130) (-90) (-30)) ∧
      isInBounds { x := 5, y := 90 }
        (speedMinusRect (setVideoControlPositioning ⟨0, 0, 70, 100⟩ 4 20 (-170) (-130) (-90) (-30)))
        = true ∧
      isInBounds { x := 5, y := 90 }
        (speedPlusRect (setVideoControlPositioning ⟨0, 0, 70, 100⟩ 4 20 (-170) (-130) (-90) (-30)))
        = true ∧
      mousePressVideoControls
          (setVideoControlPositioning ⟨0, 0, 70, 100⟩ 4 20 (-170) (-130) (-90) (-30))
          { x := 5, y := 90 } = VideoController.PlayPause) ∧
    (isInBoundsOnAxis { x := 5, y := -8 } false
        (doubleToInt
          (viewRect (setVideoControlPositioning ⟨0, 0, 300, 16⟩ 4 20 (-170) (-130) (-90) (-30))).x)
        (doubleToInt
          (viewRect
            (setVideoControlPositioning ⟨0, 0, 300, 16⟩ 4 20 (-170) (-130) (-90) (-30))).width)
        = true ∧
      ({ x := 5, y := -8 } : QPoint).y
        = videoControlsY (setVideoControlPositioning ⟨0, 0, 300, 16⟩ 4 20 (-170) (-130) (-90) (-30)) ∧
      mousePressVideoControls
          (setVideoControlPositioning ⟨0, 0, 300, 16⟩ 4 20 (-170) (-130) (-90) (-30))
          { x := 5, y := -8 } = VideoController.VideoBar) := by
  have hhalf : Int.tdiv 20 2 = 10 := by decide
  refine ⟨⟨?_, ?_, ?_, ?_, ?_⟩, ?_, ?_, ?_⟩ <;>
    norm_num [mousePressVideoControls, setVideoControlPositioning, viewRect,
      videoControlsHeight, videoControlsY, underVideoBarY, underVideoBarHalfHeight,
      playPauseRect, speedMinusRect, speedPlusRect, speedWidth, isInBounds, isInBoundsOnAxis,
      doubleToInt, hhalf]

theorem isInBounds_columns (pos : QPoint) (r : QRectF) (h : isInBounds pos r = true) :
    doubleToInt r.x ≤ pos.x ∧ pos.x ≤ doubleToInt r.x + doubleToInt r.width := by
  simp only [isInBounds, Bool.and_eq_true, isInBoundsOnAxis_x] at h
  exact h.1

theorem doubleToInt_ofNat (n : Nat) : doubleToInt (n : ℚ) = n := by
  have h := doubleToInt_intCast (n : Int)
  simpa using h

theorem defaultPositioning_anchors (X Y W H : Int) :
    (setVideoControlPositioning ⟨X, Y, W, H⟩ 4 20 (-170) (-130) (-90) (-30)).cacheX
      = X + W - 194 ∧
    (setVideoControlPositioning ⟨X, Y, W, H⟩ 4 20 (-170) (-130) (-90) (-30)).loopModeX
      = X + W - 154 ∧
    (setVideoControlPositioning ⟨X, Y, W, H⟩ 4 20 (-170) (-130) (-90) (-30)).frameTraversalX
      = X + W - 114 ∧
    (setVideoControlPositioning ⟨X, Y, W, H⟩ 4 20 (-170) (-130) (-90) (-30)).speedX
      = X + W - 54 := by
  have e : (X : ℚ) + ((W : ℚ) - ((4 + 20 : Int) : ℚ)) = ((X + W - 24 : Int) : ℚ) := by
    push_cast
    ring
  simp only [setVideoControlPositioning, e, doubleToInt_intCast]
  have hneg : ∀ k : Int, k < 0 →
      doubleToInt (if k < 0 then ((X + W - 24 + k : Int) : ℚ) else (X : ℚ) + k)
        = X + W - 24 + k := by
    intro k hk
    rw [if_pos hk]
    exact doubleToInt_intCast _
  refine ⟨?_, ?_, ?_, ?_⟩
  · rw [hneg (-170) (by decide)]
    omega
  · rw [hneg (-130) (by decide)]
    omega
  · rw [hneg (-90) (by decide)]
    omega
  · rw [hneg (-30) (by decide)]
    omega

/-- C22 (amended): for a positioning whose rectangle has whole-number coordinates, whose
video bar is at least one row high and whose button bar is at least two rows high (the
code's heights are 4 and 20), and a point inside the view's horizontal bounds:
a point on the top row of the control bar lies in the vertical extent of both the view
and the video bar and resolves to `View`, provided the rectangle is at least as high as
the control bar; a point on the row `underVideoBarY` lies in the vertical extent of the
video bar and of the buttons and resolves to `VideoBar`; a point of the speed zone on the
row `underVideoBarY + underVideoBarHeight / 2` lies in both halves, never resolves to
`IncreaseSpeed`, resolves to `DecreaseSpeed` whenever none of the six buttons tested
before contains it, and so does for the default positioning of a rectangle at least 84
wide. -/
theorem boundary_rows_resolved (p : VideoControlProperties) (X Y W H : Int) (pos : QPoint)
    (hrect : p.posAndSize = ⟨X, Y, W, H⟩)
    (hbar : 0 < p.videoBarHeight) (hunder : 2 ≤ p.underVideoBarHeight)
    (hx : isInBoundsOnAxis pos false (doubleToInt (viewRect p).x)
      (doubleToInt (viewRect p).width) = true) :
    (videoControlsHeight p ≤ H → pos.y = videoControlsY p →
      isInBoundsOnAxis pos true (doubleToInt (viewRect p).y)
        (doubleToInt (viewRect p).height) = true ∧
      isInBoundsOnAxis pos true (videoControlsY p) p.videoBarHeight = true ∧
      mousePressVideoControls p pos = VideoController.View) ∧
    (pos.y = underVideoBarY p →
      isInBoundsOnAxis pos true (videoControlsY p) p.videoBarHeight = true ∧
      isInBoundsOnAxis pos true (underVideoBarY p) p.underVideoBarHeight = true ∧
      mousePressVideoControls p pos = VideoController.VideoBar) ∧
    (pos.y = underVideoBarY p + underVideoBarHalfHeight p →
      isInBoundsOnAxis pos false (p.speedX - 14) speedWidth = true →
      isInBounds pos (speedMinusRect p) = true ∧
      isInBounds pos (speedPlusRect p) = true ∧
      mousePressVideoControls p pos ≠ VideoController.IncreaseSpeed ∧
      (isInBounds pos (playPauseRect p) = false → isInBounds pos (cacheRect p) = false →
        isInBounds pos (loopModeRect p) = false →
        isInBounds pos (framePreviousRect p) = false →
        isInBounds pos (frameNextRect p) = false →
        isInBounds pos (speedResetRect p) = false →
        mousePressVideoControls p pos = VideoController.DecreaseSpeed) ∧
      (p = setVideoControlPositioning ⟨X, Y, W, H⟩ 4 20 (-170) (-130) (-90) (-30) →
        84 ≤ W → mousePressVideoControls p pos = VideoController.DecreaseSpeed)) := by
  obtain ⟨hvx, hvy, hvw, hvh, hcy⟩ := viewRect_wholeNumbers p X Y W H hrect
  refine ⟨?_, ?_, ?_⟩
  · intro hhigh hy
    have hview : isInBoundsOnAxis pos true (doubleToInt (viewRect p).y)
        (doubleToInt (viewRect p).height) = true := by
      rw [isInBoundsOnAxis_y, hvy, hvh]
      constructor <;> omega
    refine ⟨hview, ?_, ?_⟩
    · rw [isInBoundsOnAxis_y]
      constructor <;> omega
    · simp [mousePressVideoControls, hx, hview]
  · intro hy
    have hview : isInBoundsOnAxis pos true (doubleToInt (viewRect p).y)
        (doubleToInt (viewRect p).height) = false := by
      apply isInBoundsOnAxis_y_false
      right
      rw [hvy, hvh, hy]
      unfold underVideoBarY
      omega
    have hvb : isInBoundsOnAxis pos true (videoControlsY p) p.videoBarHeight = true := by
      rw [isInBoundsOnAxis_y, hy]
      unfold underVideoBarY
      constructor <;> omega
    refine ⟨hvb, ?_, ?_⟩
    · rw [isInBoundsOnAxis_y]
      constructor <;> omega
    · simp [mousePressVideoControls, hx, hview, hvb]
  · intro hy hzone
    have hhalf : 1 ≤ underVideoBarHalfHeight p := by
      unfold underVideoBarHalfHeight
      rw [Int.tdiv_eq_ediv (by omega) (by omega)]
      omega
    have hview : isInBoundsOnAxis pos true (doubleToInt (viewRect p).y)
        (doubleToInt (viewRect p).height) = false := by
      apply isInBoundsOnAxis_y_false
      right
      rw [hvy, hvh, hy]
      unfold underVideoBarY
      omega
    have hvb : isInBoundsOnAxis pos true (videoControlsY p) p.videoBarHeight = false := by
      apply isInBoundsOnAxis_y_false
      right
      rw [hy]
      unfold underVideoBarY
      omega
    rw [isInBoundsOnAxis_x] at hzone
    have hminus : isInBounds pos (speedMinusRect p) = true := by
      rw [speedMinusRect_contains]
      exact ⟨hzone, by omega, by omega⟩
    have hplus : isInBounds pos (speedPlusRect p) = true := by
      rw [speedPlusRect_contains]
      exact ⟨hzone, by omega, by omega⟩
    have hcond : isInBounds pos (playPauseRect p) = false →
        isInBounds pos (cacheRect p) = false →
        isInBounds pos (loopModeRect p) = false →
        isInBounds pos (framePreviousRect p) = false →
        isInBounds pos (frameNextRect p) = false →
        isInBounds pos (speedResetRect p) = false →
        mousePressVideoControls p pos = VideoController.DecreaseSpeed := by
      intro h1 h2 h3 h4 h5 h6
      simp [mousePressVideoControls, hx, hview, hvb, h1, h2, h3, h4, h5, h6, hminus]
    refine ⟨hminus, hplus, ?_, hcond, ?_⟩
    · simp only [mousePressVideoControls, hx, hview, hvb, hminus, Bool.not_true,
        Bool.false_eq_true, if_false, if_true]
      split_ifs <;> simp
    · intro hp hW
      obtain ⟨hc, hl, hf, hs⟩ := defaultPositioning_anchors X Y W H
      rw [← hp] at hc hl hf hs
      rw [isInBoundsOnAxis_x, hvx, hvw] at hx
      have hnot : ∀ r : QRectF,
          (pos.x < doubleToInt r.x ∨ doubleToInt r.x + doubleToInt r.width < pos.x) →
          isInBounds pos r = false := by
        intro r hr
        rw [← Bool.not_eq_true]
        intro hin
        have := isInBounds_columns pos r hin
        omega
      have hw12 : doubleToInt ((frameTraversalWidth : Int) : ℚ) = 12 :=
        doubleToInt_intCast _
      have hw9 : doubleToInt ((speedWidth : Int) : ℚ) = 9 := doubleToInt_intCast _
      have h15 : doubleToInt (15 : ℚ) = 15 := doubleToInt_ofNat 15
      have h25 : doubleToInt (25 : ℚ) = 25 := doubleToInt_ofNat 25
      have h24 : doubleToInt (24 : ℚ) = 24 := doubleToInt_ofNat 24
      simp only [speedWidth] at hzone
      apply hcond
      · apply hnot
        simp only [playPauseRect, hrect, doubleToInt_intCast, h15]
        omega
      · apply hnot
        simp only [cacheRect, doubleToInt_intCast, h25]
        omega
      · apply hnot
        simp only [loopModeRect, doubleToInt_intCast, h24]
        omega
      · apply hnot
        simp only [framePreviousRect, doubleToInt_intCast, hw12]
        omega
      · apply hnot
        simp only [frameNextRect, doubleToInt_intCast, hw12, frameTraversalWidth]
        omega
      · apply hnot
        simp only [speedResetRect, doubleToInt_intCast, hw9]
        omega

/-- Witness of C22: on the sample positioning (rectangle 10, 20, 300, 224; control bar
from row 220, buttons from row 224, speed zone on the columns 242 to 251), the point
`(15, 220)` resolves to `View`, the point `(15, 224)` to `VideoBar` and the point
`(245, 234)` to `DecreaseSpeed`. -/
theorem boundary_rows_resolved_witness :
    (({ x := 15, y := 220 } : QPoint).y = videoControlsY samplePositioning ∧
      mousePressVideoControls samplePositioning { x := 15, y := 220 }
        = VideoController.View) ∧
    (({ x := 15, y := 224 } : QPoint).y = underVideoBarY samplePositioning ∧
      mousePressVideoControls samplePositioning { x := 15, y := 224 }
        = VideoController.VideoBar) ∧
    (({ x := 245, y := 234 } : QPoint).y
        = underVideoBarY samplePositioning + underVideoBarHalfHeight samplePositioning ∧
      isInBounds { x := 245, y := 234 } (speedPlusRect samplePositioning) = true ∧
      mousePressVideoControls samplePositioning { x := 245, y := 234 }
        = VideoController.DecreaseSpeed) :=
  have hhalf : Int.tdiv 20 2 = 10 := by decide
  have hrect : samplePositioning.posAndSize
      = ⟨((10 : Int) : ℚ), ((20 : Int) : ℚ), ((300 : Int) : ℚ), ((224 : Int) : ℚ)⟩ := by
    norm_num [samplePositioning, setVideoControlPositioning]
  have hbar : 0 < samplePositioning.videoBarHeight := by
    norm_num [samplePositioning, setVideoControlPositioning]
  have hunder : 2 ≤ samplePositioning.underVideoBarHeight := by
    norm_num [samplePositioning, setVideoControlPositioning]
  have hy1 : ({ x := 15, y := 220 } : QPoint).y = videoControlsY samplePositioning := by
    norm_num [samplePositioning, setVideoControlPositioning, videoControlsY,
      videoControlsHeight, doubleToInt]
  have hy2 : ({ x := 15, y := 224 } : QPoint).y = underVideoBarY samplePositioning := by
    norm_num [samplePositioning, setVideoControlPositioning, videoControlsY,
      videoControlsHeight, underVideoBarY, doubleToInt]
  have hy3 : ({ x := 245, y := 234 } : QPoint).y
      = underVideoBarY samplePositioning + underVideoBarHalfHeight samplePositioning := by
    norm_num [samplePositioning, setVideoControlPositioning, videoControlsY,
      videoControlsHeight, underVideoBarY, underVideoBarHalfHeight, doubleToInt, hhalf]
  ⟨⟨hy1,
      ((boundary_rows_resolved samplePositioning 10 20 300 224 { x := 15, y := 220 } hrect
        hbar hunder
        (by norm_num [samplePositioning, setVideoControlPositioning, viewRect,
          videoControlsHeight, isInBoundsOnAxis, doubleToInt])).1
        (by norm_num [samplePositioning, setVideoControlPositioning, videoControlsHeight])
        hy1).2.2⟩,
    ⟨hy2,
      ((boundary_rows_resolved samplePositioning 10 20 300 224 { x := 15, y := 224 } hrect
        hbar hunder
        (by norm_num [samplePositioning, setVideoControlPositioning, viewRect,
          videoControlsHeight, isInBoundsOnAxis, doubleToInt])).2.1 hy2).2.2⟩,
    ⟨hy3,
      ((boundary_rows_resolved samplePositioning 10 20 300 224 { x := 245, y := 234 } hrect
        hbar hunder
        (by norm_num [samplePositioning, setVideoControlPositioning, viewRect,
          videoControlsHeight, isInBoundsOnAxis, doubleToInt])).2.2 hy3
        (by norm_num [samplePositioning, setVideoControlPositioning, isInBoundsOnAxis,
          speedWidth, doubleToInt])).2.1,
      ((boundary_rows_resolved samplePositioning 10 20 300 224 { x := 245, y := 234 } hrect
        hbar hunder
        (by norm_num [samplePositioning, setVideoControlPositioning, viewRect,
          videoControlsHeight, isInBoundsOnAxis, doubleToInt])).2.2 hy3
        (by norm_num [samplePositioning, setVideoControlPositioning, isInBoundsOnAxis,
          speedWidth, doubleToInt])).2.2.2.2
        (by norm_num [samplePositioning])
        (by decide)⟩⟩

/-! ## Precedence of the hit regions -/

theorem isInBoundsOnAxis_wholeNumbers (pos : QPoint) (yInsteadOfX : Bool) (start length : Int) :
    isInBoundsOnAxis pos yInsteadOfX start length
      = withinExtent (((if yInsteadOfX then pos.y else pos.x : Int) : Int) : ℚ) start length := by
  have h1 : ∀ a : Int, ((start : ℚ) ≤ (a : ℚ)) ↔ start ≤ a := fun a => Int.cast_le
  have h2 : ∀ a : Int, ((a : ℚ) ≤ (start : ℚ) + (length : ℚ)) ↔ a ≤ start + length := by
    intro a
    rw [← Int.cast_add]
    exact Int.cast_le
  simp only [isInBoundsOnAxis, withinExtent, h1, h2, ge_iff_le]

theorem isInBounds_wholeNumbers (pos : QPoint) (r : QRectF)
    (h : ∃ x y w h : Int, r = ⟨x, y, w, h⟩) :
    isInBounds pos r = regionContains r pos := by
  obtain ⟨x, y, w, h, hr⟩ := h
  subst hr
  simp only [isInBounds, regionContains, doubleToInt_intCast, isInBoundsOnAxis_wholeNumbers]
  rfl

/-- C15 (counterexample): with the default positioning of the rectangle
`(10.5, 20, 300.5, 224)` the point `(287, 100)` lies inside the view's horizontal bounds
`[10.5, 287]` and within the view's vertical extent, so the precedence list gives
`View`, and `mousePressVideoControls` returns `None`; with the default positioning of
the rectangle `(10, 20.5, 300, 224)` the point `(15, 20)` lies inside the view's
horizontal bounds and above every region, so the precedence list gives `None`, and
`mousePressVideoControls` returns `View`. -/
theorem mousePressVideoControls_first_match_counterexample :
    (withinExtent (({ x := 287, y := 100 } : QPoint).x : ℚ)
        (viewRect
          (setVideoControlPositioning ⟨21 / 2, 20, 601 / 2, 224⟩ 4 20 (-170) (-130) (-90)
            (-30))).x
        (viewRect
          (setVideoControlPositioning ⟨21 / 2, 20, 601 / 2, 224⟩ 4 20 (-170) (-130) (-90)
            (-30))).width = true ∧
      firstMatch (hitRegions
          (setVideoControlPositioning ⟨21 / 2, 20, 601 / 2, 224⟩ 4 20 (-170) (-130) (-90) (-30))
          { x := 287, y := 100 }) = VideoController.View ∧
      mousePressVideoControls
          (setVideoControlPositioning ⟨21 / 2, 20, 601 / 2, 224⟩ 4 20 (-170) (-130) (-90) (-30))
          { x := 287, y := 100 } = VideoController.None) ∧
    (withinExtent (({ x := 15, y := 20 } : QPoint).x : ℚ)
        (viewRect
          (setVideoControlPositioning ⟨10, 41 / 2, 300, 224⟩ 4 20 (-170) (-130) (-90)
            (-30))).x
        (viewRect
          (setVideoControlPositioning ⟨10, 41 / 2, 300, 224⟩ 4 20 (-170) (-130) (-90)
            (-30))).width = true ∧
      firstMatch (hitRegions
          (setVideoControlPositioning ⟨10, 41 / 2, 300, 224⟩ 4 20 (-170) (-130) (-90) (-30))
          { x := 15, y := 20 }) = VideoController.None ∧
      mousePressVideoControls
          (setVideoControlPositioning ⟨10, 41 / 2, 300, 224⟩ 4 20 (-170) (-130) (-90) (-30))
          { x := 15, y := 20 } = VideoController.View) := by
  have hhalf : Int.tdiv 20 2 = 10 := by decide
  refine ⟨⟨?_, ?_, ?_⟩, ?_, ?_, ?_⟩ <;>
    norm_num [mousePressVideoControls, firstMatch, hitRegions, withinExtent, regionContains,
      setVideoControlPositioning, viewRect, videoControlsHeight, videoControlsY,
      underVideoBarY, underVideoBarHalfHeight, playPauseRect, cacheRect, loopModeRect,
      framePreviousRect, frameNextRect, speedResetRect, speedMinusRect, speedPlusRect,
      speedWidth, frameTraversalWidth, isInBounds, isInBoundsOnAxis, doubleToInt, hhalf]

/-- C15 (amended): for a positioning whose layout rectangle has whole-number
coordinates and every point inside the view's horizontal bounds
`[view.x, view.x + view.width]`, `mousePressVideoControls` returns the first entry of
the precedence list that claims the point: `View` when `y` is within the view's
vertical extent, else `VideoBar` when `y` is within the video bar's vertical extent,
else the first of the eight buttons, in their fixed order, whose rectangle contains the
point, else `None`.  The function is total: it takes no fuel and returns a control for
every point. -/
theorem mousePressVideoControls_first_match (p : VideoControlProperties) (X Y W H : Int)
    (pos : QPoint) (hrect : p.posAndSize = ⟨X, Y, W, H⟩)
    (hx : withinExtent (pos.x : ℚ) (viewRect p).x (viewRect p).width = true) :
    mousePressVideoControls p pos = firstMatch (hitRegions p pos) := by
  obtain ⟨hvx, hvy, hvw, hvh, _⟩ := viewRect_wholeNumbers p X Y W H hrect
  have hqx : (viewRect p).x = ((X : Int) : ℚ) := by simp [viewRect, hrect]
  have hqy : (viewRect p).y = ((Y : Int) : ℚ) := by simp [viewRect, hrect]
  have hqw : (viewRect p).width = ((W - videoControlsHeight p : Int) : ℚ) := by
    simp [viewRect, hrect]
  have hqh : (viewRect p).height = ((H - videoControlsHeight p : Int) : ℚ) := by
    simp [viewRect, hrect]
  have hxcode : isInBoundsOnAxis pos false (doubleToInt (viewRect p).x)
      (doubleToInt (viewRect p).width) = true := by
    rw [isInBoundsOnAxis_wholeNumbers, hvx, hvw, ← hqx, ← hqw]
    exact hx
  have hview : isInBoundsOnAxis pos true (doubleToInt (viewRect p).y)
      (doubleToInt (viewRect p).height)
        = withinExtent pos.y (viewRect p).y (viewRect p).height := by
    rw [isInBoundsOnAxis_wholeNumbers, hvy, hvh, ← hqy, ← hqh]
    rfl
  have hbar : isInBoundsOnAxis pos true (videoControlsY p) p.videoBarHeight
      = withinExtent pos.y (videoControlsY p) p.videoBarHeight := by
    rw [isInBoundsOnAxis_wholeNumbers]
    rfl
  have h1 : isInBounds pos (playPauseRect p) = regionContains (playPauseRect p) pos :=
    isInBounds_wholeNumbers pos _
      ⟨X, underVideoBarY p, 15, p.underVideoBarHeight, by simp [playPauseRect, hrect]⟩
  have h2 : isInBounds pos (cacheRect p) = regionContains (cacheRect p) pos :=
    isInBounds_wholeNumbers pos _
      ⟨p.cacheX, underVideoBarY p, 25, p.underVideoBarHeight, by simp [cacheRect]⟩
  have h3 : isInBounds pos (loopModeRect p) = regionContains (loopModeRect p) pos :=
    isInBounds_wholeNumbers pos _
      ⟨p.loopModeX, underVideoBarY p, 24, p.underVideoBarHeight, by simp [loopModeRect]⟩
  have h4 : isInBounds pos (framePreviousRect p) = regionContains (framePreviousRect p) pos :=
    isInBounds_wholeNumbers pos _
      ⟨p.frameTraversalX, underVideoBarY p, frameTraversalWidth, p.underVideoBarHeight, rfl⟩
  have h5 : isInBounds pos (frameNextRect p) = regionContains (frameNextRect p) pos :=
    isInBounds_wholeNumbers pos _
      ⟨p.frameTraversalX + frameTraversalWidth + 2, underVideoBarY p, frameTraversalWidth,
        p.underVideoBarHeight, rfl⟩
  have h6 : isInBounds pos (speedResetRect p) = regionContains (speedResetRect p) pos :=
    isInBounds_wholeNumbers pos _
      ⟨p.speedX - 28, underVideoBarY p, speedWidth, p.underVideoBarHeight, rfl⟩
  have h7 : isInBounds pos (speedMinusRect p) = regionContains (speedMinusRect p) pos :=
    isInBounds_wholeNumbers pos _
      ⟨p.speedX - 14, underVideoBarY p + underVideoBarHalfHeight p, speedWidth,
        underVideoBarHalfHeight p, rfl⟩
  have h8 : isInBounds pos (speedPlusRect p) = regionContains (speedPlusRect p) pos :=
    isInBounds_wholeNumbers pos _
      ⟨p.speedX - 14, underVideoBarY p, speedWidth, underVideoBarHalfHeight p, rfl⟩
  simp only [mousePressVideoControls, hxcode, hview, hbar, h1, h2, h3, h4, h5, h6, h7, h8,
    firstMatch, hitRegions, Bool.not_true, Bool.false_eq_true, if_false]

/-- Witness of C15: on the sample positioning (rectangle 10, 20, 300, 224) the point
`(15, 230)`, below the view and the video bar, resolves to the play/pause button, the
first entry of the precedence list that claims it. -/
theorem mousePressVideoControls_first_match_witness :
    withinExtent (({ x := 15, y := 230 } : QPoint).x : ℚ) (viewRect samplePositioning).x
      (viewRect samplePositioning).width = true ∧
    mousePressVideoControls samplePositioning { x := 15, y := 230 }
      = firstMatch (hitRegions samplePositioning { x := 15, y := 230 }) ∧
    firstMatch (hitRegions samplePositioning { x := 15, y := 230 })
      = VideoController.PlayPause :=
  have hx : withinExtent (({ x := 15, y := 230 } : QPoint).x : ℚ) (viewRect samplePositioning).x
      (viewRect samplePositioning).width = true := by
    norm_num [withinExtent, samplePositioning, setVideoControlPositioning, viewRect,
      videoControlsHeight]
  ⟨hx,
    mousePressVideoControls_first_match samplePositioning 10 20 300 224 { x := 15, y := 230 }
      (by norm_num [samplePositioning, setVideoControlPositioning]) hx,
    by
      norm_num [firstMatch, hitRegions, withinExtent, regionContains, samplePositioning,
        setVideoControlPositioning, viewRect, videoControlsHeight, videoControlsY,
        underVideoBarY, playPauseRect, doubleToInt]⟩

end AnimationTextObject
